import Mathlib

/-!
Verification development for the musictaggerz album-tagging service.

The definitions below are a shallow embedding of the Python backend
(`backend/app/...`): pure functions are translated directly, stateful code is
modelled by explicit state passing, Python floats are modelled by `ℚ`,
`None`-able values by `Option`, and external effects (MusicBrainz HTTP calls,
file writes) by oracle parameters.  Scores and thresholds are rationals.

The model restricts text handling to the ASCII fragment: Python's
`unicodedata.normalize("NFKD", ·)` is the identity on ASCII and ASCII has no
combining characters, so `matcher._normalize` reduces to lowercasing, mapping
non-word characters to spaces and collapsing whitespace, which is what
`normalizeTokens` implements.
-/

namespace MusicTaggerz

/-- Python `\s` (ASCII fragment): space, tab, newline, carriage return,
vertical tab, form feed. -/
def isSpaceChar (c : Char) : Bool :=
  c = ' ' || c = '\t' || c = '\n' || c = '\r' || c = '\x0b' || c = '\x0c'

/-- Python `\w` (ASCII fragment): alphanumerics and underscore. -/
def isWordChar (c : Char) : Bool :=
  c.isAlphanum || c = '_'

/-- Python `str.strip()` on the ASCII whitespace set. -/
def pyStripChars (cs : List Char) : List Char :=
  ((cs.dropWhile isSpaceChar).reverse.dropWhile isSpaceChar).reverse

/-- Python `str.strip()` lifted to `String`. -/
def pyStrip (s : String) : String :=
  ⟨pyStripChars s.data⟩

/-- Code-point lexicographic comparison on character lists (Python string
`<=`), structural for kernel evaluation. -/
def charListLe : List Char → List Char → Bool
  | [], _ => true
  | _ :: _, [] => false
  | a :: as, b :: bs =>
    if a < b then true else if b < a then false else charListLe as bs

/-- Python string comparison `a <= b`. -/
def pyStrLe (a b : String) : Bool :=
  charListLe a.data b.data

/-- Python `str.lower()` (ASCII fragment). -/
def lowerStr (s : String) : String :=
  ⟨s.data.map Char.toLower⟩

/-- Python `s.split(sep)` for a single-character separator, on character
lists. -/
def splitOnChar (sep : Char) (cs : List Char) : List (List Char) :=
  cs.foldr
    (fun c acc =>
      if c = sep then [] :: acc
      else
        match acc with
        | h :: t => (c :: h) :: t
        | [] => [[c]])
    [[]]

/-- Python stable `list.sort(key=...)`: insertion sort with a boolean
comparison (stable: an element is inserted after the equal elements already
sorted before it came). -/
def pySort {α : Type} (le : α → α → Bool) (l : List α) : List α :=
  List.insertionSort (fun a b => le a b = true) l

/-- Maximal runs of word characters of the lowercased input.  This computes
`_normalize(s).split()` from `matcher.py`: lowercasing, replacing every
non-word character by a space and splitting on whitespace runs. -/
def tokensAux : List Char → List Char → List String
  | [], acc => if acc.isEmpty then [] else [⟨acc.reverse⟩]
  | c :: rest, acc =>
      let c := c.toLower
      if isWordChar c then
        tokensAux rest (c :: acc)
      else if acc.isEmpty then
        tokensAux rest []
      else
        (⟨acc.reverse⟩ : String) :: tokensAux rest []

/-- Word list of `matcher._normalize`: see `tokensAux`. -/
def normalizeTokens (s : String) : List String :=
  tokensAux s.data []

/-- `matcher._text_similarity`: Jaccard index of the word sets of the two
normalized strings; `0` when either set is empty. -/
def textSimilarity (a b : String) : ℚ :=
  let wa := (normalizeTokens a).dedup
  let wb := (normalizeTokens b).dedup
  if wa.isEmpty || wb.isEmpty then 0
  else
    let inter := wa.filter (fun w => w ∈ wb)
    let union := wa ++ wb.filter (fun w => w ∉ wa)
    (inter.length : ℚ) / (union.length : ℚ)

/-- Case-insensitive literal prefix match: on success returns the remainder. -/
def dropPrefixCI : List Char → List Char → Option (List Char)
  | [], cs => some cs
  | _ :: _, [] => none
  | k :: ks, c :: cs => if c.toLower = k.toLower then dropPrefixCI ks cs else none

/-- Match `(CD|Disc|Disk)` case-insensitively at the head; the three
alternatives start pairwise incompatibly so no backtracking is needed. -/
def matchDiscKeyword (cs : List Char) : Option (List Char) :=
  match dropPrefixCI "disc".data cs with
  | some rest => some rest
  | none =>
    match dropPrefixCI "disk".data cs with
    | some rest => some rest
    | none => dropPrefixCI "cd".data cs

/-- Match `\s*[\(\[](CD|Disc|Disk)\s*\d+[\)\]]` at the head of the list,
returning the remainder after the match (`matcher._clean_album_name`,
second substitution). -/
def matchBracketDisc (cs : List Char) : Option (List Char) :=
  let cs1 := cs.dropWhile isSpaceChar
  match cs1 with
  | [] => none
  | b :: cs2 =>
    if b = '(' || b = '[' then
      match matchDiscKeyword cs2 with
      | none => none
      | some cs3 =>
        let cs4 := cs3.dropWhile isSpaceChar
        if (cs4.takeWhile Char.isDigit).isEmpty then none
        else
          match cs4.dropWhile Char.isDigit with
          | [] => none
          | c :: cs5 => if c = ')' || c = ']' then some cs5 else none
    else none

/-- `re.sub(r"\s*[\(\[](CD|Disc|Disk)\s*\d+[\)\]]", "", ·)`: scan left to
right, removing non-overlapping matches.  Fuel-driven recursion; every
successful match consumes at least five characters, so `cs.length + 1` fuel
always suffices. -/
def subBracketDiscFuel : Nat → List Char → List Char
  | 0, cs => cs
  | _ + 1, [] => []
  | fuel + 1, c :: cs =>
    match matchBracketDisc (c :: cs) with
    | some rest => subBracketDiscFuel fuel rest
    | none => c :: subBracketDiscFuel fuel cs

/-- See `subBracketDiscFuel`. -/
def subBracketDisc (cs : List Char) : List Char :=
  subBracketDiscFuel (cs.length + 1) cs

/-- Match `\s*[-–]\s*(CD|Disc|Disk)\s*\d+\s*$` against the end of the string
and remove it (`matcher._clean_album_name`, first substitution).  The
end-anchored pattern is parsed from the reversed character list; each
component is a maximal run, mirroring the greedy regex. -/
def stripTrailingDiscSuffix (cs : List Char) : List Char :=
  let r := cs.reverse
  let r1 := r.dropWhile isSpaceChar
  if (r1.takeWhile Char.isDigit).isEmpty then cs
  else
    let r2 := (r1.dropWhile Char.isDigit).dropWhile isSpaceChar
    let kwMatch :=
      match dropPrefixCI "csid".data r2 with
      | some rest => some rest
      | none =>
        match dropPrefixCI "ksid".data r2 with
        | some rest => some rest
        | none => dropPrefixCI "dc".data r2
    match kwMatch with
    | none => cs
    | some r3 =>
      match r3.dropWhile isSpaceChar with
      | [] => cs
      | d :: r4 =>
        if d = '-' || d = '–' then (r4.dropWhile isSpaceChar).reverse else cs

/-- Edition keywords of `matcher._clean_album_name`, in the alternation order
of the regex.  No keyword is a prefix of another, so prefix matching needs no
backtracking across alternatives. -/
def editionKeywords : List String :=
  ["Legacy", "Deluxe", "Special", "Limited", "Remastered", "Expanded",
   "Anniversary", "Bonus", "Premium"]

/-- Match one of the edition keywords case-insensitively at the head. -/
def matchEditionKw1 (cs : List Char) : Option (List Char) :=
  editionKeywords.firstM (fun kw => dropPrefixCI kw.data cs)

/-- Match `(Edition|Version|Remaster)` case-insensitively at the head. -/
def matchEditionKw2 (cs : List Char) : Option (List Char) :=
  (["Edition", "Version", "Remaster"] : List String).firstM
    (fun kw => dropPrefixCI kw.data cs)

/-- Expect a closing bracket at the head, returning the remainder. -/
def matchCloseBracket : List Char → Option (List Char)
  | c :: rest => if c = ')' || c = ']' then some rest else none
  | [] => none

/-- Match
`\s*[\(\[](Legacy|…|Premium)\s*(Edition|Version|Remaster)?[\)\]]`
at the head of the list (`matcher._clean_album_name`, third substitution).
If the optional second keyword matches but no closing bracket follows, the
regex backtracks to the empty alternative. -/
def matchEdition (cs : List Char) : Option (List Char) :=
  let cs1 := cs.dropWhile isSpaceChar
  match cs1 with
  | [] => none
  | b :: cs2 =>
    if b = '(' || b = '[' then
      match matchEditionKw1 cs2 with
      | none => none
      | some cs3 =>
        let cs4 := cs3.dropWhile isSpaceChar
        match matchEditionKw2 cs4 with
        | some cs5 =>
          match matchCloseBracket cs5 with
          | some cs6 => some cs6
          | none => matchCloseBracket cs4
        | none => matchCloseBracket cs4
    else none

/-- Left-to-right removal of all edition-suffix matches; fuel as in
`subBracketDiscFuel` (every match consumes at least seven characters). -/
def subEditionFuel : Nat → List Char → List Char
  | 0, cs => cs
  | _ + 1, [] => []
  | fuel + 1, c :: cs =>
    match matchEdition (c :: cs) with
    | some rest => subEditionFuel fuel rest
    | none => c :: subEditionFuel fuel cs

/-- See `subEditionFuel`. -/
def subEdition (cs : List Char) : List Char :=
  subEditionFuel (cs.length + 1) cs

/-- `re.sub(r"\s*[-–]\s*$", "", ·)`: remove a trailing dash together with the
whitespace around it (`matcher._clean_album_name`, last substitution). -/
def stripTrailingDash (cs : List Char) : List Char :=
  let r := cs.reverse
  match r.dropWhile isSpaceChar with
  | [] => cs
  | d :: r2 =>
    if d = '-' || d = '–' then (r2.dropWhile isSpaceChar).reverse else cs

/-- `matcher._clean_album_name`: strip disc indicators, edition suffixes and
trailing dash artifacts, then `strip()`. -/
def cleanAlbumName (name : String) : String :=
  if name.isEmpty then name
  else
    let cs := stripTrailingDiscSuffix name.data
    let cs := subBracketDisc cs
    let cs := subEdition cs
    let cs := stripTrailingDash cs
    ⟨pyStripChars cs⟩

/-- Match `\s*[\(\[][^)\]]*[\)\]]` at the head of the list
(`matcher._generate_search_variants`).  The greedy inner class excludes only
closing brackets, so the match runs to the first closing bracket. -/
def matchAnyBracket (cs : List Char) : Option (List Char) :=
  let cs1 := cs.dropWhile isSpaceChar
  match cs1 with
  | [] => none
  | b :: cs2 =>
    if b = '(' || b = '[' then
      match cs2.dropWhile (fun c => !(c = ')' || c = ']')) with
      | [] => none
      | _ :: rest => some rest
    else none

/-- Left-to-right removal of all bracketed runs; fuel as in
`subBracketDiscFuel` (every match consumes at least two characters). -/
def subAnyBracketFuel : Nat → List Char → List Char
  | 0, cs => cs
  | _ + 1, [] => []
  | fuel + 1, c :: cs =>
    match matchAnyBracket (c :: cs) with
    | some rest => subAnyBracketFuel fuel rest
    | none => c :: subAnyBracketFuel fuel cs

/-- See `subAnyBracketFuel`. -/
def subAnyBracket (cs : List Char) : List Char :=
  subAnyBracketFuel (cs.length + 1) cs

/-- `matcher._generate_search_variants`: query variants from most specific to
most generic. -/
def generateSearchVariants (artist album : String) : List (String × String) :=
  let variants := [(artist, album)]
  let cleaned := cleanAlbumName album
  let variants :=
    if cleaned ≠ album then variants ++ [(artist, cleaned)] else variants
  let noBrackets := pyStrip ⟨subAnyBracket album.data⟩
  let noBrackets := pyStrip ⟨stripTrailingDash noBrackets.data⟩
  if ¬noBrackets.data.isEmpty ∧ noBrackets ≠ album ∧ noBrackets ≠ cleaned then
    variants ++ [(artist, noBrackets)]
  else variants

/-! ### Data model (`audio_reader.py`, `musicbrainz_client.py`, `config.py`) -/

/-- `audio_reader.TrackInfo`: metadata of one local audio file.  Durations are
modelled by `ℚ`. -/
structure TrackInfo where
  path : String
  title : Option String := none
  artist : Option String := none
  album : Option String := none
  album_artist : Option String := none
  track_number : Option Int := none
  disc_number : Option Int := none
  year : Option Int := none
  genre : Option String := none
  duration : Option ℚ := none
  has_cover : Bool := false
  musicbrainz_recording_id : Option String := none
  musicbrainz_release_id : Option String := none
deriving Repr, DecidableEq

/-- `audio_reader.AlbumInfo`. -/
structure AlbumInfo where
  path : String
  artist : Option String := none
  album : Option String := none
  year : Option Int := none
  tracks : List TrackInfo := []
deriving Repr, DecidableEq

/-- `AlbumInfo.track_count`. -/
def AlbumInfo.track_count (a : AlbumInfo) : Nat :=
  a.tracks.length

/-- `AlbumInfo.disc_count`: number of distinct disc numbers (`1` for an
empty track list). -/
def AlbumInfo.disc_count (a : AlbumInfo) : Nat :=
  if a.tracks.isEmpty then 1
  else (a.tracks.map (fun t => t.disc_number.getD 1)).dedup.length

/-- `AlbumInfo.disc_track_counts`: tracks per disc number. -/
def AlbumInfo.disc_track_counts (a : AlbumInfo) (disc : Int) : Nat :=
  (a.tracks.filter (fun t => t.disc_number.getD 1 = disc)).length

/-- `musicbrainz_client.MBTrack`.

The fields `disc_number` and `disc_position` are referenced throughout
`matcher.py` and `tagging_service.py` but are not declared on the `MBTrack`
dataclass in `musicbrainz_client.py` as present under `src/`; only their
callers are.  Modelled from the spec: `disc_number` is the index of the
medium the track belongs to and `disc_position` its position within that
medium, while `position` is the flat position across media. -/
structure MBTrack where
  position : Int
  title : String
  duration_ms : Option Int := none
  recording_id : Option String := none
  disc_number : Int := 1
  disc_position : Int := 0
deriving Repr, DecidableEq

/-- `MBTrack.duration_seconds`. -/
def MBTrack.duration_seconds (t : MBTrack) : Option ℚ :=
  t.duration_ms.map (fun ms => (ms : ℚ) / 1000)

/-- `musicbrainz_client.MBRelease`.

The fields `disc_count` and `disc_track_counts` are referenced by
`matcher.py` and `tagging_service.py` but are not declared on the dataclass
as present under `src/`; only their callers are.  Modelled from the spec:
`disc_count` is the number of media of the release and `disc_track_counts`
maps each medium index to that medium's track count. -/
structure MBRelease where
  release_id : String
  title : String
  artist : String
  year : Option Int := none
  original_year : Option Int := none
  track_count : Nat := 0
  country : Option String := none
  media : Option String := none
  label : Option String := none
  barcode : Option String := none
  tracks : List MBTrack := []
  release_group_id : Option String := none
  genres : List String := []
  disc_count : Int := 1
  disc_track_counts : List (Int × Nat) := []
deriving Repr, DecidableEq

/-- Python `dict.get(k, d)` over an association list where later insertions
win, as produced by iterating assignments. -/
def assocGetD (m : List (Int × Nat)) (k : Int) (d : Nat) : Nat :=
  match m.reverse.find? (fun p => p.1 = k) with
  | some p => p.2
  | none => d

/-- Runtime settings (`config.Settings`) relevant to the matcher and the
orchestrator, with the defaults of `config.py`.

`backup_enabled` and `backup_max_per_album` are read by `tag_backup.py` but
are not declared on the `Settings` class as present under `src/`; they are
modelled from the spec (settings keys `backup_enabled`,
`backup_max_per_album`). -/
structure Settings where
  auto_tag_on_scan : Bool := false
  confidence_auto_threshold : ℚ := 85
  confidence_review_threshold : ℚ := 50
  preferred_countries : List String := ["US", "GB", "DE", "IT"]
  preferred_media : List String := ["Digital Media", "CD"]
  backup_enabled : Bool := true
  backup_max_per_album : Nat := 5
deriving Repr, DecidableEq

/-! ### Matcher sub-scores (`matcher.py`) -/

/-- Python truthiness of an optional string (`None` and `""` are falsy). -/
def strFalsy : Option String → Bool
  | none => true
  | some s => s.data.isEmpty

/-- Python `x or ""` for an optional string. -/
def strOrEmpty : Option String → String
  | none => ""
  | some s => s

/-- `matcher._score_text_match` (max 30 points): artist similarity times 15
plus the best album similarity (raw or cleaned album name) times 15. -/
def scoreTextMatch (localInfo : AlbumInfo) (release : MBRelease) : ℚ :=
  let artist_sim := textSimilarity (strOrEmpty localInfo.artist) release.artist
  let local_album := strOrEmpty localInfo.album
  let album_sim := textSimilarity local_album release.title
  let cleaned := cleanAlbumName local_album
  let album_sim :=
    if cleaned ≠ local_album then
      max album_sim (textSimilarity cleaned release.title)
    else album_sim
  artist_sim * 15 + album_sim * 15

/-- `matcher._score_track_count` (max 20 points). -/
def scoreTrackCount (localInfo : AlbumInfo) (release : MBRelease) : ℚ :=
  let local_count := localInfo.track_count
  let mb_count := release.track_count
  if local_count = 0 ∨ mb_count = 0 then 0
  else
    let diff := ((local_count : Int) - mb_count).natAbs
    if diff = 0 then 20
    else if diff = 1 then 15
    else if diff = 2 then 10
    else if diff ≤ 4 then 5
    else 0

/-- Python truthiness of an optional rational (`None` and `0` are falsy). -/
def ratTruthy : Option ℚ → Bool
  | none => false
  | some q => q ≠ 0

/-- Stable ascending comparison on the sort key
`(disc_number or 1, track_number or 0)` of a local track. -/
def localTrackKeyLe (a b : TrackInfo) : Bool :=
  let ka := (a.disc_number.getD 1, a.track_number.getD 0)
  let kb := (b.disc_number.getD 1, b.track_number.getD 0)
  ka.1 < kb.1 || (ka.1 = kb.1 && ka.2 ≤ kb.2)

/-- MusicBrainz tracks with positive `disc_position`, keyed by
`(disc_number, disc_position)`; later entries overwrite earlier ones, as in
the Python dict build. -/
def mbByDisc (release : MBRelease) (disc trk : Int) : Option MBTrack :=
  ((release.tracks.filter (fun mt => mt.disc_position > 0)).reverse).find?
    (fun mt => mt.disc_number = disc ∧ mt.disc_position = trk)

/-- MusicBrainz tracks sorted by flat `position` (stable). -/
def mbFlat (release : MBRelease) : List MBTrack :=
  pySort (fun a b => a.position ≤ b.position) release.tracks

/-- `matcher._score_durations` (max 20 points): average relative deviation of
matched per-track durations, disc-aware lookup first with flat-index
fallback. -/
def scoreDurations (localInfo : AlbumInfo) (release : MBRelease) : ℚ :=
  let local_tracks :=
    pySort localTrackKeyLe
      (localInfo.tracks.filter (fun t => ratTruthy t.duration))
  if local_tracks.isEmpty ∨ release.tracks.isEmpty then 0
  else
    let flat := mbFlat release
    let acc := local_tracks.enum.foldl
      (fun (acc : ℚ × Nat) (it : Nat × TrackInfo) =>
        let lt := it.2
        let disc := lt.disc_number.getD 1
        let trk := lt.track_number.getD 0
        let mb_track :=
          if trk > 0 ∧ (mbByDisc release disc trk).isSome then
            mbByDisc release disc trk
          else flat.get? it.1
        match mb_track with
        | none => acc
        | some mt =>
          match lt.duration, mt.duration_seconds with
          | some local_dur, some mb_dur =>
            if local_dur ≠ 0 ∧ mb_dur ≠ 0 ∧ mb_dur > 0 then
              (acc.1 + |local_dur - mb_dur| / mb_dur, acc.2 + 1)
            else acc
          | _, _ => acc)
      (0, 0)
    if acc.2 = 0 then 0
    else
      let avg_deviation := acc.1 / (acc.2 : ℚ)
      if avg_deviation ≤ 2 / 100 then 20
      else if avg_deviation ≤ 5 / 100 then 16
      else if avg_deviation ≤ 10 / 100 then 10
      else if avg_deviation ≤ 20 / 100 then 5
      else 0

/-- `matcher._score_media` (max 10 points). -/
def scoreMedia (s : Settings) (release : MBRelease) : ℚ :=
  if strFalsy release.media then 5
  else
    let m := strOrEmpty release.media
    if m ∈ s.preferred_media then
      max (10 - 2 * (s.preferred_media.indexOf m : ℚ)) 6
    else 2

/-- `matcher._score_country` (max 10 points). -/
def scoreCountry (s : Settings) (release : MBRelease) : ℚ :=
  if strFalsy release.country then 5
  else
    let c := strOrEmpty release.country
    if c ∈ s.preferred_countries then
      max (10 - 3 / 2 * (s.preferred_countries.indexOf c : ℚ)) 5
    else 2

/-- Python truthiness of an optional integer (`None` and `0` are falsy). -/
def intTruthy : Option Int → Bool
  | none => false
  | some v => v ≠ 0

/-- `matcher._score_year` (max 10 points); prefers the release-group original
year over the release year. -/
def scoreYear (localInfo : AlbumInfo) (release : MBRelease) : ℚ :=
  let mb_year := if intTruthy release.original_year then release.original_year
                 else release.year
  if ¬intTruthy localInfo.year ∨ ¬intTruthy mb_year then 5
  else
    let diff := (localInfo.year.getD 0 - mb_year.getD 0).natAbs
    if diff = 0 then 10
    else if diff ≤ 1 then 8
    else if diff ≤ 3 then 5
    else 2

/-- `matcher._calculate_penalties`: −15 when a single-disc local album faces
a multi-disc release with more than `local + 5` tracks; −10 when a
multi-disc local album faces a single-disc release. -/
def calculatePenalties (localInfo : AlbumInfo) (release : MBRelease) : ℚ :=
  let local_discs := (localInfo.tracks.map (fun t => t.disc_number.getD 1)).dedup
  let local_is_single := local_discs.length ≤ 1
  let mb_is_multi := release.disc_count > 1
  (if local_is_single ∧ mb_is_multi ∧
      release.track_count > localInfo.track_count + 5 then (15 : ℚ) else 0) +
  (if ¬local_is_single ∧ ¬mb_is_multi then (10 : ℚ) else 0)

/-! ### Fingerprinting (`fingerprint.py`) -/

/-- `fingerprint.AcoustIDResult`. -/
structure AcoustIDResult where
  recording_id : String
  score : ℚ
  title : String := ""
  artist : String := ""
  release_ids : List String := []
deriving Repr, DecidableEq

/-- `fingerprint.TrackFingerprint`. -/
structure TrackFingerprint where
  path : String
  duration : ℚ
  fingerprint : String
  acoustid_results : List AcoustIDResult := []
deriving Repr, DecidableEq

/-- `fingerprint.FingerprintMatch`. -/
structure FingerprintMatch where
  release_id : String
  matched_tracks : Nat := 0
  total_tracks : Nat := 0
  avg_score : ℚ := 0
  recording_ids : List String := []
deriving Repr, DecidableEq

/-- `fingerprint.compute_fingerprint_score`: 0–15 points from the proportion
of fingerprinted tracks matching the release plus the average AcoustID
confidence. -/
def computeFingerprintScore (fp_match : FingerprintMatch)
    (_local_track_count : Nat) : ℚ :=
  if fp_match.matched_tracks = 0 ∨ fp_match.total_tracks = 0 then 0
  else
    let match_ratio :=
      (fp_match.matched_tracks : ℚ) / (fp_match.total_tracks : ℚ)
    let total := match_ratio * 10 + fp_match.avg_score * 5
    min 15 (max 0 total)

/-! ### Composite score (`matcher.score_release`) -/

/-- `matcher.MatchScore` (the human-readable `details` strings are not
modelled). -/
structure MatchScore where
  release : MBRelease
  total_score : ℚ := 0
  text_score : ℚ := 0
  track_count_score : ℚ := 0
  duration_score : ℚ := 0
  media_score : ℚ := 0
  country_score : ℚ := 0
  year_score : ℚ := 0
  fingerprint_score : ℚ := 0
  penalty : ℚ := 0
deriving Repr, DecidableEq

/-- `matcher.score_release`: assembles the sub-scores, subtracts the
penalties and clamps the total to `[0, 100]`.  The Python default
`fingerprint_matches=None` is modelled as the empty list (both skip the
fingerprint bonus). -/
def scoreRelease (s : Settings) (localInfo : AlbumInfo) (release : MBRelease)
    (fingerprint_matches : List FingerprintMatch := []) : MatchScore :=
  let text_score := scoreTextMatch localInfo release
  let tc_score := scoreTrackCount localInfo release
  let dur_score := scoreDurations localInfo release
  let media_score := scoreMedia s release
  let country_score := scoreCountry s release
  let year_score := scoreYear localInfo release
  let fingerprint_score :=
    match fingerprint_matches.find?
        (fun m => m.release_id = release.release_id) with
    | some m => computeFingerprintScore m localInfo.track_count
    | none => 0
  let penalty := calculatePenalties localInfo release
  let total := text_score + tc_score + dur_score + media_score +
    country_score + year_score + fingerprint_score - penalty
  { release := release
    total_score := max 0 (min 100 total)
    text_score := text_score
    track_count_score := tc_score
    duration_score := dur_score
    media_score := media_score
    country_score := country_score
    year_score := year_score
    fingerprint_score := fingerprint_score
    penalty := penalty }

/-- `matcher.decide_action`: threshold decision on the confidence score. -/
def decideAction (s : Settings) (score : ℚ) : String :=
  if score ≥ s.confidence_auto_threshold then "auto_tag"
  else if score ≥ s.confidence_review_threshold then "needs_review"
  else "skip"

/-! ### Tag codec (`tagger.py`)

File tag states are modelled per container family.  Byte sequences are
modelled as `List Nat`. -/

/-- `tagger.TagData`: the uniform record written to audio files. -/
structure TagData where
  title : Option String := none
  artist : Option String := none
  album_artist : Option String := none
  album : Option String := none
  track_number : Option Int := none
  track_total : Option Int := none
  disc_number : Option Int := none
  disc_total : Option Int := none
  year : Option Int := none
  genre : Option String := none
  label : Option String := none
  country : Option String := none
  musicbrainz_release_id : Option String := none
  musicbrainz_recording_id : Option String := none
  cover_data : Option (List Nat) := none
  cover_mime : String := "image/jpeg"
deriving Repr, DecidableEq

/-- A FLAC picture block (`mutagen.flac.Picture`); also the decoded content
of an OGG `metadata_block_picture` comment. -/
structure FlacPicture where
  picType : Int := 0
  mime : String := ""
  desc : String := ""
  data : List Nat := []
deriving Repr, DecidableEq

/-- The tag state of a FLAC file: each Vorbis comment key the writer touches,
the picture block list, and the untouched remaining comments. -/
structure FlacState where
  title : Option (List String) := none
  artist : Option (List String) := none
  albumartist : Option (List String) := none
  album : Option (List String) := none
  tracknumber : Option (List String) := none
  discnumber : Option (List String) := none
  date : Option (List String) := none
  genre : Option (List String) := none
  label : Option (List String) := none
  organization : Option (List String) := none
  releasecountry : Option (List String) := none
  musicbrainz_albumid : Option (List String) := none
  musicbrainz_trackid : Option (List String) := none
  pictures : List FlacPicture := []
  other : List (String × List String) := []
deriving Repr, DecidableEq

/-- `str(n)` or `f"{n}/{total}"`: the number string written for
`tracknumber`/`discnumber`; the total is appended only when truthy. -/
def pyNumStr (n : Int) (total : Option Int) : String :=
  match total with
  | some t => if t ≠ 0 then toString n ++ "/" ++ toString t else toString n
  | none => toString n

/-- Python truthiness of an optional byte string (`None` and `b""` falsy). -/
def bytesTruthy : Option (List Nat) → Bool
  | none => false
  | some d => !d.isEmpty

/-- `tagger._write_flac` without the final `save()`: each comment key is set
when the corresponding record field is specified and kept otherwise; a
truthy cover clears the picture list and adds a single front cover. -/
def writeFlacTags (audio : FlacState) (tags : TagData) : FlacState :=
  { title := match tags.title with
      | some v => some [v] | none => audio.title
    artist := match tags.artist with
      | some v => some [v] | none => audio.artist
    albumartist := match tags.album_artist with
      | some v => some [v] | none => audio.albumartist
    album := match tags.album with
      | some v => some [v] | none => audio.album
    tracknumber := match tags.track_number with
      | some n => some [pyNumStr n tags.track_total]
      | none => audio.tracknumber
    discnumber := match tags.disc_number with
      | some n => some [pyNumStr n tags.disc_total]
      | none => audio.discnumber
    date := match tags.year with
      | some y => some [toString y] | none => audio.date
    genre := match tags.genre with
      | some v => some [v] | none => audio.genre
    label := match tags.label with
      | some v => some [v] | none => audio.label
    organization := match tags.label with
      | some v => some [v] | none => audio.organization
    releasecountry := match tags.country with
      | some v => some [v] | none => audio.releasecountry
    musicbrainz_albumid := match tags.musicbrainz_release_id with
      | some v => some [v] | none => audio.musicbrainz_albumid
    musicbrainz_trackid := match tags.musicbrainz_recording_id with
      | some v => some [v] | none => audio.musicbrainz_trackid
    pictures :=
      if bytesTruthy tags.cover_data then
        [{ picType := 3, mime := tags.cover_mime, desc := "Front",
           data := tags.cover_data.getD [] }]
      else audio.pictures
    other := audio.other }

/-- An ID3 `APIC` frame. -/
structure ApicFrame where
  mime : String := ""
  frameType : Int := 0
  desc : String := ""
  data : List Nat := []
deriving Repr, DecidableEq

/-- The tag state of an MP3 file: the ID3 frames the writer touches (text
frames hold a single string), the `APIC` frame list, and the untouched
remaining frames. -/
structure Mp3State where
  tit2 : Option String := none
  tpe1 : Option String := none
  tpe2 : Option String := none
  talb : Option String := none
  trck : Option String := none
  tpos : Option String := none
  tdrc : Option String := none
  tcon : Option String := none
  tpub : Option String := none
  txxxCountry : Option String := none
  txxxAlbumId : Option String := none
  txxxRecordingId : Option String := none
  apic : List ApicFrame := []
  other : List (String × String) := []
deriving Repr, DecidableEq

/-- `tagger._write_mp3` without the final `save()`: `delall` plus `add`
replaces a frame when the field is specified; a truthy cover replaces all
`APIC` frames by one front cover. -/
def writeMp3Tags (audio : Mp3State) (tags : TagData) : Mp3State :=
  { tit2 := match tags.title with
      | some v => some v | none => audio.tit2
    tpe1 := match tags.artist with
      | some v => some v | none => audio.tpe1
    tpe2 := match tags.album_artist with
      | some v => some v | none => audio.tpe2
    talb := match tags.album with
      | some v => some v | none => audio.talb
    trck := match tags.track_number with
      | some n => some (pyNumStr n tags.track_total) | none => audio.trck
    tpos := match tags.disc_number with
      | some n => some (pyNumStr n tags.disc_total) | none => audio.tpos
    tdrc := match tags.year with
      | some y => some (toString y) | none => audio.tdrc
    tcon := match tags.genre with
      | some v => some v | none => audio.tcon
    tpub := match tags.label with
      | some v => some v | none => audio.tpub
    txxxCountry := match tags.country with
      | some v => some v | none => audio.txxxCountry
    txxxAlbumId := match tags.musicbrainz_release_id with
      | some v => some v | none => audio.txxxAlbumId
    txxxRecordingId := match tags.musicbrainz_recording_id with
      | some v => some v | none => audio.txxxRecordingId
    apic :=
      if bytesTruthy tags.cover_data then
        [{ mime := tags.cover_mime, frameType := 3, desc := "Front",
           data := tags.cover_data.getD [] }]
      else audio.apic
    other := audio.other }

/-- An MP4 cover atom (`MP4Cover`): image format constant and payload. -/
structure Mp4Cover where
  imageformat : Int := 13
  data : List Nat := []
deriving Repr, DecidableEq

/-- The tag state of an MP4/M4A file.  The freeform atoms store UTF-8 byte
strings; the encoding is injective, so the decoded strings are stored. -/
structure Mp4State where
  nam : Option (List String) := none
  art : Option (List String) := none
  aart : Option (List String) := none
  alb : Option (List String) := none
  trkn : Option (List (Int × Int)) := none
  disk : Option (List (Int × Int)) := none
  day : Option (List String) := none
  gen : Option (List String) := none
  labelAtom : Option (List String) := none
  countryAtom : Option (List String) := none
  albumIdAtom : Option (List String) := none
  trackIdAtom : Option (List String) := none
  covr : Option (List Mp4Cover) := none
  other : List (String × List String) := []
deriving Repr, DecidableEq

/-- `MP4Cover.FORMAT_JPEG` and `MP4Cover.FORMAT_PNG`. -/
def mp4FormatJpeg : Int := 13

/-- See `mp4FormatJpeg`. -/
def mp4FormatPng : Int := 14

/-- `tagger._write_mp4` without the final `save()`; the number/total pairs
use `total or 0`. -/
def writeMp4Tags (audio : Mp4State) (tags : TagData) : Mp4State :=
  { nam := match tags.title with
      | some v => some [v] | none => audio.nam
    art := match tags.artist with
      | some v => some [v] | none => audio.art
    aart := match tags.album_artist with
      | some v => some [v] | none => audio.aart
    alb := match tags.album with
      | some v => some [v] | none => audio.alb
    trkn := match tags.track_number with
      | some n => some [(n, tags.track_total.getD 0)] | none => audio.trkn
    disk := match tags.disc_number with
      | some n => some [(n, tags.disc_total.getD 0)] | none => audio.disk
    day := match tags.year with
      | some y => some [toString y] | none => audio.day
    gen := match tags.genre with
      | some v => some [v] | none => audio.gen
    labelAtom := match tags.label with
      | some v => some [v] | none => audio.labelAtom
    countryAtom := match tags.country with
      | some v => some [v] | none => audio.countryAtom
    albumIdAtom := match tags.musicbrainz_release_id with
      | some v => some [v] | none => audio.albumIdAtom
    trackIdAtom := match tags.musicbrainz_recording_id with
      | some v => some [v] | none => audio.trackIdAtom
    covr :=
      if bytesTruthy tags.cover_data then
        some [{ imageformat := if tags.cover_mime = "image/png" then
                  mp4FormatPng else mp4FormatJpeg,
                data := tags.cover_data.getD [] }]
      else audio.covr
    other := audio.other }

/-- The tag state of an OGG Vorbis/Opus file: the same Vorbis comment keys
as FLAC; `metadata_block_picture` stores the base64 serialization of one
picture block (serialization is injective, so the picture is stored). -/
structure OggState where
  title : Option (List String) := none
  artist : Option (List String) := none
  albumartist : Option (List String) := none
  album : Option (List String) := none
  tracknumber : Option (List String) := none
  discnumber : Option (List String) := none
  date : Option (List String) := none
  genre : Option (List String) := none
  label : Option (List String) := none
  organization : Option (List String) := none
  releasecountry : Option (List String) := none
  musicbrainz_albumid : Option (List String) := none
  musicbrainz_trackid : Option (List String) := none
  metadataBlockPicture : Option FlacPicture := none
  other : List (String × List String) := []
deriving Repr, DecidableEq

/-- `tagger._write_ogg` without the final `save()`. -/
def writeOggTags (audio : OggState) (tags : TagData) : OggState :=
  { title := match tags.title with
      | some v => some [v] | none => audio.title
    artist := match tags.artist with
      | some v => some [v] | none => audio.artist
    albumartist := match tags.album_artist with
      | some v => some [v] | none => audio.albumartist
    album := match tags.album with
      | some v => some [v] | none => audio.album
    tracknumber := match tags.track_number with
      | some n => some [pyNumStr n tags.track_total]
      | none => audio.tracknumber
    discnumber := match tags.disc_number with
      | some n => some [pyNumStr n tags.disc_total]
      | none => audio.discnumber
    date := match tags.year with
      | some y => some [toString y] | none => audio.date
    genre := match tags.genre with
      | some v => some [v] | none => audio.genre
    label := match tags.label with
      | some v => some [v] | none => audio.label
    organization := match tags.label with
      | some v => some [v] | none => audio.organization
    releasecountry := match tags.country with
      | some v => some [v] | none => audio.releasecountry
    musicbrainz_albumid := match tags.musicbrainz_release_id with
      | some v => some [v] | none => audio.musicbrainz_albumid
    musicbrainz_trackid := match tags.musicbrainz_recording_id with
      | some v => some [v] | none => audio.musicbrainz_trackid
    metadataBlockPicture :=
      if bytesTruthy tags.cover_data then
        some { picType := 3, mime := tags.cover_mime, desc := "Front",
               data := tags.cover_data.getD [] }
      else audio.metadataBlockPicture
    other := audio.other }

/-- An audio file as seen by `tagger.write_tags`: one of the four supported
container families, or an unsupported extension. -/
inductive AudioFile where
  | flac (s : FlacState)
  | mp3 (s : Mp3State)
  | mp4 (s : Mp4State)
  | ogg (isOpus : Bool) (s : OggState)
  | unsupported
deriving Repr, DecidableEq

/-- `tagger.write_tags`: dispatch on the container family; unsupported
extensions leave the file unchanged and report failure.  Parse errors
(`CorruptFile`) are not modelled here; the orchestrator model receives write
success from an oracle instead. -/
def writeTagsFile (file : AudioFile) (tags : TagData) : AudioFile × Bool :=
  match file with
  | .flac s => (.flac (writeFlacTags s tags), true)
  | .mp3 s => (.mp3 (writeMp3Tags s tags), true)
  | .mp4 s => (.mp4 (writeMp4Tags s tags), true)
  | .ogg o s => (.ogg o (writeOggTags s tags), true)
  | .unsupported => (.unsupported, false)

/-! ### Backup store (`tag_backup.py`), FLAC codec path -/

/-- Digit run to `Nat`; `none` unless the list is a non-empty all-digit run. -/
def digitsToNat (cs : List Char) : Option Nat :=
  if cs.isEmpty then none
  else if cs.all Char.isDigit then
    some (cs.foldl (fun n c => n * 10 + (c.toNat - '0'.toNat)) 0)
  else none

/-- Python `int(s)` for an already-stripped character list: optional sign
followed by digits; `none` models the `ValueError` path.  (Underscore digit
grouping is not modelled.) -/
def pyParseIntChars : List Char → Option Int
  | '+' :: rest => (digitsToNat rest).map (fun n => (n : Int))
  | '-' :: rest => (digitsToNat rest).map (fun n => -(n : Int))
  | cs => (digitsToNat cs).map (fun n => (n : Int))

/-- See `pyParseIntChars`. -/
def pyParseInt (s : String) : Option Int :=
  pyParseIntChars s.data

/-- `tag_backup._parse_number_total`: parse `"3/12"` or `"3"` into
`(number, total)`; parse failures yield `none` components. -/
def parseNumberTotal (value : String) : Option Int × Option Int :=
  if value.data.isEmpty then (none, none)
  else
    let parts := splitOnChar '/' value.data
    let p0 := pyStripChars (parts.headD [])
    let num := if p0.isEmpty then none else pyParseIntChars p0
    let total :=
      if parts.length > 1 then
        let p1 := pyStripChars ((parts.get? 1).getD [])
        if p1.isEmpty then none else pyParseIntChars p1
      else none
    (num, total)

/-- `tag_backup._safe_str` applied to a mutagen list value: first element,
stripped; note the list branch returns the stripped string even when it is
empty. -/
def safeStrList : Option (List String) → Option String
  | none => none
  | some [] => none
  | some (v :: _) => some (pyStrip v)

/-- Python `a or b` on optional strings (`None` and `""` falsy). -/
def pyOrStr (a b : Option String) : Option String :=
  if strFalsy a then b else a

/-- `tag_backup._read_flac_full`: read every field `write_tags` can write
from a FLAC tag state. -/
def readFlacFull (audio : FlacState) : TagData :=
  let tn_str := safeStrList audio.tracknumber
  let dn_str := safeStrList audio.discnumber
  let tn := match tn_str with
    | some s => if ¬s.data.isEmpty then parseNumberTotal s else (none, none)
    | none => (none, none)
  let dn := match dn_str with
    | some s => if ¬s.data.isEmpty then parseNumberTotal s else (none, none)
    | none => (none, none)
  let year := match safeStrList audio.date with
    | some ys =>
      if ¬ys.data.isEmpty then pyParseIntChars (ys.data.take 4) else none
    | none => none
  let cover := match audio.pictures with
    | [] => (none, "image/jpeg")
    | pic :: _ =>
      (some pic.data,
       if pic.mime.data.isEmpty then "image/jpeg" else pic.mime)
  { title := safeStrList audio.title
    artist := safeStrList audio.artist
    album_artist := safeStrList audio.albumartist
    album := safeStrList audio.album
    track_number := tn.1
    track_total := tn.2
    disc_number := dn.1
    disc_total := dn.2
    year := year
    genre := safeStrList audio.genre
    label := pyOrStr (safeStrList audio.label) (safeStrList audio.organization)
    country := safeStrList audio.releasecountry
    musicbrainz_release_id := safeStrList audio.musicbrainz_albumid
    musicbrainz_recording_id := safeStrList audio.musicbrainz_trackid
    cover_data := cover.1
    cover_mime := cover.2 }

/-- The JSON document stored in `TrackTagSnapshot.tags_json`
(`tag_backup._tag_data_to_dict`): every `TagData` field except
`cover_data`. -/
structure TagDict where
  title : Option String := none
  artist : Option String := none
  album_artist : Option String := none
  album : Option String := none
  track_number : Option Int := none
  track_total : Option Int := none
  disc_number : Option Int := none
  disc_total : Option Int := none
  year : Option Int := none
  genre : Option String := none
  label : Option String := none
  country : Option String := none
  musicbrainz_release_id : Option String := none
  musicbrainz_recording_id : Option String := none
  cover_mime : String := "image/jpeg"
deriving Repr, DecidableEq

/-- `tag_backup._tag_data_to_dict`. -/
def tagDataToDict (td : TagData) : TagDict :=
  { title := td.title
    artist := td.artist
    album_artist := td.album_artist
    album := td.album
    track_number := td.track_number
    track_total := td.track_total
    disc_number := td.disc_number
    disc_total := td.disc_total
    year := td.year
    genre := td.genre
    label := td.label
    country := td.country
    musicbrainz_release_id := td.musicbrainz_release_id
    musicbrainz_recording_id := td.musicbrainz_recording_id
    cover_mime := td.cover_mime }

/-- `tag_backup._dict_to_tag_data`: rebuild a `TagData` without cover
payload. -/
def dictToTagData (d : TagDict) : TagData :=
  { title := d.title
    artist := d.artist
    album_artist := d.album_artist
    album := d.album
    track_number := d.track_number
    track_total := d.track_total
    disc_number := d.disc_number
    disc_total := d.disc_total
    year := d.year
    genre := d.genre
    label := d.label
    country := d.country
    musicbrainz_release_id := d.musicbrainz_release_id
    musicbrainz_recording_id := d.musicbrainz_recording_id
    cover_data := none
    cover_mime := d.cover_mime }

/-- A `TrackTagSnapshot` row. -/
structure SnapshotRow where
  track_id : Nat
  path : String
  tags_json : TagDict
  has_cover : Bool := false
  cover_path : Option String := none
deriving Repr, DecidableEq

/-- Name of the shared per-backup cover file
(`<BACKUP_DIR>/<backupId>/cover.{jpg|png}`; the directory prefix is
constant and omitted). -/
def backupCoverName (mime : String) : String :=
  if mime = "image/png" then "cover.png" else "cover.jpg"

/-- Accumulator of the `create_backup` loop. -/
structure BackupAcc where
  snaps : List SnapshotRow := []
  disk : List (String × List Nat) := []
  coverFile : Option String := none
deriving Repr, DecidableEq

/-- One iteration of the `create_backup` loop over a track, reading the
track's FLAC state: save the shared cover file the first time a truthy cover
is seen, then append the snapshot row. -/
def createBackupStep (fs : String → FlacState) (acc : BackupAcc)
    (tr : Nat × String) : BackupAcc :=
  let td := readFlacFull (fs tr.2)
  let has_cover := td.cover_data.isSome
  let acc :=
    if has_cover ∧ bytesTruthy td.cover_data ∧ acc.coverFile = none then
      let p := backupCoverName td.cover_mime
      { acc with disk := acc.disk ++ [(p, td.cover_data.getD [])],
                 coverFile := some p }
    else acc
  { acc with snaps := acc.snaps ++
      [{ track_id := tr.1, path := tr.2, tags_json := tagDataToDict td,
         has_cover := has_cover,
         cover_path := if has_cover then acc.coverFile else none }] }

/-- `tag_backup.create_backup` restricted to the FLAC codec: snapshot every
track in scope (all files are assumed present and readable — the claim's
scope), sharing one cover file per backup. -/
def createBackupFlac (fs : String → FlacState) (trackList : List (Nat × String)) :
    BackupAcc :=
  trackList.foldl (createBackupStep fs) {}

/-- `tag_backup.restore_backup`, per-snapshot record: rebuild the snapshot's
`TagData` and rehydrate the cover from the backup directory. -/
def restoreSnapTd (disk : List (String × List Nat)) (snap : SnapshotRow) :
    TagData :=
  let td := dictToTagData snap.tags_json
  if snap.has_cover then
    match snap.cover_path with
    | some p =>
      match disk.find? (fun e => e.1 = p) with
      | some e => { td with cover_data := some e.2 }
      | none => td
    | none => td
  else td

/-- `tag_backup.restore_backup` restricted to the FLAC codec (continued):
merge-write each snapshot over the current state of its file. -/
def restoreBackupFlac (snaps : List SnapshotRow)
    (disk : List (String × List Nat)) (fs : String → FlacState) :
    String → FlacState :=
  snaps.foldl
    (fun fs snap =>
      fun q => if q = snap.path then
        writeFlacTags (fs q) (restoreSnapTd disk snap) else fs q)
    fs

/-- First picture's payload of a FLAC state, if any. -/
def flacCover (st : FlacState) : Option (List Nat) :=
  match st.pictures with
  | [] => none
  | pic :: _ => some pic.data

/-- The tag record an immediate restore writes back over a file in a backup
whose shared cover file holds this file's own cover bytes: the snapshot's
serialized fields with the file's first picture payload as cover. -/
def roundTd (st : FlacState) : TagData :=
  { dictToTagData (tagDataToDict (readFlacFull st)) with
      cover_data := flacCover st }

/-! ### Writer-canonical FLAC states

A FLAC tag state is writer-canonical when every comment value is in the
exact shape `write_tags` produces, so that the read–serialize–write round
trip reproduces it byte for byte. -/

/-- Plain string comment: absent, or a single already-stripped value. -/
def canonicalStrField : Option (List String) → Bool
  | none => true
  | some [s] => pyStrip s = s
  | some _ => false

/-- `tracknumber`/`discnumber` comment: absent, unparsable (then never
rewritten), or exactly the string the writer would produce for its parse. -/
def canonicalNumField : Option (List String) → Bool
  | none => true
  | some [s] =>
    let st := pyStripChars s.data
    if st.isEmpty then true
    else
      match parseNumberTotal (⟨st⟩ : String) with
      | (some n, t) => s = pyNumStr n t
      | (none, _) => true
  | some _ => false

/-- `date` comment: absent, year-free, or exactly the parsed year's decimal
representation. -/
def canonicalDateField : Option (List String) → Bool
  | none => true
  | some [s] =>
    let ys := pyStripChars s.data
    if ys.isEmpty then true
    else
      match pyParseIntChars (ys.take 4) with
      | some y => s = toString y
      | none => true
  | some _ => false

/-- `label`/`organization` pair: both absent, or both the same single
stripped value (the writer always sets the two keys together). -/
def canonicalLabelPair : Option (List String) → Option (List String) → Bool
  | none, none => true
  | some [s], some [s2] => s = s2 && pyStrip s = s
  | _, _ => false

/-- Picture list: empty, or a single front cover with a MIME type. -/
def canonicalPictures : List FlacPicture → Bool
  | [] => true
  | [pic] => pic.picType = 3 && pic.desc = "Front" && !pic.mime.data.isEmpty
  | _ => false

/-- Writer-canonical FLAC state: see the individual field predicates. -/
def canonicalFlacState (st : FlacState) : Bool :=
  canonicalStrField st.title &&
  canonicalStrField st.artist &&
  canonicalStrField st.albumartist &&
  canonicalStrField st.album &&
  canonicalNumField st.tracknumber &&
  canonicalNumField st.discnumber &&
  canonicalDateField st.date &&
  canonicalStrField st.genre &&
  canonicalLabelPair st.label st.organization &&
  canonicalStrField st.releasecountry &&
  canonicalStrField st.musicbrainz_albumid &&
  canonicalStrField st.musicbrainz_trackid &&
  canonicalPictures st.pictures

/-! ### Fingerprint aggregation (`fingerprint.py`) -/

/-- One vote of `aggregate_release_candidates`: record the release id with
the result's score and recording unless this track has already voted for
that release (`seen_releases_for_track`). -/
def fpVoteStep (r : AcoustIDResult)
    (acc : List (String × ℚ × String) × List String) (rid : String) :
    List (String × ℚ × String) × List String :=
  if rid ∈ acc.2 then acc
  else (acc.1 ++ [(rid, r.score, r.recording_id)], acc.2 ++ [rid])

/-- The per-track vote loop of `aggregate_release_candidates` over the
track's AcoustID results. -/
def fpVotePairsAux (results : List AcoustIDResult)
    (acc : List (String × ℚ × String) × List String) :
    List (String × ℚ × String) × List String :=
  results.foldl (fun acc r => r.release_ids.foldl (fpVoteStep r) acc) acc

/-- Per-track votes of `aggregate_release_candidates`: the
`(release_id, score, recording_id)` triples a single fingerprinted track
contributes, in result-iteration order, deduplicated by release id through
the `seen_releases_for_track` set. -/
def fpVotePairs (fp : TrackFingerprint) : List (String × ℚ × String) :=
  (fpVotePairsAux fp.acoustid_results ([], [])).1

/-- Insert one vote into the `release_data` dictionary (keys keep insertion
order; per-release score list grows in vote order; recording ids are a
set). -/
def releaseDataInsert (m : List (String × List ℚ × List String))
    (rid : String) (score : ℚ) (rec : String) :
    List (String × List ℚ × List String) :=
  if m.any (fun e => e.1 = rid) then
    m.map (fun e =>
      if e.1 = rid then
        (e.1, e.2.1 ++ [score], if rec ∈ e.2.2 then e.2.2 else e.2.2 ++ [rec])
      else e)
  else m ++ [(rid, [score], [rec])]

/-- The `release_data` dictionary of `aggregate_release_candidates`. -/
def aggregateReleaseData (fps : List TrackFingerprint) :
    List (String × List ℚ × List String) :=
  fps.foldl
    (fun m fp =>
      (fpVotePairs fp).foldl (fun m v => releaseDataInsert m v.1 v.2.1 v.2.2) m)
    []

/-- Descending comparison on `(matched_tracks, avg_score)`; total, so the
stable merge sort mirrors Python's stable `sort(..., reverse=True)`. -/
def fpKeyGe (a b : FingerprintMatch) : Bool :=
  b.matched_tracks < a.matched_tracks ||
  (b.matched_tracks = a.matched_tracks && b.avg_score ≤ a.avg_score)

/-- `fingerprint.aggregate_release_candidates`: group votes by release,
count votes and average the scores, sort descending by
`(matched_tracks, avg_score)` and keep the top 10. -/
def aggregateReleaseCandidates (fps : List TrackFingerprint) :
    List FingerprintMatch :=
  let total_tracks := fps.length
  let candidates := (aggregateReleaseData fps).map
    (fun e =>
      { release_id := e.1
        matched_tracks := e.2.1.length
        total_tracks := total_tracks
        avg_score :=
          if e.2.1.length ≠ 0 then e.2.1.sum / (e.2.1.length : ℚ) else 0
        recording_ids := e.2.2 })
  (pySort fpKeyGe candidates).take 10

/-- Specification-side count: a fingerprinted track matches a release when
any of its AcoustID results names that release. -/
def trackMatchesRelease (fp : TrackFingerprint) (rid : String) : Bool :=
  fp.acoustid_results.any (fun r => rid ∈ r.release_ids)

/-- Specification-side vote score: the confidence of the first AcoustID
result of the track that names the release. -/
def fpVoteScore (fp : TrackFingerprint) (rid : String) : Option ℚ :=
  (fp.acoustid_results.find? (fun r => rid ∈ r.release_ids)).map (·.score)

/-! ### Persistent rows (`models.py`) -/

/-- A `tracks` row (fields used by the orchestrator and scanner). -/
structure TrackRow where
  id : Nat
  album_id : Nat
  path : String
  track_number : Option Int := none
  disc_number : Option Int := none
  title : Option String := none
  artist : Option String := none
  duration : Option ℚ := none
  musicbrainz_recording_id : Option String := none
  status : String := "pending"
  error_message : Option String := none
deriving Repr, DecidableEq

/-- An `albums` row (fields used by the orchestrator, scanner and queue). -/
structure AlbumRow where
  id : Nat
  path : String
  artist : Option String := none
  album : Option String := none
  year : Option Int := none
  status : String := "pending"
  match_confidence : Option ℚ := none
  musicbrainz_release_id : Option String := none
  musicbrainz_release_group_id : Option String := none
  track_count : Nat := 0
  retry_count : Nat := 0
  error_message : Option String := none
deriving Repr, DecidableEq

/-! ### Orchestrator (`tagging_service.py`) -/

/-- Python `str.title()`: uppercase every letter that follows a non-letter,
lowercase the rest. -/
def pyTitle (s : String) : String :=
  ⟨(s.data.foldl
      (fun (acc : List Char × Bool) c =>
        if c.isAlpha then
          (acc.1 ++ [if acc.2 then c.toLower else c.toUpper], true)
        else (acc.1 ++ [c], false))
      ([], false)).1⟩

/-- SQL ascending order on a nullable integer column (NULLs first). -/
def optIntLe (a b : Option Int) : Bool :=
  match a, b with
  | none, _ => true
  | some _, none => false
  | some x, some y => x ≤ y

/-- `order_by(Track.disc_number, Track.track_number)`. -/
def trackRowKeyLe (a b : TrackRow) : Bool :=
  match a.disc_number, b.disc_number with
  | none, none => optIntLe a.track_number b.track_number
  | none, some _ => true
  | some _, none => false
  | some x, some y =>
    if x = y then optIntLe a.track_number b.track_number else x ≤ y

/-- The tag record `_write_album_tags` builds for one track (before the
per-track title/recording fields). -/
def baseTagData (release : MBRelease) (use_flat_only : Bool) (disc_num : Int)
    (track_total : Nat) (disc_total : Option Int) : TagData :=
  { artist := some release.artist
    album_artist := some release.artist
    album := some release.title
    year := if intTruthy release.original_year then release.original_year
            else release.year
    genre := release.genres.head?.map pyTitle
    label := release.label
    country := release.country
    track_total := some (track_total : Int)
    disc_number := some (if use_flat_only then 1 else disc_num)
    disc_total := disc_total
    musicbrainz_release_id := some release.release_id }

/-- Result of `_write_album_tags`: the updated track rows and the number of
successful file writes. -/
structure WriteAlbumResult where
  tracks : List TrackRow
  success_count : Nat
deriving Repr, DecidableEq

/-- `tagging_service._write_album_tags`: map each local track to a
MusicBrainz track, build its tag record and write it; per-file success comes
from the `writeOk` oracle.  Successful tracks become `tagged`, failures
`failed` with the error message recorded. -/
def writeTrackMbTrack (release : MBRelease) (flat : List MBTrack)
    (use_flat_only : Bool) (it : Nat × TrackRow) : Option MBTrack :=
  let i := it.1
  let track := it.2
  let disc_num := track.disc_number.getD 1
  if use_flat_only then flat.get? i
  else
    let trk_num := track.track_number.getD 0
    if trk_num > 0 ∧ (mbByDisc release disc_num trk_num).isSome then
      mbByDisc release disc_num trk_num
    else flat.get? i

/-- The tag record `_write_album_tags` writes for one enumerated track. -/
def writeTrackTagData (release : MBRelease) (flat : List MBTrack)
    (use_flat_only : Bool) (disc_total : Option Int) (it : Nat × TrackRow) :
    TagData :=
  let i := it.1
  let track := it.2
  let disc_num := track.disc_number.getD 1
  let track_total :=
    if use_flat_only then release.track_count
    else assocGetD release.disc_track_counts disc_num release.track_count
  let tag_data := baseTagData release use_flat_only disc_num track_total
    disc_total
  match writeTrackMbTrack release flat use_flat_only it with
  | some mt =>
    { tag_data with
        title := some mt.title
        musicbrainz_recording_id := mt.recording_id
        track_number := some (if use_flat_only then ((i : Int) + 1)
          else if mt.disc_position > 0 then mt.disc_position
          else mt.position) }
  | none => tag_data

/-- The updated track row recorded after a successful write. -/
def writeTrackRowOk (release : MBRelease) (flat : List MBTrack)
    (use_flat_only : Bool) (disc_total : Option Int) (it : Nat × TrackRow) :
    TrackRow :=
  let track :=
    match writeTrackMbTrack release flat use_flat_only it with
    | some mt =>
      { it.2 with title := some mt.title
                  musicbrainz_recording_id := mt.recording_id }
    | none => it.2
  { track with
      artist := some release.artist
      track_number :=
        (writeTrackTagData release flat use_flat_only disc_total
          it).track_number
      disc_number :=
        (writeTrackTagData release flat use_flat_only disc_total
          it).disc_number
      status := "tagged" }

/-- One iteration of the `_write_album_tags` loop over the enumerated
sorted tracks. -/
def writeTrackStep (writeOk : String → TagData → Bool) (release : MBRelease)
    (flat : List MBTrack) (use_flat_only : Bool) (disc_total : Option Int)
    (acc : List TrackRow × Nat) (it : Nat × TrackRow) :
    List TrackRow × Nat :=
  if writeOk it.2.path
      (writeTrackTagData release flat use_flat_only disc_total it) then
    (acc.1 ++ [writeTrackRowOk release flat use_flat_only disc_total it],
      acc.2 + 1)
  else
    (acc.1 ++ [{ it.2 with
        status := "failed"
        error_message := some "Failed to write tags" }], acc.2)

/-- `tagging_service._write_album_tags` (continued): sort the rows, choose
flat-only mapping, then fold `writeTrackStep` over the enumerated tracks. -/
def writeAlbumTags (writeOk : String → TagData → Bool) (release : MBRelease)
    (trackRows : List TrackRow) : WriteAlbumResult :=
  let tracks := pySort trackRowKeyLe trackRows
  let flat := mbFlat release
  let local_discs := (tracks.map (fun t => t.disc_number.getD 1)).dedup
  let local_is_single_disc := local_discs.length = 1
  let mb_is_multi_disc := release.disc_count > 1
  let use_flat_only := local_is_single_disc ∧ mb_is_multi_disc
  let tracks :=
    if use_flat_only then pySort (fun a b => pyStrLe a.path b.path) tracks
    else tracks
  let disc_total :=
    if mb_is_multi_disc ∧ ¬local_is_single_disc then some release.disc_count
    else none
  let r := tracks.enum.foldl
    (writeTrackStep writeOk release flat use_flat_only disc_total) ([], 0)
  { tracks := r.1, success_count := r.2 }

/-- Outcome of the `auto_tag` branch of `process_album` (steps 5–8 and the
final commit).  The artwork, lyrics and ReplayGain steps never touch the
`status`/`error_message` columns and are omitted; exceptional aborts are out
of scope of a completed run. -/
def autoTagRun (writeOk : String → TagData → Bool) (album : AlbumRow)
    (release : MBRelease) (trackRows : List TrackRow) :
    AlbumRow × List TrackRow × Bool :=
  let r := writeAlbumTags writeOk release trackRows
  if r.success_count > 0 then
    ({ album with
        artist := some release.artist
        album := some release.title
        year := if intTruthy release.original_year then release.original_year
                else release.year
        musicbrainz_release_id := some release.release_id
        musicbrainz_release_group_id := release.release_group_id
        status := "tagged"
        error_message := none }, r.tracks, true)
  else
    ({ album with
        status := "failed"
        error_message := some "Failed to write tags" }, r.tracks, false)

/-- Outcome of the decision phase of `process_album`. -/
inductive DecisionOutcome where
  | failed (message : String)
  | decided (action : String) (candidates : List MatchScore)
deriving Repr, DecidableEq

/-- The decision phase of `process_album` (lines 66–131): a user-supplied
release id bypasses matching and forces `auto_tag` (when the detail fetch
succeeds); otherwise the action comes from `decide_action` on the best
candidate of `matches` — the candidate list after the optional fingerprint
refinement — downgraded from `auto_tag` to `needs_review` in manual mode
unless user-initiated. -/
def albumDecision (s : Settings) (releaseId : Option String) (fetchOk : Bool)
    (candidates : List MatchScore) (user_initiated : Bool) : DecisionOutcome :=
  match releaseId with
  | some rid =>
    if fetchOk then .decided "auto_tag" []
    else .failed ("Could not fetch release " ++ rid)
  | none =>
    match candidates with
    | [] => .failed "No MusicBrainz matches found"
    | best :: _ =>
      let action := decideAction s best.total_score
      let action :=
        if action = "auto_tag" ∧ ¬user_initiated ∧ ¬s.auto_tag_on_scan then
          "needs_review"
        else action
      .decided action candidates

/-! ### Work queue (`queue_manager.py`) -/

/-- `queue_manager.MAX_RETRIES`. -/
def MAX_RETRIES : Nat := 3

/-- `queue_manager.QueueItem`. -/
structure QueueItem where
  folder_path : Option String := none
  album_id : Option Nat := none
  release_id : Option String := none
  retry_count : Nat := 0
deriving Repr, DecidableEq

/-- `queue_manager._handle_retry`: re-enqueue with an incremented retry count
while `retry_count < MAX_RETRIES - 1`; `none` when the item is dropped.  The
persisted `Album.retry_count` is set to the new count on re-enqueue. -/
def handleRetry (item : QueueItem) : Option QueueItem :=
  if item.retry_count < MAX_RETRIES - 1 then
    some { item with retry_count := item.retry_count + 1 }
  else none

/-- Result of `_process_item`: either finished (dropped or terminal) or
re-enqueued. -/
inductive ItemResult where
  | done
  | requeue (item : QueueItem)
deriving Repr, DecidableEq

/-- The album-id resolution at the head of `_process_item`: a direct album
item keeps its id; a folder item is resolved through `scan_single_folder`. -/
def resolveAlbumId (scanFolder : String → Option Nat) (item : QueueItem) :
    Option Nat :=
  match item.album_id with
  | some aid => some aid
  | none =>
    match item.folder_path with
    | some p => scanFolder p
    | none => none

/-- `queue_manager._process_item`, driven by three oracles: folder
resolution, `process_album` success, and the album's post-processing status.
A failed run is re-enqueued unless the album ended in `needs_review` or
`skipped` (terminal decisions) or the retry budget is spent. -/
def processItem (scanFolder : String → Option Nat)
    (runAlbum : Nat → Option String → Bool) (statusOf : Nat → String)
    (item : QueueItem) : ItemResult :=
  match resolveAlbumId scanFolder item with
  | none => .done
  | some aid =>
    if ¬runAlbum aid item.release_id ∧ item.retry_count < MAX_RETRIES - 1 then
      if statusOf aid = "needs_review" ∨ statusOf aid = "skipped" then .done
      else
        match handleRetry
            (QueueItem.mk none (some aid) item.release_id
              item.retry_count) with
        | some item2 => .requeue item2
        | none => .done
    else .done

/-- One `_worker_loop` iteration: run `_process_item`; an exception
(`raises` oracle) triggers `_handle_retry` on the original item.  Returns
the re-enqueued item, if any. -/
def workerStep (scanFolder : String → Option Nat)
    (runAlbum : Nat → Option String → Bool) (statusOf : Nat → String)
    (raises : QueueItem → Bool) (item : QueueItem) : Option QueueItem :=
  if raises item then handleRetry item
  else
    match processItem scanFolder runAlbum statusOf item with
    | .done => none
    | .requeue it => some it

/-- The worker loop on an explicit queue: process the head, append any
re-enqueued item, continue; the processed items are logged in order.  Fuel
bounds the number of iterations. -/
def workerRun (scanFolder : String → Option Nat)
    (runAlbum : Nat → Option String → Bool) (statusOf : Nat → String)
    (raises : QueueItem → Bool) :
    Nat → List QueueItem → List QueueItem
  | 0, _ => []
  | _ + 1, [] => []
  | fuel + 1, item :: rest =>
    item :: workerRun scanFolder runAlbum statusOf raises fuel
      (rest ++ (match workerStep scanFolder runAlbum statusOf raises item with
                | some it => [it]
                | none => []))

/-- Retry potential of one item: one slot for processing it plus one for
each remaining retry. -/
def itemPotential (item : QueueItem) : Nat :=
  1 + (MAX_RETRIES - 1 - min item.retry_count (MAX_RETRIES - 1))

/-- Total retry potential of a queue: an upper bound on the number of worker
iterations needed to drain it. -/
def queuePotential (items : List QueueItem) : Nat :=
  (items.map itemPotential).sum

/-! ### Matching entry point (`matcher.find_matches`), instrumented with the
list of MusicBrainz requests it issues -/

/-- A MusicBrainz web-service request. -/
inductive MBRequest where
  | search (artist album : String) (limit : Nat)
  | details (release_id : String)
deriving Repr, DecidableEq

/-- Result of `find_matches`: the scored candidates plus the requests
issued. -/
structure FindMatchesResult where
  scored : List MatchScore := []
  requests : List MBRequest := []
deriving Repr, DecidableEq

/-- Python `x or default` on an optional string. -/
def strOrDefault (v : Option String) (d : String) : String :=
  if strFalsy v then d else v.getD ""

/-- Descending stable comparison on `total_score`. -/
def scoreGe (a b : MatchScore) : Bool :=
  b.total_score ≤ a.total_score

/-- `matcher.find_matches`, with the remote services as oracles
(`searchOracle` for `search_releases`, `detailsOracle` for
`get_release_details`).  Returns the scored candidates and logs every
request issued: missing artist and album metadata short-circuits to an empty
result with no request. -/
def findMatches (s : Settings)
    (searchOracle : String → String → List MBRelease)
    (detailsOracle : String → Option MBRelease)
    (localInfo : AlbumInfo) (limit : Nat := 10) : FindMatchesResult :=
  if strFalsy localInfo.artist ∧ strFalsy localInfo.album then {}
  else
    let artist := strOrDefault localInfo.artist "Unknown"
    let album := strOrDefault localInfo.album "Unknown"
    let variants := generateSearchVariants artist album
    let searchPhase := variants.foldl
      (fun (acc : List MBRelease × List MBRequest) v =>
        if acc.1.isEmpty then
          (searchOracle v.1 v.2, acc.2 ++ [.search v.1 v.2 15])
        else acc)
      ([], [])
    let search_results := searchPhase.1
    if search_results.isEmpty then { requests := searchPhase.2 }
    else
      let filtered := search_results.filter
        (fun r => ¬(r.track_count > 0 ∧
          ((r.track_count : Int) - localInfo.track_count).natAbs >
            localInfo.track_count))
      let pre_scored :=
        pySort scoreGe (filtered.map (fun r => scoreRelease s localInfo r))
      let top_candidates := pre_scored.take 5
      let detailPhase := top_candidates.foldl
        (fun (acc : List MatchScore × List MBRequest) m =>
          let req := MBRequest.details m.release.release_id
          match detailsOracle m.release.release_id with
          | some detailed => (acc.1 ++ [scoreRelease s localInfo detailed],
              acc.2 ++ [req])
          | none => (acc.1, acc.2 ++ [req]))
        ([], searchPhase.2)
      { scored := (pySort scoreGe detailPhase.1).take limit
        requests := detailPhase.2 }

/-! ### Scanner (`album_scanner.py`, `audio_reader.py`)

The filesystem is a finite tree; the disc-subfolder pattern matcher
(`is_disc_subfolder`, driven by the configurable regex list) is a parameter
`discPat`, fixed across calls like the process-wide compiled-pattern
cache. -/

/-- `audio_reader.AUDIO_EXTENSIONS`. -/
def audioExtensions : List String :=
  [".flac", ".mp3", ".m4a", ".mp4", ".ogg", ".opus", ".wma"]

/-- Extensions `read_track` can actually parse (`.wma` is listed as an audio
extension but has no reader and always fails to read). -/
def readableExtensions : List String :=
  [".flac", ".mp3", ".m4a", ".mp4", ".ogg", ".opus"]

/-- A file as the scanner sees it: name, extension (as `os.path.splitext`
would yield it) and the tag-read outcome (`none` models unreadable or
corrupt files). -/
structure FsFile where
  name : String
  ext : String
  meta : Option TrackInfo := none
deriving Repr, DecidableEq

/-- A directory: `files` and `subdirs` in `os.listdir` order. -/
inductive FsDir where
  | mk (name : String) (files : List FsFile) (subdirs : List FsDir)

/-- Directory name. -/
def FsDir.name : FsDir → String
  | .mk n _ _ => n

/-- Direct files. -/
def FsDir.files : FsDir → List FsFile
  | .mk _ fs _ => fs

/-- Direct subdirectories. -/
def FsDir.subdirs : FsDir → List FsDir
  | .mk _ _ ds => ds

/-- `os.path.join`. -/
def joinPath (parent name : String) : String :=
  parent ++ "/" ++ name

/-- `audio_reader.has_audio_files`: a direct file with an audio extension. -/
def hasAudioFiles (d : FsDir) : Bool :=
  d.files.any (fun f => lowerStr f.ext ∈ audioExtensions)

/-- `audio_reader.read_track`: parse one file; unsupported extensions and
unreadable files give `none`; the track's `path` is the file path. -/
def readTrackFs (filepath : String) (f : FsFile) : Option TrackInfo :=
  if lowerStr f.ext ∈ readableExtensions then
    f.meta.map (fun t => { t with path := filepath })
  else none

/-- Keys of a Python dict built by first-encounter insertion. -/
def insertionKeys [DecidableEq α] (vs : List α) : List α :=
  vs.foldl (fun acc v => if v ∈ acc then acc else acc ++ [v]) []

/-- `audio_reader._most_common`: the first-encountered value with the
maximal count (`max(counts, key=counts.get)` iterates the dict in insertion
order). -/
def mostCommon [DecidableEq α] (vs : List α) : Option α :=
  ((insertionKeys vs).map (fun k => (k, vs.count k))).foldl
    (fun best e =>
      match best with
      | none => some e
      | some b => if e.2 > b.2 then some e else best)
    none |>.map (·.1)

/-- Album-level artist votes: `t.album_artist or t.artist`, truthy only. -/
def artistVotes (tracks : List TrackInfo) : List String :=
  tracks.filterMap (fun t =>
    let v := pyOrStr t.album_artist t.artist
    if strFalsy v then none else some (v.getD ""))

/-- Album-level votes for a truthy optional value. -/
def truthyVotes (f : TrackInfo → Option Int) (tracks : List TrackInfo) :
    List Int :=
  tracks.filterMap (fun t => if intTruthy (f t) then f t else none)

/-- Album-level album-title votes, truthy only. -/
def albumVotes (tracks : List TrackInfo) : List String :=
  tracks.filterMap (fun t => if strFalsy t.album then none else t.album)

/-- `audio_reader.scan_album_folder`: read every audio file of the folder in
sorted name order, vote on the album fields, sort tracks by
`(disc_number or 1, track_number or 0)`. -/
def scanAlbumFolderFs (path : String) (d : FsDir) : Option AlbumInfo :=
  let files := pySort (fun a b => pyStrLe a.name b.name) d.files
  let tracks := files.foldl
    (fun acc f =>
      if lowerStr f.ext ∈ audioExtensions then
        match readTrackFs (joinPath path f.name) f with
        | some t => acc ++ [t]
        | none => acc
      else acc)
    []
  if tracks.isEmpty then none
  else some
    { path := path
      artist := mostCommon (artistVotes tracks)
      album := mostCommon (albumVotes tracks)
      year := mostCommon (truthyVotes (fun t => t.year) tracks)
      tracks := pySort localTrackKeyLe tracks }

/-- `audio_reader.find_disc_subfolders`: subdirectories matching the disc
pattern that contain audio, keyed by disc number (later entries overwrite),
sorted by disc number. -/
def findDiscSubfolders (discPat : String → Option Int) (path : String)
    (d : FsDir) : List (Int × String × FsDir) :=
  let entries := d.subdirs.foldl
    (fun (acc : List (Int × String × FsDir)) sub =>
      match discPat sub.name with
      | some n =>
        if hasAudioFiles sub then
          acc.filter (fun e => e.1 ≠ n) ++ [(n, joinPath path sub.name, sub)]
        else acc
      | none => acc)
    []
  pySort (fun a b => a.1 ≤ b.1) entries

/-- `audio_reader.scan_multi_disc_album`: merge the tracks of every disc
subfolder (disc number imposed when the file's own is falsy), vote on the
album fields, sort. -/
def scanMultiDiscFs (parentPath : String)
    (discSubs : List (Int × String × FsDir)) : Option AlbumInfo :=
  let all_tracks := discSubs.foldl
    (fun acc e =>
      let files := pySort (fun a b => pyStrLe a.name b.name) e.2.2.files
      files.foldl
        (fun acc f =>
          if lowerStr f.ext ∈ audioExtensions then
            match readTrackFs (joinPath e.2.1 f.name) f with
            | some t =>
              acc ++ [if intTruthy t.disc_number then t
                      else { t with disc_number := some e.1 }]
            | none => acc
          else acc)
        acc)
    []
  if all_tracks.isEmpty then none
  else some
    { path := parentPath
      artist := mostCommon (artistVotes all_tracks)
      album := mostCommon (albumVotes all_tracks)
      year := mostCommon (truthyVotes (fun t => t.year) all_tracks)
      tracks := pySort localTrackKeyLe all_tracks }

/-- The persistent store as the scanner sees it. -/
structure ScanDB where
  albums : List AlbumRow := []
  tracks : List TrackRow := []
  logs : List (Option Nat × String) := []
  nextAlbumId : Nat := 1
  nextTrackId : Nat := 1
deriving Repr, DecidableEq

/-- `db.query(Album).filter(Album.path == p).first()`. -/
def queryAlbumByPath (db : ScanDB) (p : String) : Option AlbumRow :=
  db.albums.find? (fun a => a.path = p)

/-- Track rows of one album. -/
def albumTracks (db : ScanDB) (aid : Nat) : List TrackRow :=
  db.tracks.filter (fun t => t.album_id = aid)

/-- Delete an album row and its track rows (`_scan_multi_disc_folder`
cleanup and force-rescan path). -/
def removeAlbum (db : ScanDB) (aid : Nat) : ScanDB :=
  { db with
      albums := db.albums.filter (fun a => a.id ≠ aid)
      tracks := db.tracks.filter (fun t => t.album_id ≠ aid) }

/-- Build the track rows inserted for a scanned album. -/
def newTrackRows (firstId : Nat) (aid : Nat) (tracks : List TrackInfo) :
    List TrackRow :=
  tracks.enum.map (fun it =>
    { id := firstId + it.1
      album_id := aid
      path := it.2.path
      track_number := it.2.track_number
      disc_number := some (if intTruthy it.2.disc_number
        then (it.2.disc_number.getD 1) else 1)
      title := it.2.title
      artist := it.2.artist
      duration := it.2.duration
      musicbrainz_recording_id := it.2.musicbrainz_recording_id
      status := "pending" })

/-- The album row inserted for a scanned folder; its MusicBrainz release id
is the first truthy one among the tracks. -/
def insertAlbumRow (aid : Nat) (path : String) (info : AlbumInfo) :
    AlbumRow :=
  { id := aid
    path := path
    artist := info.artist
    album := info.album
    year := info.year
    status := "pending"
    track_count := info.track_count
    musicbrainz_release_id := (info.tracks.filterMap
      (fun t => if strFalsy t.musicbrainz_release_id then none
                else t.musicbrainz_release_id)).head? }

/-- Insert a new album with its tracks and the `scanned` log entry
(`_scan_album_folder` / `_scan_multi_disc_folder`, insert path). -/
def dbInsertAlbum (db : ScanDB) (path : String) (info : AlbumInfo) :
    ScanDB × Nat :=
  ({ db with
      albums := db.albums ++ [insertAlbumRow db.nextAlbumId path info]
      tracks := db.tracks ++ [] ++
        newTrackRows db.nextTrackId db.nextAlbumId info.tracks
      logs := db.logs ++ [(some db.nextAlbumId, "scanned")]
      nextAlbumId := db.nextAlbumId + 1
      nextTrackId := db.nextTrackId + info.tracks.length }, db.nextAlbumId)

/-- On-disk track paths of a scanned folder, as the Python dict keys
(first-encounter insertion order). -/
def diskKeys (info : AlbumInfo) : List String :=
  insertionKeys (info.tracks.map (fun t => t.path))

/-- The album's current track paths in the database (dict-key order). -/
def dbKeys (db : ScanDB) (aid : Nat) : List String :=
  insertionKeys ((albumTracks db aid).map (fun t => t.path))

/-- Paths on disk but not in the database. -/
def addedKeys (db : ScanDB) (aid : Nat) (info : AlbumInfo) : List String :=
  (diskKeys info).filter (fun p => p ∉ dbKeys db aid)

/-- Paths in the database but no longer on disk. -/
def removedKeys (db : ScanDB) (aid : Nat) (info : AlbumInfo) :
    List String :=
  (dbKeys db aid).filter (fun p => p ∉ diskKeys info)

/-- The scanned tracks backing the added paths. -/
def addedTrackInfos (db : ScanDB) (aid : Nat) (info : AlbumInfo) :
    List TrackInfo :=
  (addedKeys db aid info).filterMap (fun p =>
    (info.tracks.reverse.find? (fun t => t.path = p)))

/-- The database mutation of a non-trivial incremental update: delete the
removed paths (a global delete by path), insert rows for the added tracks,
bump `track_count`, reset the status to `pending` and log
`incremental_update`. -/
def incUpdApply (db : ScanDB) (aid : Nat) (info : AlbumInfo) : ScanDB :=
  { db with
      tracks := (db.tracks.filter
          (fun t => t.path ∉ removedKeys db aid info)) ++
        newTrackRows db.nextTrackId aid (addedTrackInfos db aid info)
      albums := db.albums.map (fun a =>
        if a.id = aid then
          { a with track_count := (diskKeys info).length,
                   status := "pending" }
        else a)
      logs := db.logs ++ [(some aid, "incremental_update")]
      nextTrackId := db.nextTrackId + (addedTrackInfos db aid info).length }

/-- `album_scanner._incremental_update`: diff the on-disk track paths
against the album's rows and apply the mutation — or change nothing when
the sets agree. -/
def incrementalUpdate (db : ScanDB) (album : AlbumRow)
    (info? : Option AlbumInfo) : ScanDB × Bool :=
  match info? with
  | none => (db, false)
  | some info =>
    if (addedKeys db album.id info).isEmpty ∧
        (removedKeys db album.id info).isEmpty then (db, false)
    else (incUpdApply db album.id info, true)

/-- One discovered album folder: its path, the disc-subfolder paths (empty
for a flat album) and the scanned album info. -/
structure Discovered where
  path : String
  discPaths : List String := []
  info : Option AlbumInfo := none
deriving Repr, DecidableEq

/-- `scan_directory` discovery pass (pure in the filesystem): root children
in sorted order, skipping dot-names; a child with direct audio is a flat
album; else disc subfolders make it multi-disc; else recurse one level with
the same classification. -/
def discover (discPat : String → Option Int) (rootPath : String)
    (root : FsDir) : List Discovered :=
  (pySort (fun a b => pyStrLe a.name b.name) root.subdirs).foldl
    (fun acc entry =>
      if entry.name.data.head? = some '.' then acc
      else
        let p := joinPath rootPath entry.name
        if hasAudioFiles entry then
          acc ++ [{ path := p, info := scanAlbumFolderFs p entry }]
        else
          let subs := findDiscSubfolders discPat p entry
          if ¬subs.isEmpty then
            acc ++ [{ path := p, discPaths := subs.map (fun e => e.2.1),
                      info := scanMultiDiscFs p subs }]
          else
            (pySort (fun a b => pyStrLe a.name b.name) entry.subdirs).foldl
              (fun acc sub =>
                if sub.name.data.head? = some '.' then acc
                else
                  let sp := joinPath p sub.name
                  if hasAudioFiles sub then
                    acc ++ [{ path := sp, info := scanAlbumFolderFs sp sub }]
                  else
                    let subs2 := findDiscSubfolders discPat sp sub
                    if ¬subs2.isEmpty then
                      acc ++ [{ path := sp,
                                discPaths := subs2.map (fun e => e.2.1),
                                info := scanMultiDiscFs sp subs2 }]
                    else acc)
              acc)
    []

/-- The per-disc obsolete-album cleanup run before inserting a discovered
folder (`_scan_multi_disc_folder`): remove any album record sitting at a
disc subfolder path. -/
def removeObsolete (db : ScanDB) (dps : List String) : ScanDB :=
  dps.foldl
    (fun db dp =>
      match queryAlbumByPath db dp with
      | some old => removeAlbum db old.id
      | none => db)
    db

/-- Process one discovered folder with `force=false` (continued). -/
def scanStep (db : ScanDB) (d : Discovered) : ScanDB × Option (Nat × Bool) :=
  match queryAlbumByPath db d.path with
  | some existing =>
    ((incrementalUpdate db existing d.info).1, some (existing.id, false))
  | none =>
    let db := removeObsolete db d.discPaths
    match d.info with
    | none => (db, none)
    | some info =>
      let r := dbInsertAlbum db d.path info
      (r.1, some (r.2, true))

/-- Result of `scan_directory`. -/
structure ScanResult where
  db : ScanDB
  albumIds : List Nat := []
  newAlbumIds : List Nat := []
deriving Repr, DecidableEq

/-- One folder of the `scan_directory` processing loop: run `scanStep` and
record the album id, tracking which albums are new. -/
def scanResStep (acc : ScanResult) (d : Discovered) : ScanResult :=
  let r := scanStep acc.db d
  match r.2 with
  | some (aid, isNew) =>
    { db := r.1
      albumIds := acc.albumIds ++ [aid]
      newAlbumIds := if isNew then acc.newAlbumIds ++ [aid]
                     else acc.newAlbumIds }
  | none => { acc with db := r.1 }

/-- Queueing a new album flips its status from `pending` to `matching`. -/
def statusFlip (db : ScanDB) (aid : Nat) : ScanDB :=
  { db with albums := db.albums.map (fun a =>
      if a.id = aid ∧ a.status = "pending" then
        { a with status := "matching" }
      else a) }

/-- `album_scanner.scan_directory` with `force=false`: discover, process
every folder, then queue the new albums. -/
def scanDirectory (discPat : String → Option Int) (rootPath : String)
    (root : FsDir) (db0 : ScanDB) : ScanResult :=
  let ds := discover discPat rootPath root
  let folded := ds.foldl scanResStep { db := db0 }
  { folded with db := folded.newAlbumIds.foldl statusFlip folded.db }

/-! ### Specification-side predicates used by the theorems -/

/-- A local album is single-disc: all tracks carry the same effective disc
number (an empty album is vacuously single-disc, as in the code's
`len(set(...)) <= 1`). -/
def allSameDisc (a : AlbumInfo) : Prop :=
  ∀ t₁ ∈ a.tracks, ∀ t₂ ∈ a.tracks,
    t₁.disc_number.getD 1 = t₂.disc_number.getD 1

instance (a : AlbumInfo) : Decidable (allSameDisc a) := by
  unfold allSameDisc; infer_instance

/-- Vote scores a release collects across fingerprinted tracks: one score per
matching track. -/
def releaseVoteScores (fps : List TrackFingerprint) (rid : String) :
    List ℚ :=
  fps.filterMap (fun fp => fpVoteScore fp rid)

/-- Scores among a vote-pair list that belong to one release. -/
def votePairScores (ps : List (String × ℚ × String)) (rid : String) :
    List ℚ :=
  (ps.filter (fun v => v.1 = rid)).map (fun v => v.2.1)

/-- Score list stored for a release in the `release_data` dictionary. -/
def scoresOf (m : List (String × List ℚ × List String)) (rid : String) :
    List ℚ :=
  match m.find? (fun e => e.1 = rid) with
  | some e => e.2.1
  | none => []

/-- Set-level membership equality of two path lists. -/
def pathSetEq (l1 l2 : List String) : Prop := ∀ p, p ∈ l1 ↔ p ∈ l2

/-- Database integrity: unique album paths and ids, ids below the album
sequence, unique track paths, track owners below the album sequence
(`models.py` unique constraints and sequence behaviour). -/
def scanDBOk (db : ScanDB) : Prop :=
  (db.albums.map (fun a => a.path)).Nodup ∧
  (db.albums.map (fun a => a.id)).Nodup ∧
  (∀ a ∈ db.albums, a.id < db.nextAlbumId) ∧
  ((db.tracks.map (fun t => t.path)).Nodup) ∧
  (∀ t ∈ db.tracks, t.album_id < db.nextAlbumId)

/-- A discovered folder in sync with the database: its album row exists and
carries exactly the on-disk track paths — or it never scanned and neither it
nor its disc subfolders have album rows. -/
def synced (db : ScanDB) (d : Discovered) : Prop :=
  match d.info with
  | none =>
    (∃ alb, queryAlbumByPath db d.path = some alb) ∨
    (queryAlbumByPath db d.path = none ∧
      ∀ dp ∈ d.discPaths, queryAlbumByPath db dp = none)
  | some info =>
    ∃ alb, queryAlbumByPath db d.path = some alb ∧
      pathSetEq (diskKeys info) (dbKeys db alb.id)

/-- Every database track lying inside a discovered folder's on-disk track
set belongs to the album row at that folder's path (`models.py` foreign keys
plus per-folder scanning). -/
def tracksOwned (db : ScanDB) (d : Discovered) : Prop :=
  ∀ info, d.info = some info →
    ∀ t ∈ db.tracks, t.path ∈ info.tracks.map (fun t2 => t2.path) →
      ∃ a ∈ db.albums, a.path = d.path ∧ t.album_id = a.id

/-- The database component of the `scan_directory` processing fold. -/
def scanFoldDb (db : ScanDB) (ds : List Discovered) : ScanDB :=
  ds.foldl (fun db d => (scanStep db d).1) db

/-! # Theorems -/

theorem rat_clamp_le_100 (t : ℚ) : max 0 (min 100 t) ≤ 100 :=
  max_le (by norm_num) (min_le_left _ _)

/-- **C1.**  `score_release` returns the artist/title text, track-count,
duration, media, country, year and fingerprint sub-scores summed, minus the
penalties, clamped to `[0, 100]`; and the function is deterministic: equal
inputs give equal `MatchScore`s. -/
theorem scoreRelease_clamped_sum_deterministic
    (s s' : Settings) (localInfo localInfo' : AlbumInfo)
    (release release' : MBRelease) (fps fps' : List FingerprintMatch)
    (hs : s = s') (hl : localInfo = localInfo') (hr : release = release')
    (hf : fps = fps') :
    (scoreRelease s localInfo release fps).text_score =
        scoreTextMatch localInfo release ∧
    (scoreRelease s localInfo release fps).track_count_score =
        scoreTrackCount localInfo release ∧
    (scoreRelease s localInfo release fps).duration_score =
        scoreDurations localInfo release ∧
    (scoreRelease s localInfo release fps).media_score =
        scoreMedia s release ∧
    (scoreRelease s localInfo release fps).country_score =
        scoreCountry s release ∧
    (scoreRelease s localInfo release fps).year_score =
        scoreYear localInfo release ∧
    (scoreRelease s localInfo release fps).fingerprint_score =
        (match fps.find? (fun m => m.release_id = release.release_id) with
         | some m => computeFingerprintScore m localInfo.track_count
         | none => 0) ∧
    (scoreRelease s localInfo release fps).penalty =
        calculatePenalties localInfo release ∧
    (scoreRelease s localInfo release fps).total_score =
      max 0 (min 100
        ((scoreRelease s localInfo release fps).text_score +
         (scoreRelease s localInfo release fps).track_count_score +
         (scoreRelease s localInfo release fps).duration_score +
         (scoreRelease s localInfo release fps).media_score +
         (scoreRelease s localInfo release fps).country_score +
         (scoreRelease s localInfo release fps).year_score +
         (scoreRelease s localInfo release fps).fingerprint_score -
         (scoreRelease s localInfo release fps).penalty)) ∧
    0 ≤ (scoreRelease s localInfo release fps).total_score ∧
    (scoreRelease s localInfo release fps).total_score ≤ 100 ∧
    scoreRelease s localInfo release fps =
      scoreRelease s' localInfo' release' fps' := by
  subst hs hl hr hf
  refine ⟨rfl, rfl, rfl, rfl, rfl, rfl, rfl, rfl, rfl, le_max_left _ _,
    rat_clamp_le_100 _, rfl⟩

/-- Witness for C1 at concrete inputs. -/
theorem scoreRelease_clamped_sum_deterministic_witness :
    (scoreRelease {} ({ path := "/m/a" } : AlbumInfo)
      ({ release_id := "r", title := "T", artist := "A" } : MBRelease)
      []).total_score ≤ 100 :=
  (scoreRelease_clamped_sum_deterministic {} {}
    ({ path := "/m/a" } : AlbumInfo) ({ path := "/m/a" } : AlbumInfo)
    ({ release_id := "r", title := "T", artist := "A" } : MBRelease)
    ({ release_id := "r", title := "T", artist := "A" } : MBRelease) [] []
    rfl rfl rfl rfl).2.2.2.2.2.2.2.2.2.2.1

theorem dedup_length_le_one_iff {α : Type} [DecidableEq α] (l : List α) :
    l.dedup.length ≤ 1 ↔ ∀ a ∈ l, ∀ b ∈ l, a = b := by
  constructor
  · intro h a ha b hb
    have ha' : a ∈ l.dedup := List.mem_dedup.2 ha
    have hb' : b ∈ l.dedup := List.mem_dedup.2 hb
    cases hd : l.dedup with
    | nil => rw [hd] at ha'; cases ha'
    | cons x xs =>
      cases xs with
      | nil =>
        rw [hd] at ha' hb'
        simp at ha' hb'
        rw [ha', hb']
      | cons y ys => rw [hd] at h; simp at h
  · intro h
    by_contra hlen
    push_neg at hlen
    cases hd : l.dedup with
    | nil => rw [hd] at hlen; simp at hlen
    | cons x xs =>
      cases xs with
      | nil => rw [hd] at hlen; simp at hlen
      | cons y ys =>
        have hnd := l.nodup_dedup
        rw [hd] at hnd
        have hxy : x ≠ y := by
          intro hxy
          exact (List.nodup_cons.1 hnd).1 (hxy ▸ List.mem_cons_self y ys)
        have hx : x ∈ l := List.mem_dedup.1 (hd ▸ List.mem_cons_self x (y :: ys))
        have hy : y ∈ l := List.mem_dedup.1
          (hd ▸ List.mem_cons_of_mem x (List.mem_cons_self y ys))
        exact hxy (h x hx y hy)

/-- **C8.**  The scoring penalty is exactly 15 when the local album is
single-disc while the MusicBrainz release is multi-disc with more than
`local + 5` tracks, plus exactly 10 when the local album is multi-disc while
the release is single-disc. -/
theorem scoreRelease_penalty_cases (s : Settings) (localInfo : AlbumInfo)
    (release : MBRelease) (fps : List FingerprintMatch) :
    (scoreRelease s localInfo release fps).penalty =
      (if allSameDisc localInfo ∧ 1 < release.disc_count ∧
          localInfo.track_count + 5 < release.track_count then (15 : ℚ)
       else 0) +
      (if ¬allSameDisc localInfo ∧ release.disc_count ≤ 1 then (10 : ℚ)
       else 0) := by
  have hds : ((localInfo.tracks.map
      (fun t => t.disc_number.getD 1)).dedup.length ≤ 1) ↔
      allSameDisc localInfo := by
    rw [dedup_length_le_one_iff]
    constructor
    · intro h t1 h1 t2 h2
      exact h _ (List.mem_map_of_mem _ h1) _ (List.mem_map_of_mem _ h2)
    · intro h a ha b hb
      obtain ⟨t1, h1, rfl⟩ := List.mem_map.1 ha
      obtain ⟨t2, h2, rfl⟩ := List.mem_map.1 hb
      exact h t1 h1 t2 h2
  have hpen : (scoreRelease s localInfo release fps).penalty =
      calculatePenalties localInfo release := rfl
  rw [hpen]
  simp only [calculatePenalties]
  congr 1
  · exact if_congr (and_congr hds Iff.rfl) rfl rfl
  · exact if_congr (and_congr (not_congr hds) not_lt) rfl rfl

/-- **C2.**  The action decision: `auto_tag` iff the score reaches
`confidence_auto_threshold` (default 85), `needs_review` iff it is between
`confidence_review_threshold` (default 50) and the auto threshold, `skip`
below the review threshold; in manual mode a non-user-initiated `auto_tag`
is downgraded to `needs_review`; a user-supplied release id forces
`auto_tag` independently of any candidate list. -/
theorem decideAction_thresholds (s : Settings)
    (hth : s.confidence_review_threshold ≤ s.confidence_auto_threshold)
    (score : ℚ) (user_initiated : Bool) (best : MatchScore)
    (rest cands : List MatchScore) (rid : String) :
    ((decideAction s score = "auto_tag" ↔
        s.confidence_auto_threshold ≤ score) ∧
     (decideAction s score = "needs_review" ↔
        s.confidence_review_threshold ≤ score ∧
        score < s.confidence_auto_threshold) ∧
     (decideAction s score = "skip" ↔
        score < s.confidence_review_threshold)) ∧
    (({} : Settings).confidence_auto_threshold = 85 ∧
     ({} : Settings).confidence_review_threshold = 50) ∧
    (s.auto_tag_on_scan = false →
      decideAction s best.total_score = "auto_tag" →
      albumDecision s none true (best :: rest) user_initiated =
        .decided (if user_initiated then "auto_tag" else "needs_review")
          (best :: rest)) ∧
    albumDecision s (some rid) true cands user_initiated =
      .decided "auto_tag" [] := by
  have hcases :
      (s.confidence_auto_threshold ≤ score ∧
        decideAction s score = "auto_tag") ∨
      (¬s.confidence_auto_threshold ≤ score ∧
        s.confidence_review_threshold ≤ score ∧
        decideAction s score = "needs_review") ∨
      (¬s.confidence_auto_threshold ≤ score ∧
        ¬s.confidence_review_threshold ≤ score ∧
        decideAction s score = "skip") := by
    unfold decideAction
    by_cases h1 : s.confidence_auto_threshold ≤ score
    · exact Or.inl ⟨h1, by simp [ge_iff_le, h1]⟩
    · by_cases h2 : s.confidence_review_threshold ≤ score
      · exact Or.inr (Or.inl ⟨h1, h2, by simp [ge_iff_le, h1, h2]⟩)
      · exact Or.inr (Or.inr ⟨h1, h2, by simp [ge_iff_le, h1, h2]⟩)
  refine ⟨⟨?_, ?_, ?_⟩, ⟨rfl, rfl⟩, ?_, rfl⟩
  · rcases hcases with ⟨h1, he⟩ | ⟨h1, _, he⟩ | ⟨h1, _, he⟩ <;> rw [he]
    · exact iff_of_true rfl h1
    · exact iff_of_false (by decide) h1
    · exact iff_of_false (by decide) h1
  · rcases hcases with ⟨h1, he⟩ | ⟨h1, h2, he⟩ | ⟨h1, h2, he⟩ <;> rw [he]
    · exact iff_of_false (by decide)
        (fun hc => absurd h1 (not_le.2 hc.2))
    · exact iff_of_true rfl ⟨h2, not_le.1 h1⟩
    · exact iff_of_false (by decide) (fun hc => h2 hc.1)
  · rcases hcases with ⟨h1, he⟩ | ⟨h1, h2, he⟩ | ⟨h1, h2, he⟩ <;> rw [he]
    · exact iff_of_false (by decide)
        (fun hlt => absurd h1 (not_le.2 (lt_of_lt_of_le hlt hth)))
    · exact iff_of_false (by decide) (fun hlt => absurd h2 (not_le.2 hlt))
    · exact iff_of_true rfl (not_le.1 h2)
  · intro hman hauto
    simp only [albumDecision, hauto]
    cases user_initiated with
    | false => simp [hman]
    | true => simp

/-- Witness for C2 at the default thresholds. -/
theorem decideAction_thresholds_witness :
    decideAction {} 90 = "auto_tag" ∧
    albumDecision {} (some "relid") true [] false =
      .decided "auto_tag" [] := by
  have h := decideAction_thresholds {} (by norm_num) 90 false
    ({ release := { release_id := "r", title := "T", artist := "A" } } :
      MatchScore) [] [] "relid"
  refine ⟨h.1.1.mpr (by norm_num), h.2.2.2⟩

/-- **C10.**  When both the artist and the album metadata are missing
(Python-falsy), `find_matches` returns an empty candidate list immediately
and issues no MusicBrainz request. -/
theorem findMatches_no_metadata (s : Settings)
    (searchOracle : String → String → List MBRelease)
    (detailsOracle : String → Option MBRelease) (localInfo : AlbumInfo)
    (limit : Nat) (ha : strFalsy localInfo.artist = true)
    (hb : strFalsy localInfo.album = true) :
    (findMatches s searchOracle detailsOracle localInfo limit).scored = [] ∧
    (findMatches s searchOracle detailsOracle localInfo limit).requests
      = [] := by
  unfold findMatches
  rw [if_pos ⟨ha, hb⟩]
  exact ⟨rfl, rfl⟩

/-- Witness for C10: an album descriptor with no artist and no album. -/
theorem findMatches_no_metadata_witness :
    (findMatches {} (fun _ _ => []) (fun _ => none)
      ({ path := "/m/x" } : AlbumInfo) 10).scored = [] :=
  (findMatches_no_metadata {} (fun _ _ => []) (fun _ => none)
    ({ path := "/m/x" } : AlbumInfo) 10 rfl rfl).1

theorem itemPotential_pos (item : QueueItem) : 1 ≤ itemPotential item := by
  unfold itemPotential; omega

theorem handleRetry_increments {item it2 : QueueItem}
    (h : handleRetry item = some it2) :
    it2.retry_count = item.retry_count + 1 ∧
    it2.retry_count ≤ MAX_RETRIES - 1 := by
  unfold handleRetry at h
  by_cases hlt : item.retry_count < MAX_RETRIES - 1
  · rw [if_pos hlt] at h
    cases h
    refine ⟨rfl, ?_⟩
    simp only [MAX_RETRIES] at hlt ⊢
    omega
  · rw [if_neg hlt] at h
    cases h

theorem handleRetry_potential {item it2 : QueueItem}
    (h : handleRetry item = some it2) :
    itemPotential it2 + 1 ≤ itemPotential item := by
  obtain ⟨hinc, hle⟩ := handleRetry_increments h
  have hlt : item.retry_count < MAX_RETRIES - 1 := by
    simp only [MAX_RETRIES] at hle ⊢; omega
  simp only [itemPotential, MAX_RETRIES, hinc] at *
  omega

theorem processItem_requeue_retry {scanFolder runAlbum statusOf}
    {item it2 : QueueItem}
    (h : processItem scanFolder runAlbum statusOf item = .requeue it2) :
    it2.retry_count = item.retry_count + 1 ∧
    it2.retry_count ≤ MAX_RETRIES - 1 := by
  unfold processItem at h
  split at h
  · cases h
  · split at h
    · split at h
      · cases h
      · split at h
        · rename_i heq
          cases h
          have hi := handleRetry_increments heq
          simpa using hi
        · cases h
    · cases h

theorem processItem_requeue_potential {scanFolder runAlbum statusOf}
    {item it2 : QueueItem}
    (h : processItem scanFolder runAlbum statusOf item = .requeue it2) :
    itemPotential it2 + 1 ≤ itemPotential item := by
  unfold processItem at h
  split at h
  · cases h
  · split at h
    · split at h
      · cases h
      · split at h
        · rename_i heq
          cases h
          have hp := handleRetry_potential heq
          simpa [itemPotential] using hp
        · cases h
    · cases h

theorem workerStep_potential {scanFolder runAlbum statusOf raises}
    {item it2 : QueueItem}
    (h : workerStep scanFolder runAlbum statusOf raises item = some it2) :
    itemPotential it2 + 1 ≤ itemPotential item := by
  unfold workerStep at h
  split at h
  · exact handleRetry_potential h
  · split at h
    · cases h
    · rename_i hr
      cases h
      exact processItem_requeue_potential hr

theorem workerRun_drains (scanFolder : String → Option Nat)
    (runAlbum : Nat → Option String → Bool) (statusOf : Nat → String)
    (raises : QueueItem → Bool) :
    ∀ (fuel : Nat) (items : List QueueItem),
      queuePotential items ≤ fuel →
      ∃ tail, workerRun scanFolder runAlbum statusOf raises fuel items =
        items ++ tail := by
  intro fuel
  induction fuel with
  | zero =>
    intro items h
    cases items with
    | nil => exact ⟨[], rfl⟩
    | cons i rest =>
      exfalso
      have h1 := itemPotential_pos i
      unfold queuePotential at h
      simp at h
      omega
  | succ fuel ih =>
    intro items h
    cases items with
    | nil => exact ⟨[], rfl⟩
    | cons i rest =>
      have hpos := itemPotential_pos i
      have hq : queuePotential (i :: rest) =
          itemPotential i + queuePotential rest := by
        unfold queuePotential; simp
      cases hs : workerStep scanFolder runAlbum statusOf raises i with
      | none =>
        have hrest : queuePotential rest ≤ fuel := by omega
        obtain ⟨tail, htail⟩ := ih rest hrest
        refine ⟨tail, ?_⟩
        simp only [workerRun, hs]
        simp [htail]
      | some it2 =>
        have hp := workerStep_potential hs
        have happ : queuePotential (rest ++ [it2]) =
            queuePotential rest + itemPotential it2 := by
          unfold queuePotential; simp
        have hrest : queuePotential (rest ++ [it2]) ≤ fuel := by
          rw [happ]; rw [hq] at h; omega
        obtain ⟨tail, htail⟩ := ih (rest ++ [it2]) hrest
        refine ⟨it2 :: tail, ?_⟩
        simp only [workerRun, hs]
        rw [htail]
        simp

/-- **C6.**  Re-enqueued items carry an incremented `retry_count` that never
exceeds `MAX_RETRIES` (indeed never exceeds `MAX_RETRIES - 1 = 2`, so a
failing item is attempted at most `MAX_RETRIES = 3` times); items whose
post-processing album status is `needs_review` or `skipped` are never
re-enqueued; and the worker drains any queue — it survives every failure and
exception to process every enqueued item. -/
theorem queue_retry_discipline (scanFolder : String → Option Nat)
    (runAlbum : Nat → Option String → Bool) (statusOf : Nat → String)
    (raises : QueueItem → Bool) :
    (∀ item it2, handleRetry item = some it2 →
      it2.retry_count = item.retry_count + 1 ∧
      it2.retry_count ≤ MAX_RETRIES - 1 ∧
      it2.retry_count ≤ MAX_RETRIES) ∧
    (∀ item it2,
      processItem scanFolder runAlbum statusOf item = .requeue it2 →
      it2.retry_count = item.retry_count + 1 ∧
      it2.retry_count ≤ MAX_RETRIES - 1 ∧
      it2.retry_count ≤ MAX_RETRIES) ∧
    (∀ item aid, item.album_id = some aid →
      statusOf aid = "needs_review" ∨ statusOf aid = "skipped" →
      processItem scanFolder runAlbum statusOf item = .done) ∧
    (∀ items, ∃ tail,
      workerRun scanFolder runAlbum statusOf raises
        (queuePotential items) items = items ++ tail) := by
  refine ⟨?_, ?_, ?_, fun items =>
    workerRun_drains scanFolder runAlbum statusOf raises
      (queuePotential items) items (le_refl _)⟩
  · intro item it2 h
    obtain ⟨h1, h2⟩ := handleRetry_increments h
    exact ⟨h1, h2, by simp only [MAX_RETRIES] at h2 ⊢; omega⟩
  · intro item it2 h
    obtain ⟨h1, h2⟩ := processItem_requeue_retry h
    exact ⟨h1, h2, by simp only [MAX_RETRIES] at h2 ⊢; omega⟩
  · intro item aid haid hterm
    unfold processItem resolveAlbumId
    simp only [haid]
    split <;> simp [hterm]

/-- Witness for C6: a terminal `needs_review` album is not re-enqueued. -/
theorem queue_retry_discipline_witness :
    processItem (fun _ => none) (fun _ _ => false) (fun _ => "needs_review")
      ({ album_id := some 1 } : QueueItem) = .done :=
  (queue_retry_discipline (fun _ => none) (fun _ _ => false)
    (fun _ => "needs_review") (fun _ => false)).2.2.1
    ({ album_id := some 1 } : QueueItem) 1 rfl (Or.inl rfl)

/-- **C4, counterexample.**  The claim fails as stated: writing a record
that specifies `track_number` but leaves `track_total` unspecified clears
the file's existing track total — the FLAC file tagged `3/12` ends up tagged
`5`, so the unspecified `track_total` did not keep its previous value 12. -/
theorem writeTags_unspecified_total_cleared :
    ∃ (st : FlacState) (tags : TagData),
      tags.track_total = none ∧
      (readFlacFull st).track_total = some 12 ∧
      (readFlacFull (writeFlacTags st tags)).track_total = none := by
  refine ⟨{ tracknumber := some ["3/12"] }, { track_number := some 5 },
    rfl, ?_, ?_⟩ <;> decide

/-- **C4, amended.**  `write_tags` merges: every unspecified field leaves
the file's corresponding tag state unchanged, except that (a) a specified
cover replaces the whole picture state with a single front cover, and
(b) the track/disc totals ride along with `track_number`/`disc_number` — a
specified number with an unspecified (or zero) total drops the stored
total.  A record with all fields unspecified leaves the file bit-for-bit
unchanged, for every container family. -/
theorem writeTags_merge_frame :
    (∀ (st : FlacState) (tags : TagData),
      (tags.title = none → (writeFlacTags st tags).title = st.title) ∧
      (tags.artist = none → (writeFlacTags st tags).artist = st.artist) ∧
      (tags.album_artist = none →
        (writeFlacTags st tags).albumartist = st.albumartist) ∧
      (tags.album = none → (writeFlacTags st tags).album = st.album) ∧
      (tags.track_number = none →
        (writeFlacTags st tags).tracknumber = st.tracknumber) ∧
      (tags.disc_number = none →
        (writeFlacTags st tags).discnumber = st.discnumber) ∧
      (tags.year = none → (writeFlacTags st tags).date = st.date) ∧
      (tags.genre = none → (writeFlacTags st tags).genre = st.genre) ∧
      (tags.label = none → (writeFlacTags st tags).label = st.label ∧
        (writeFlacTags st tags).organization = st.organization) ∧
      (tags.country = none →
        (writeFlacTags st tags).releasecountry = st.releasecountry) ∧
      (tags.musicbrainz_release_id = none →
        (writeFlacTags st tags).musicbrainz_albumid =
          st.musicbrainz_albumid) ∧
      (tags.musicbrainz_recording_id = none →
        (writeFlacTags st tags).musicbrainz_trackid =
          st.musicbrainz_trackid) ∧
      (bytesTruthy tags.cover_data = false →
        (writeFlacTags st tags).pictures = st.pictures) ∧
      (∀ d, tags.cover_data = some d → ¬d.isEmpty →
        (writeFlacTags st tags).pictures =
          [{ picType := 3, mime := tags.cover_mime, desc := "Front",
             data := d }]) ∧
      (writeFlacTags st tags).other = st.other) ∧
    (∀ (st : FlacState), writeFlacTags st {} = st) ∧
    (∀ (st : Mp3State), writeMp3Tags st {} = st) ∧
    (∀ (st : Mp4State), writeMp4Tags st {} = st) ∧
    (∀ (st : OggState), writeOggTags st {} = st) ∧
    (∀ (file : AudioFile), file ≠ .unsupported →
      writeTagsFile file {} = (file, true)) := by
  refine ⟨?_, ?_, ?_, ?_, ?_, ?_⟩
  · intro st tags
    refine ⟨?_, ?_, ?_, ?_, ?_, ?_, ?_, ?_, ?_, ?_, ?_, ?_, ?_, ?_, ?_⟩
    · intro h; simp [writeFlacTags, h]
    · intro h; simp [writeFlacTags, h]
    · intro h; simp [writeFlacTags, h]
    · intro h; simp [writeFlacTags, h]
    · intro h; simp [writeFlacTags, h]
    · intro h; simp [writeFlacTags, h]
    · intro h; simp [writeFlacTags, h]
    · intro h; simp [writeFlacTags, h]
    · intro h; exact ⟨by simp [writeFlacTags, h], by simp [writeFlacTags, h]⟩
    · intro h; simp [writeFlacTags, h]
    · intro h; simp [writeFlacTags, h]
    · intro h; simp [writeFlacTags, h]
    · intro h; simp [writeFlacTags, h]
    · intro d hd hne
      have ht : bytesTruthy (some d) = true := by simp [bytesTruthy, hne]
      simp only [writeFlacTags, hd, ht]
      simp
    · simp [writeFlacTags]
  · intro st; rfl
  · intro st; rfl
  · intro st; rfl
  · intro st; rfl
  · intro file hne
    cases file <;> first | rfl | exact absurd rfl hne

/-- Witness for C4 at a concrete FLAC state. -/
theorem writeTags_merge_frame_witness :
    (writeFlacTags { title := some ["Keep"], pictures := [] }
      { artist := some "New" }).title = some ["Keep"] :=
  ((writeTags_merge_frame.1 { title := some ["Keep"], pictures := [] }
    { artist := some "New" }).1) rfl

theorem fpVoteStep_spec (r : AcoustIDResult)
    (acc : List (String × ℚ × String) × List String) (rid2 rid : String) :
    votePairScores (fpVoteStep r acc rid2).1 rid =
      votePairScores acc.1 rid ++
        (if rid2 = rid ∧ rid ∉ acc.2 then [r.score] else []) ∧
    (rid ∈ (fpVoteStep r acc rid2).2 ↔ rid ∈ acc.2 ∨ rid2 = rid) := by
  unfold fpVoteStep
  by_cases hseen : rid2 ∈ acc.2
  · rw [if_pos hseen]
    refine ⟨?_, ?_⟩
    · have hcond : ¬(rid2 = rid ∧ rid ∉ acc.2) := by
        rintro ⟨he, hn⟩; exact hn (he ▸ hseen)
      rw [if_neg hcond]; simp
    · constructor
      · exact Or.inl
      · rintro (h | h)
        · exact h
        · exact h ▸ hseen
  · rw [if_neg hseen]
    refine ⟨?_, ?_⟩
    · by_cases he : rid2 = rid
      · subst he
        rw [if_pos ⟨rfl, hseen⟩]
        simp [votePairScores, List.filter_append]
      · rw [if_neg (fun hc => he hc.1)]
        simp [votePairScores, List.filter_append, he]
    · simp only [List.mem_append, List.mem_singleton]
      constructor
      · rintro (h | h)
        · exact Or.inl h
        · exact Or.inr h.symm
      · rintro (h | h)
        · exact Or.inl h
        · exact Or.inr h.symm

theorem fpVoteFold_spec (r : AcoustIDResult) (rids : List String) :
    ∀ (acc : List (String × ℚ × String) × List String) (rid : String),
    votePairScores (rids.foldl (fpVoteStep r) acc).1 rid =
      votePairScores acc.1 rid ++
        (if rid ∈ rids ∧ rid ∉ acc.2 then [r.score] else []) ∧
    (rid ∈ (rids.foldl (fpVoteStep r) acc).2 ↔
      rid ∈ acc.2 ∨ rid ∈ rids) := by
  induction rids with
  | nil => intro acc rid; simp
  | cons rid2 rest ih =>
    intro acc rid
    simp only [List.foldl_cons]
    obtain ⟨hS, hseen⟩ := fpVoteStep_spec r acc rid2 rid
    obtain ⟨ihS, ihseen⟩ := ih (fpVoteStep r acc rid2) rid
    constructor
    · rw [ihS, hS, List.append_assoc]
      congr 1
      simp only [hseen, List.mem_cons]
      by_cases h1 : rid2 = rid
      · subst h1
        by_cases h2 : rid2 ∈ acc.2 <;> by_cases h3 : rid2 ∈ rest <;>
          simp [h2, h3]
      · have h1s : ¬(rid = rid2) := fun hc => h1 hc.symm
        by_cases h2 : rid ∈ acc.2 <;> by_cases h3 : rid ∈ rest <;>
          simp [h1, h1s, h2, h3]
    · rw [ihseen, hseen]
      simp only [List.mem_cons]
      by_cases h1 : rid2 = rid
      · subst h1
        by_cases h2 : rid2 ∈ acc.2 <;> by_cases h3 : rid2 ∈ rest <;>
          simp [h2, h3]
      · have h1s : ¬(rid = rid2) := fun hc => h1 hc.symm
        by_cases h2 : rid ∈ acc.2 <;> by_cases h3 : rid ∈ rest <;>
          simp [h1, h1s, h2, h3]

theorem fpVotePairsAux_spec (results : List AcoustIDResult) :
    ∀ (acc : List (String × ℚ × String) × List String) (rid : String),
    votePairScores (fpVotePairsAux results acc).1 rid =
      votePairScores acc.1 rid ++
        (if rid ∈ acc.2 then []
         else ((results.find? (fun r => rid ∈ r.release_ids)).map
           (fun r => r.score)).toList) ∧
    (rid ∈ (fpVotePairsAux results acc).2 ↔
      rid ∈ acc.2 ∨ ∃ r ∈ results, rid ∈ r.release_ids) := by
  induction results with
  | nil => intro acc rid; simp [fpVotePairsAux]
  | cons r rest ih =>
    intro acc rid
    have hstep : fpVotePairsAux (r :: rest) acc =
        fpVotePairsAux rest (r.release_ids.foldl (fpVoteStep r) acc) := by
      simp [fpVotePairsAux]
    rw [hstep]
    obtain ⟨hS, hseen⟩ := fpVoteFold_spec r r.release_ids acc rid
    obtain ⟨ihS, ihseen⟩ := ih (r.release_ids.foldl (fpVoteStep r) acc) rid
    constructor
    · rw [ihS, hS, List.append_assoc]
      congr 1
      by_cases h1 : rid ∈ r.release_ids <;> by_cases h2 : rid ∈ acc.2 <;>
        simp [h1, h2, hseen, List.find?_cons]
    · rw [ihseen, hseen]
      by_cases h1 : rid ∈ r.release_ids <;> by_cases h2 : rid ∈ acc.2 <;>
        simp [h1, h2]

theorem fpVotePairs_scores (fp : TrackFingerprint) (rid : String) :
    votePairScores (fpVotePairs fp) rid = (fpVoteScore fp rid).toList := by
  have h := (fpVotePairsAux_spec fp.acoustid_results ([], []) rid).1
  simp only [votePairScores, List.filter_nil, List.map_nil,
    List.nil_append, List.not_mem_nil, if_neg, if_false] at h
  rw [show fpVotePairs fp = (fpVotePairsAux fp.acoustid_results ([], [])).1
    from rfl]
  rw [show votePairScores (fpVotePairsAux fp.acoustid_results ([], [])).1 rid
    = (List.filter (fun v => decide (v.1 = rid))
        (fpVotePairsAux fp.acoustid_results ([], [])).1).map
          (fun v => v.2.1) from rfl] at *
  simp only [fpVoteScore]
  exact h

theorem find?_map_preserve
    (f : (String × List ℚ × List String) → (String × List ℚ × List String))
    (hf : ∀ e, (f e).1 = e.1) (k : String) :
    ∀ m : List (String × List ℚ × List String),
      (m.map f).find? (fun e => e.1 = k) =
      (m.find? (fun e => e.1 = k)).map f := by
  intro m
  induction m with
  | nil => rfl
  | cons e m' ih =>
    simp only [List.map_cons, List.find?_cons]
    rw [show (decide ((f e).1 = k)) = decide (e.1 = k) by rw [hf e]]
    cases hd : decide (e.1 = k) with
    | true => rfl
    | false => exact ih

theorem scoresOf_map_update (rid : String) (s : ℚ) (rec rid2 : String)
    (m : List (String × List ℚ × List String)) :
    scoresOf (m.map (fun e =>
      if e.1 = rid then
        (e.1, e.2.1 ++ [s], if rec ∈ e.2.2 then e.2.2 else e.2.2 ++ [rec])
      else e)) rid2 =
      (match m.find? (fun e => e.1 = rid2) with
       | some e => if rid2 = rid then e.2.1 ++ [s] else e.2.1
       | none => []) := by
  unfold scoresOf
  rw [find?_map_preserve _
    (fun e => by by_cases h : e.1 = rid <;> simp [h]) rid2]
  cases hf : m.find? (fun e => decide (e.1 = rid2)) with
  | none => rfl
  | some e =>
    have hk : e.1 = rid2 := by
      have h := List.find?_some hf
      simpa using h
    simp only [Option.map_some']
    by_cases he : rid2 = rid
    · rw [if_pos he, if_pos (hk.trans he)]
    · rw [if_neg he, if_neg (fun hc => he (hk.symm.trans hc))]

theorem scoresOf_insert (m : List (String × List ℚ × List String))
    (rid : String) (s : ℚ) (rec rid2 : String) :
    scoresOf (releaseDataInsert m rid s rec) rid2 =
      if rid2 = rid then scoresOf m rid2 ++ [s] else scoresOf m rid2 := by
  unfold releaseDataInsert
  by_cases hany : m.any (fun e => e.1 = rid) = true
  · rw [if_pos hany, scoresOf_map_update]
    by_cases he : rid2 = rid
    · rw [if_pos he]
      subst he
      have hsome : (m.find? (fun e => decide (e.1 = rid2))).isSome := by
        rw [List.find?_isSome]
        simp only [List.any_eq_true, decide_eq_true_eq] at hany
        obtain ⟨e, hmem, hp⟩ := hany
        exact ⟨e, hmem, by simpa using hp⟩
      cases hfind : m.find? (fun e => decide (e.1 = rid2)) with
      | none => rw [hfind] at hsome; simp at hsome
      | some e => simp [scoresOf, hfind]
    · rw [if_neg he]
      cases hfind : m.find? (fun e => decide (e.1 = rid2)) with
      | none => simp [scoresOf, hfind]
      | some e => simp [scoresOf, hfind, he]
  · rw [if_neg hany]
    have hnone : m.find? (fun e => decide (e.1 = rid)) = none := by
      rw [List.find?_eq_none]
      intro e he
      simp only [List.any_eq_true, decide_eq_true_eq] at hany
      simp only [decide_eq_true_eq]
      exact fun hc => hany ⟨e, he, hc⟩
    by_cases he : rid2 = rid
    · rw [if_pos he]
      subst he
      simp [scoresOf, List.find?_append, hnone]
    · rw [if_neg he]
      simp only [scoresOf, List.find?_append]
      cases hf : m.find? (fun e => decide (e.1 = rid2)) with
      | some e => rfl
      | none =>
        simp only [Option.none_or]
        simp [List.find?_cons, Ne.symm he]

theorem scoresOf_foldInsert
    (ps : List (String × ℚ × String)) :
    ∀ (m : List (String × List ℚ × List String)) (rid : String),
    scoresOf (ps.foldl (fun m v => releaseDataInsert m v.1 v.2.1 v.2.2) m)
      rid = scoresOf m rid ++ votePairScores ps rid := by
  induction ps with
  | nil => intro m rid; simp [votePairScores]
  | cons v ps ih =>
    intro m rid
    simp only [List.foldl_cons]
    rw [ih]
    rw [scoresOf_insert]
    by_cases he : rid = v.1
    · rw [if_pos he]
      simp [votePairScores, List.filter_cons, he.symm, List.append_assoc]
    · rw [if_neg he]
      have : ¬(v.1 = rid) := fun hc => he hc.symm
      simp [votePairScores, List.filter_cons, this]

theorem scoresOf_agg (fps : List TrackFingerprint) (rid : String) :
    scoresOf (aggregateReleaseData fps) rid = releaseVoteScores fps rid := by
  suffices h : ∀ (m : List (String × List ℚ × List String)),
      scoresOf (fps.foldl (fun m fp => (fpVotePairs fp).foldl
        (fun m v => releaseDataInsert m v.1 v.2.1 v.2.2) m) m) rid =
      scoresOf m rid ++ releaseVoteScores fps rid by
    have := h []
    simpa [aggregateReleaseData, scoresOf] using this
  induction fps with
  | nil => intro m; simp [releaseVoteScores]
  | cons fp rest ih =>
    intro m
    simp only [List.foldl_cons]
    rw [ih, scoresOf_foldInsert, fpVotePairs_scores]
    simp [releaseVoteScores, List.filterMap_cons, List.append_assoc]
    cases fpVoteScore fp rid <;> simp

theorem fpKeyGe_total (a b : FingerprintMatch) :
    fpKeyGe a b = true ∨ fpKeyGe b a = true := by
  simp only [fpKeyGe, Bool.or_eq_true, Bool.and_eq_true, decide_eq_true_eq]
  rcases Nat.lt_trichotomy a.matched_tracks b.matched_tracks with h | h | h
  · exact Or.inr (Or.inl h)
  · rcases le_total a.avg_score b.avg_score with hq | hq
    · exact Or.inr (Or.inr ⟨h, hq⟩)
    · exact Or.inl (Or.inr ⟨h.symm, hq⟩)
  · exact Or.inl (Or.inl h)

theorem fpKeyGe_trans (a b c : FingerprintMatch)
    (hab : fpKeyGe a b = true) (hbc : fpKeyGe b c = true) :
    fpKeyGe a c = true := by
  simp only [fpKeyGe, Bool.or_eq_true, Bool.and_eq_true,
    decide_eq_true_eq] at hab hbc ⊢
  rcases hab with h1 | ⟨h1, h1q⟩
  · rcases hbc with h2 | ⟨h2, _⟩
    · exact Or.inl (h2.trans h1)
    · exact Or.inl (h2 ▸ h1)
  · rcases hbc with h2 | ⟨h2, h2q⟩
    · exact Or.inl (h1 ▸ h2)
    · exact Or.inr ⟨h2.trans h1, h2q.trans h1q⟩

theorem releaseDataInsert_keys (m : List (String × List ℚ × List String))
    (rid : String) (s : ℚ) (rec : String) :
    (releaseDataInsert m rid s rec).map (fun e => e.1) =
      if m.any (fun e => e.1 = rid) then m.map (fun e => e.1)
      else m.map (fun e => e.1) ++ [rid] := by
  unfold releaseDataInsert
  by_cases h : m.any (fun e => e.1 = rid) = true
  · rw [if_pos h, if_pos h, List.map_map]
    apply List.map_congr_left
    intro e _
    by_cases he : e.1 = rid <;> simp [he]
  · rw [if_neg h, if_neg h, List.map_append]
    rfl

theorem releaseDataInsert_keys_nodup
    (m : List (String × List ℚ × List String))
    (rid : String) (s : ℚ) (rec : String)
    (h : (m.map (fun e => e.1)).Nodup) :
    ((releaseDataInsert m rid s rec).map (fun e => e.1)).Nodup := by
  rw [releaseDataInsert_keys]
  by_cases hany : m.any (fun e => e.1 = rid) = true
  · rw [if_pos hany]; exact h
  · rw [if_neg hany]
    rw [(List.perm_append_singleton rid (m.map (fun e => e.1))).nodup_iff,
      List.nodup_cons]
    refine ⟨fun hmem => ?_, h⟩
    obtain ⟨e, hme, hke⟩ := List.mem_map.mp hmem
    simp only [List.any_eq_true, decide_eq_true_eq] at hany
    exact hany ⟨e, hme, hke⟩

theorem releaseDataInsert_scores_ne_nil
    (m : List (String × List ℚ × List String))
    (rid : String) (s : ℚ) (rec : String)
    (h : ∀ e ∈ m, e.2.1 ≠ []) :
    ∀ e ∈ releaseDataInsert m rid s rec, e.2.1 ≠ [] := by
  unfold releaseDataInsert
  by_cases hany : m.any (fun e => e.1 = rid) = true
  · rw [if_pos hany]
    intro e he
    obtain ⟨e0, he0, heq⟩ := List.mem_map.mp he
    subst heq
    by_cases hk : e0.1 = rid
    · simp only [if_pos hk]
      exact fun hc => List.append_ne_nil_of_right_ne_nil _ (by simp) hc
    · simpa [if_neg hk] using h e0 he0
  · rw [if_neg hany]
    intro e he
    rcases List.mem_append.mp he with h1 | h1
    · exact h e h1
    · rcases List.mem_singleton.mp h1 with rfl
      simp

theorem foldInsert_keys_nodup (ps : List (String × ℚ × String)) :
    ∀ m : List (String × List ℚ × List String),
    (m.map (fun e => e.1)).Nodup →
    ((ps.foldl (fun m v => releaseDataInsert m v.1 v.2.1 v.2.2) m).map
      (fun e => e.1)).Nodup := by
  induction ps with
  | nil => intro m h; exact h
  | cons v ps ih =>
    intro m h
    exact ih _ (releaseDataInsert_keys_nodup m v.1 v.2.1 v.2.2 h)

theorem foldInsert_scores_ne_nil (ps : List (String × ℚ × String)) :
    ∀ m : List (String × List ℚ × List String),
    (∀ e ∈ m, e.2.1 ≠ []) →
    ∀ e ∈ ps.foldl (fun m v => releaseDataInsert m v.1 v.2.1 v.2.2) m,
      e.2.1 ≠ [] := by
  induction ps with
  | nil => intro m h; exact h
  | cons v ps ih =>
    intro m h
    exact ih _ (releaseDataInsert_scores_ne_nil m v.1 v.2.1 v.2.2 h)

theorem agg_keys_nodup (fps : List TrackFingerprint) :
    ((aggregateReleaseData fps).map (fun e => e.1)).Nodup := by
  unfold aggregateReleaseData
  suffices h : ∀ m : List (String × List ℚ × List String),
      (m.map (fun e => e.1)).Nodup →
      ((fps.foldl (fun m fp => (fpVotePairs fp).foldl
        (fun m v => releaseDataInsert m v.1 v.2.1 v.2.2) m) m).map
        (fun e => e.1)).Nodup from h [] (by simp)
  induction fps with
  | nil => intro m h; exact h
  | cons fp rest ih =>
    intro m h
    exact ih _ (foldInsert_keys_nodup (fpVotePairs fp) m h)

theorem agg_scores_ne_nil (fps : List TrackFingerprint) :
    ∀ e ∈ aggregateReleaseData fps, e.2.1 ≠ [] := by
  unfold aggregateReleaseData
  suffices h : ∀ m : List (String × List ℚ × List String),
      (∀ e ∈ m, e.2.1 ≠ []) →
      ∀ e ∈ fps.foldl (fun m fp => (fpVotePairs fp).foldl
        (fun m v => releaseDataInsert m v.1 v.2.1 v.2.2) m) m,
        e.2.1 ≠ [] from h [] (by simp)
  induction fps with
  | nil => intro m h; exact h
  | cons fp rest ih =>
    intro m h
    exact ih _ (foldInsert_scores_ne_nil (fpVotePairs fp) m h)

theorem find?_self_of_nodup_keys :
    ∀ (m : List (String × List ℚ × List String)),
    (m.map (fun e => e.1)).Nodup →
    ∀ e ∈ m, m.find? (fun x => x.1 = e.1) = some e := by
  intro m
  induction m with
  | nil => intro _ e he; cases he
  | cons a m' ih =>
    intro hnd e he
    rw [List.map_cons, List.nodup_cons] at hnd
    rcases List.mem_cons.mp he with rfl | hmem
    · simp [List.find?_cons]
    · have hne : ¬(a.1 = e.1) := by
        intro hc
        exact hnd.1 (hc ▸ List.mem_map.mpr ⟨e, hmem, rfl⟩)
      rw [List.find?_cons]
      rw [show (decide (a.1 = e.1)) = false by simp [hne]]
      exact ih hnd.2 e hmem

theorem scoresOf_self_mem (fps : List TrackFingerprint)
    (e : String × List ℚ × List String)
    (he : e ∈ aggregateReleaseData fps) :
    e.2.1 = releaseVoteScores fps e.1 := by
  rw [← scoresOf_agg]
  unfold scoresOf
  rw [find?_self_of_nodup_keys _ (agg_keys_nodup fps) e he]

theorem fpVoteScore_isSome (fp : TrackFingerprint) (rid : String) :
    (fpVoteScore fp rid).isSome = trackMatchesRelease fp rid := by
  apply Bool.coe_iff_coe.mp
  rw [fpVoteScore, Option.isSome_map']
  simp only [trackMatchesRelease, List.find?_isSome, List.any_eq_true]

theorem releaseVoteScores_length (fps : List TrackFingerprint)
    (rid : String) :
    (releaseVoteScores fps rid).length =
      fps.countP (fun fp => trackMatchesRelease fp rid) := by
  induction fps with
  | nil => rfl
  | cons fp rest ih =>
    simp only [releaseVoteScores, List.filterMap_cons, List.countP_cons]
    cases hv : fpVoteScore fp rid with
    | none =>
      have hm : trackMatchesRelease fp rid = false := by
        rw [← fpVoteScore_isSome, hv]; rfl
      simpa [hm, releaseVoteScores] using ih
    | some s =>
      have hm : trackMatchesRelease fp rid = true := by
        rw [← fpVoteScore_isSome, hv]; rfl
      simpa [hm, releaseVoteScores] using ih

/-- **C7.**  `aggregate_release_candidates` returns at most 10 candidates;
together with a remainder they form a `(matched_tracks, avg_score)`-descending
ordering of the full per-release tally, so the emitted ones are the top 10.
Each candidate counts the distinct fingerprinted tracks that matched its
release (each track votes at most once per release even when several of its
AcoustID results name that release) and carries the average AcoustID
confidence over those votes; and `compute_fingerprint_score` equals
`min(15, match_ratio*10 + avg_score*5)` whenever the average confidence is
nonnegative and the counts are nonzero. -/
theorem aggregateReleaseCandidates_spec (fps : List TrackFingerprint) :
    (aggregateReleaseCandidates fps).length ≤ 10 ∧
    (∃ rest : List FingerprintMatch,
      (aggregateReleaseCandidates fps ++ rest).Pairwise
        (fun a b => fpKeyGe a b = true) ∧
      (aggregateReleaseCandidates fps ++ rest).Perm
        ((aggregateReleaseData fps).map (fun e =>
          { release_id := e.1
            matched_tracks := e.2.1.length
            total_tracks := fps.length
            avg_score := if e.2.1.length ≠ 0
              then e.2.1.sum / (e.2.1.length : ℚ) else 0
            recording_ids := e.2.2 }))) ∧
    (∀ c ∈ aggregateReleaseCandidates fps,
      c.matched_tracks =
        fps.countP (fun fp => trackMatchesRelease fp c.release_id) ∧
      c.total_tracks = fps.length ∧
      c.matched_tracks ≠ 0 ∧
      c.avg_score =
        (releaseVoteScores fps c.release_id).sum / (c.matched_tracks : ℚ)) ∧
    (∀ (fm : FingerprintMatch) (n : Nat),
      0 ≤ fm.avg_score → fm.matched_tracks ≠ 0 → fm.total_tracks ≠ 0 →
      computeFingerprintScore fm n =
        min 15 ((fm.matched_tracks : ℚ) / (fm.total_tracks : ℚ) * 10 +
          fm.avg_score * 5)) := by
  haveI : IsTotal FingerprintMatch (fun a b => fpKeyGe a b = true) :=
    ⟨fpKeyGe_total⟩
  haveI : IsTrans FingerprintMatch (fun a b => fpKeyGe a b = true) :=
    ⟨fun a b c => fpKeyGe_trans a b c⟩
  have hdef : aggregateReleaseCandidates fps =
      (pySort fpKeyGe ((aggregateReleaseData fps).map (fun e =>
        ({ release_id := e.1
           matched_tracks := e.2.1.length
           total_tracks := fps.length
           avg_score := if e.2.1.length ≠ 0
             then e.2.1.sum / (e.2.1.length : ℚ) else 0
           recording_ids := e.2.2 } : FingerprintMatch)))).take 10 := rfl
  refine ⟨?_, ?_, ?_, ?_⟩
  · rw [hdef]; exact List.length_take_le 10 _
  · refine ⟨(pySort fpKeyGe ((aggregateReleaseData fps).map (fun e =>
      ({ release_id := e.1
         matched_tracks := e.2.1.length
         total_tracks := fps.length
         avg_score := if e.2.1.length ≠ 0
           then e.2.1.sum / (e.2.1.length : ℚ) else 0
         recording_ids := e.2.2 } : FingerprintMatch)))).drop 10, ?_, ?_⟩
    · rw [hdef, List.take_append_drop]
      exact List.sorted_insertionSort _ _
    · rw [hdef, List.take_append_drop]
      exact List.perm_insertionSort _ _
  · intro c hc
    rw [hdef] at hc
    have hc2 := List.take_subset _ _ hc
    rw [show pySort fpKeyGe = List.insertionSort
        (fun a b => fpKeyGe a b = true) from rfl,
      List.mem_insertionSort] at hc2
    obtain ⟨e, hmem, heq⟩ := List.mem_map.mp hc2
    have hscores := scoresOf_self_mem fps e hmem
    have hnn := agg_scores_ne_nil fps e hmem
    have hlen : e.2.1.length ≠ 0 := by
      intro h0
      exact hnn (List.eq_nil_of_length_eq_zero h0)
    subst heq
    refine ⟨?_, rfl, hlen, ?_⟩
    · show e.2.1.length = fps.countP (fun fp => trackMatchesRelease fp e.1)
      rw [hscores, releaseVoteScores_length]
    · show (if e.2.1.length ≠ 0
          then e.2.1.sum / (e.2.1.length : ℚ) else 0) =
        (releaseVoteScores fps e.1).sum / ((e.2.1.length : ℕ) : ℚ)
      rw [if_pos hlen, hscores]
  · intro fm n h0 hm ht
    rw [computeFingerprintScore, if_neg (by
      intro hc
      rcases hc with hc | hc
      · exact hm hc
      · exact ht hc)]
    have hratio : (0 : ℚ) ≤ (fm.matched_tracks : ℚ) / (fm.total_tracks : ℚ) :=
      div_nonneg (Nat.cast_nonneg _) (Nat.cast_nonneg _)
    have htot : (0 : ℚ) ≤
        (fm.matched_tracks : ℚ) / (fm.total_tracks : ℚ) * 10 +
          fm.avg_score * 5 :=
      add_nonneg (mul_nonneg hratio (by norm_num))
        (mul_nonneg h0 (by norm_num))
    simp only [max_eq_right htot]

/-- Witness for C7: the fingerprint bonus at one matched track of two with
average confidence one half. -/
theorem aggregateReleaseCandidates_spec_witness :
    computeFingerprintScore
      ({ release_id := "r", matched_tracks := 1, total_tracks := 2,
         avg_score := 1/2, recording_ids := [] } : FingerprintMatch) 7 =
      min 15 (((1 : Nat) : ℚ) / ((2 : Nat) : ℚ) * 10 + (1/2 : ℚ) * 5) := by
  have h := (aggregateReleaseCandidates_spec []).2.2.2
  exact h ({ release_id := "r", matched_tracks := 1, total_tracks := 2,
             avg_score := 1/2, recording_ids := [] } : FingerprintMatch) 7
    (by norm_num) (by decide) (by decide)

theorem writeTrackStep_cases (writeOk : String → TagData → Bool)
    (release : MBRelease) (flat : List MBTrack) (ufo : Bool)
    (dt : Option Int) (acc : List TrackRow × Nat) (it : Nat × TrackRow) :
    ∃ t' : TrackRow,
      (writeTrackStep writeOk release flat ufo dt acc it).1 =
        acc.1 ++ [t'] ∧
      ((t'.status = "tagged" ∧
        (writeTrackStep writeOk release flat ufo dt acc it).2 = acc.2 + 1) ∨
       (t'.status = "failed" ∧
        t'.error_message = some "Failed to write tags" ∧
        (writeTrackStep writeOk release flat ufo dt acc it).2 = acc.2)) := by
  unfold writeTrackStep
  by_cases hw : writeOk it.2.path
      (writeTrackTagData release flat ufo dt it) = true
  · rw [if_pos hw]
    exact ⟨_, rfl, Or.inl ⟨rfl, rfl⟩⟩
  · rw [if_neg hw]
    exact ⟨_, rfl, Or.inr ⟨rfl, rfl, rfl⟩⟩

theorem writeFold_inv (writeOk : String → TagData → Bool)
    (release : MBRelease) (flat : List MBTrack) (ufo : Bool)
    (dt : Option Int) (l : List (Nat × TrackRow)) :
    ∀ acc : List TrackRow × Nat,
      ∃ suffix : List TrackRow,
        (l.foldl (writeTrackStep writeOk release flat ufo dt) acc).1 =
          acc.1 ++ suffix ∧
        suffix.length = l.length ∧
        (∀ t ∈ suffix, t.status = "tagged" ∨
          (t.status = "failed" ∧
            t.error_message = some "Failed to write tags")) ∧
        (l.foldl (writeTrackStep writeOk release flat ufo dt) acc).2 =
          acc.2 + suffix.countP (fun t => t.status = "tagged") := by
  induction l with
  | nil =>
    intro acc
    exact ⟨[], by simp, rfl, fun t ht => absurd ht (List.not_mem_nil t),
      by simp⟩
  | cons it l ih =>
    intro acc
    obtain ⟨t', h1, hcase⟩ :=
      writeTrackStep_cases writeOk release flat ufo dt acc it
    obtain ⟨suffix, hs1, hs2, hs3, hs4⟩ :=
      ih (writeTrackStep writeOk release flat ufo dt acc it)
    refine ⟨t' :: suffix, ?_, ?_, ?_, ?_⟩
    · rw [List.foldl_cons, hs1, h1, List.append_assoc, List.singleton_append]
    · simp [hs2]
    · intro t ht
      rcases List.mem_cons.mp ht with rfl | hm
      · rcases hcase with ⟨h, _⟩ | ⟨h, hmsg, _⟩
        · exact Or.inl h
        · exact Or.inr ⟨h, hmsg⟩
      · exact hs3 t hm
    · rw [List.foldl_cons, hs4]
      rcases hcase with ⟨h, h2⟩ | ⟨h, _, h2⟩
      · rw [h2, List.countP_cons]
        rw [show (decide (t'.status = "tagged")) = true by rw [h]; decide]
        rw [if_pos rfl]
        omega
      · rw [h2, List.countP_cons]
        rw [show (decide (t'.status = "tagged")) = false by rw [h]; decide]
        rw [if_neg (by decide)]
        omega

theorem writeAlbumTags_spec (writeOk : String → TagData → Bool)
    (release : MBRelease) (trackRows : List TrackRow) :
    (writeAlbumTags writeOk release trackRows).tracks.length =
      trackRows.length ∧
    (∀ t ∈ (writeAlbumTags writeOk release trackRows).tracks,
      t.status = "tagged" ∨
        (t.status = "failed" ∧
          t.error_message = some "Failed to write tags")) ∧
    (writeAlbumTags writeOk release trackRows).success_count =
      ((writeAlbumTags writeOk release trackRows).tracks.countP
        (fun t => t.status = "tagged")) := by
  have hlen : ∀ (c : Prop) (inst : Decidable c) (l : List TrackRow),
      (@ite _ c inst
        (pySort (fun a b => pyStrLe a.path b.path) (pySort trackRowKeyLe l))
        (pySort trackRowKeyLe l)).enum.length = l.length := by
    intro c inst l
    by_cases hc : c
    · rw [if_pos hc, List.enum_length]
      exact ((List.perm_insertionSort _ _).trans
        (List.perm_insertionSort _ _)).length_eq
    · rw [if_neg hc, List.enum_length]
      exact (List.perm_insertionSort _ _).length_eq
  unfold writeAlbumTags
  dsimp only
  obtain ⟨suffix, h1, h2, h3, h4⟩ :=
    writeFold_inv writeOk release (mbFlat release) _ _ _ ([], 0)
  rw [h1]
  rw [List.nil_append]
  refine ⟨?_, h3, ?_⟩
  · rw [h2]
    exact hlen _ _ _
  · rw [h4]
    exact Nat.zero_add _

/-- **C3.**  After the `auto_tag` branch of `process_album` completes, the
album's track rows (one output row per input row) each have status `tagged`
or `failed` with the error message recorded; the album row's status is
`tagged` iff at least one track wrote successfully, and otherwise it is
`failed` with error message "Failed to write tags". -/
theorem autoTag_run_track_album_statuses (writeOk : String → TagData → Bool)
    (album : AlbumRow) (release : MBRelease) (trackRows : List TrackRow) :
    (autoTagRun writeOk album release trackRows).2.1.length =
      trackRows.length ∧
    (∀ t ∈ (autoTagRun writeOk album release trackRows).2.1,
      t.status = "tagged" ∨
        (t.status = "failed" ∧
          t.error_message = some "Failed to write tags")) ∧
    ((autoTagRun writeOk album release trackRows).1.status = "tagged" ↔
      ∃ t ∈ (autoTagRun writeOk album release trackRows).2.1,
        t.status = "tagged") ∧
    ((autoTagRun writeOk album release trackRows).1.status = "tagged" ∨
      ((autoTagRun writeOk album release trackRows).1.status = "failed" ∧
        (autoTagRun writeOk album release trackRows).1.error_message =
          some "Failed to write tags")) := by
  obtain ⟨hlen, hdich, hcnt⟩ := writeAlbumTags_spec writeOk release trackRows
  unfold autoTagRun
  dsimp only
  by_cases hp : (writeAlbumTags writeOk release trackRows).success_count > 0
  · rw [if_pos hp]
    refine ⟨hlen, hdich, ?_, Or.inl rfl⟩
    apply iff_of_true rfl
    rw [hcnt] at hp
    obtain ⟨t, ht, hpt⟩ := List.countP_pos_iff.mp hp
    exact ⟨t, ht, by simpa using hpt⟩
  · rw [if_neg hp]
    refine ⟨hlen, hdich, ?_, Or.inr ⟨rfl, rfl⟩⟩
    apply iff_of_false
    · intro hc
      have hc2 : ("failed" : String) = "tagged" := hc
      exact absurd hc2 (by decide)
    · rintro ⟨t, ht, hpt⟩
      rw [hcnt] at hp
      exact hp (List.countP_pos_iff.mpr ⟨t, ht, by simpa using hpt⟩)

/-- Witness for C3: one track whose write succeeds yields a tagged track and
a tagged album. -/
theorem autoTag_run_track_album_statuses_witness :
    ∃ t ∈ (autoTagRun (fun _ _ => true)
        ({ id := 1, path := "/a" } : AlbumRow)
        ({ release_id := "rel", title := "T", artist := "A" } : MBRelease)
        [({ id := 2, album_id := 1, path := "/a/01.flac" } : TrackRow)]).2.1,
      t.status = "tagged" := by
  have h := autoTag_run_track_album_statuses (fun _ _ => true)
    ({ id := 1, path := "/a" } : AlbumRow)
    ({ release_id := "rel", title := "T", artist := "A" } : MBRelease)
    [({ id := 2, album_id := 1, path := "/a/01.flac" } : TrackRow)]
  exact h.2.2.1.mp (by decide)

theorem strField_roundtrip (f : Option (List String))
    (h : canonicalStrField f = true) :
    (match safeStrList f with
     | some v => some [v]
     | none => f) = f := by
  rcases f with _ | ⟨_ | ⟨s, _ | ⟨s2, r⟩⟩⟩
  · rfl
  · simp [canonicalStrField] at h
  · simp only [canonicalStrField, decide_eq_true_eq] at h
    simp [safeStrList, h]
  · simp [canonicalStrField] at h

theorem numField_roundtrip (f : Option (List String))
    (h : canonicalNumField f = true) :
    (match (match safeStrList f with
            | some s => if ¬s.data.isEmpty = true then parseNumberTotal s
                        else (none, none)
            | none => ((none : Option Int), (none : Option Int))).1 with
     | some n => some [pyNumStr n (match safeStrList f with
            | some s => if ¬s.data.isEmpty = true then parseNumberTotal s
                        else (none, none)
            | none => ((none : Option Int), (none : Option Int))).2]
     | none => f) = f := by
  rcases f with _ | ⟨_ | ⟨s, _ | ⟨s2, r⟩⟩⟩
  · rfl
  · simp [canonicalNumField] at h
  · simp only [canonicalNumField] at h
    simp only [safeStrList]
    by_cases he : (pyStripChars s.data).isEmpty = true
    · have he2 : ((pyStrip s).data.isEmpty : Bool) = true := he
      simp only [he2]
      simp
    · have he2 : ((pyStrip s).data.isEmpty : Bool) = false :=
        Bool.eq_false_iff.mpr he
      simp only [he2]
      rw [if_neg he] at h
      rcases hp : parseNumberTotal (pyStrip s) with ⟨num, tot⟩
      have hp2 : parseNumberTotal (⟨pyStripChars s.data⟩ : String) =
        (num, tot) := hp
      rw [hp2] at h
      rcases num with _ | n
      · simp [hp]
      · simp only [decide_eq_true_eq] at h
        simp [hp, ← h]
  · simp [canonicalNumField] at h

theorem dateField_roundtrip (f : Option (List String))
    (h : canonicalDateField f = true) :
    (match (match safeStrList f with
            | some ys => if ¬ys.data.isEmpty = true
                then pyParseIntChars (List.take 4 ys.data) else none
            | none => (none : Option Int)) with
     | some y => some [toString y]
     | none => f) = f := by
  rcases f with _ | ⟨_ | ⟨s, _ | ⟨s2, r⟩⟩⟩
  · rfl
  · simp [canonicalDateField] at h
  · simp only [canonicalDateField] at h
    simp only [safeStrList]
    by_cases he : (pyStripChars s.data).isEmpty = true
    · have he2 : ((pyStrip s).data.isEmpty : Bool) = true := he
      simp only [he2]
      simp
    · have he2 : ((pyStrip s).data.isEmpty : Bool) = false :=
        Bool.eq_false_iff.mpr he
      simp only [he2]
      rw [if_neg he] at h
      cases hp : pyParseIntChars (List.take 4 (pyStrip s).data) with
      | none => simp [hp]
      | some y =>
        have hp2 : pyParseIntChars (List.take 4 (pyStripChars s.data)) =
          some y := hp
        rw [hp2] at h
        simp only [decide_eq_true_eq] at h
        simp [hp, ← h]
  · simp [canonicalDateField] at h

theorem labelPair_roundtrip (lb org : Option (List String))
    (h : canonicalLabelPair lb org = true) :
    ((match pyOrStr (safeStrList lb) (safeStrList org) with
      | some v => some [v] | none => lb) = lb) ∧
    ((match pyOrStr (safeStrList lb) (safeStrList org) with
      | some v => some [v] | none => org) = org) := by
  rcases lb with _ | ⟨_ | ⟨s, _ | ⟨s2, r⟩⟩⟩ <;>
    rcases org with _ | ⟨_ | ⟨u, _ | ⟨u2, r2⟩⟩⟩ <;>
    simp only [canonicalLabelPair] at h <;>
    try exact absurd h (by decide)
  · exact ⟨rfl, rfl⟩
  · simp only [Bool.and_eq_true, decide_eq_true_eq] at h
    obtain ⟨hsu, hstr⟩ := h
    subst hsu
    have : pyOrStr (safeStrList (some [s])) (safeStrList (some [s])) =
        some (pyStrip s) := by
      by_cases hf : strFalsy (some (pyStrip s)) = true <;>
        simp [pyOrStr, safeStrList, hf]
    rw [this, hstr]
    exact ⟨rfl, rfl⟩

theorem writeFlac_restore_roundtrip (st : FlacState)
    (hc : canonicalFlacState st = true)
    (hne : ∀ d, flacCover st = some d → d ≠ []) :
    writeFlacTags st (roundTd st) = st := by
  cases st with
  | mk t a aa al tn dn dt g lb org rc mbai mbti pics oth =>
  simp only [canonicalFlacState, Bool.and_eq_true] at hc
  obtain ⟨⟨⟨⟨⟨⟨⟨⟨⟨⟨⟨⟨h1, h2⟩, h3⟩, h4⟩, h5⟩, h6⟩, h7⟩, h8⟩, h9⟩,
    h10⟩, h11⟩, h12⟩, h13⟩ := hc
  simp only [writeFlacTags, roundTd, dictToTagData, tagDataToDict,
    readFlacFull, flacCover, FlacState.mk.injEq]
  refine ⟨strField_roundtrip t h1, strField_roundtrip a h2,
    strField_roundtrip aa h3, strField_roundtrip al h4,
    numField_roundtrip tn h5, numField_roundtrip dn h6,
    dateField_roundtrip dt h7, strField_roundtrip g h8,
    (labelPair_roundtrip lb org h9).1, (labelPair_roundtrip lb org h9).2,
    strField_roundtrip rc h10, strField_roundtrip mbai h11,
    strField_roundtrip mbti h12, ?_, trivial⟩
  rcases pics with _ | ⟨pic, _ | ⟨pic2, rest⟩⟩
  · simp [bytesTruthy]
  · have hd : pic.data ≠ [] := hne pic.data rfl
    simp only [canonicalPictures, Bool.and_eq_true, decide_eq_true_eq,
      Bool.not_eq_true'] at h13
    obtain ⟨⟨hpt, hpd⟩, hpm⟩ := h13
    have htr : bytesTruthy (some pic.data) = true := by
      simp [bytesTruthy, hd]
    simp only [htr, if_pos]
    rw [if_neg (by simp [hpm])]
    cases pic with
    | mk picType mime desc data =>
      simp at hpt hpd ⊢
      exact ⟨hpt.symm, hpd.symm⟩
  · simp [canonicalPictures] at h13

theorem readFlacFull_cover (st : FlacState) :
    (readFlacFull st).cover_data = flacCover st := by
  rcases hp : st.pictures with _ | ⟨pic, rest⟩ <;>
    simp [readFlacFull, flacCover, hp]

theorem roundTd_nocover (st : FlacState) (h : flacCover st = none) :
    roundTd st = dictToTagData (tagDataToDict (readFlacFull st)) := by
  rw [roundTd, h]
  simp [dictToTagData]

theorem roundTd_cover (st : FlacState) (d : List Nat)
    (h : flacCover st = some d) :
    roundTd st =
      { dictToTagData (tagDataToDict (readFlacFull st)) with
          cover_data := some d } := by
  rw [roundTd, h]

theorem restoreSnapTd_nocover (disk : List (String × List Nat))
    (snap : SnapshotRow) (h : snap.has_cover = false) :
    restoreSnapTd disk snap = dictToTagData snap.tags_json := by
  simp [restoreSnapTd, h]

theorem restoreSnapTd_cover (p : String) (D : List Nat)
    (snap : SnapshotRow) (hh : snap.has_cover = true)
    (hp : snap.cover_path = some p) :
    restoreSnapTd [(p, D)] snap =
      { dictToTagData snap.tags_json with cover_data := some D } := by
  simp [restoreSnapTd, hh, hp, List.find?_cons]

theorem restore_untouched (disk : List (String × List Nat))
    (snaps : List SnapshotRow) :
    ∀ (fs : String → FlacState) (q : String),
      (∀ s ∈ snaps, s.path ≠ q) →
      restoreBackupFlac snaps disk fs q = fs q := by
  induction snaps with
  | nil => intro fs q _; rfl
  | cons s0 rest ih =>
    intro fs q hq
    calc restoreBackupFlac (s0 :: rest) disk fs q
        = restoreBackupFlac rest disk
            (fun q2 => if q2 = s0.path then
              writeFlacTags (fs q2) (restoreSnapTd disk s0) else fs q2) q :=
          rfl
      _ = (if q = s0.path then
            writeFlacTags (fs q) (restoreSnapTd disk s0) else fs q) :=
          ih _ q (fun s hs => hq s (List.mem_cons_of_mem s0 hs))
      _ = fs q := if_neg (fun hc =>
            hq s0 (List.mem_cons_self s0 rest) hc.symm)

theorem restore_eval (disk : List (String × List Nat))
    (snaps : List SnapshotRow) :
    ∀ fs : String → FlacState,
      ((snaps.map (fun s => s.path)).Nodup) →
      ∀ s ∈ snaps,
        restoreBackupFlac snaps disk fs s.path =
          writeFlacTags (fs s.path) (restoreSnapTd disk s) := by
  induction snaps with
  | nil => intro fs _ s hs; cases hs
  | cons s0 rest ih =>
    intro fs hnd s hs
    rw [List.map_cons, List.nodup_cons] at hnd
    rcases List.mem_cons.mp hs with rfl | hmem
    · calc restoreBackupFlac (s :: rest) disk fs s.path
          = restoreBackupFlac rest disk
              (fun q2 => if q2 = s.path then
                writeFlacTags (fs q2) (restoreSnapTd disk s) else fs q2)
              s.path := rfl
        _ = (if s.path = s.path then
              writeFlacTags (fs s.path) (restoreSnapTd disk s)
              else fs s.path) :=
            restore_untouched disk rest
              (fun q2 => if q2 = s.path then
                writeFlacTags (fs q2) (restoreSnapTd disk s) else fs q2)
              s.path
              (by intro s2 hs2 hc
                  exact hnd.1 (List.mem_map.mpr ⟨s2, hs2, hc⟩))
        _ = writeFlacTags (fs s.path) (restoreSnapTd disk s) := if_pos rfl
    · calc restoreBackupFlac (s0 :: rest) disk fs s.path
          = restoreBackupFlac rest disk
              (fun q2 => if q2 = s0.path then
                writeFlacTags (fs q2) (restoreSnapTd disk s0) else fs q2)
              s.path := rfl
        _ = writeFlacTags
              (if s.path = s0.path then
                writeFlacTags (fs s.path) (restoreSnapTd disk s0)
                else fs s.path)
              (restoreSnapTd disk s) := ih _ hnd.2 s hmem
        _ = writeFlacTags (fs s.path) (restoreSnapTd disk s) := by
            rw [if_neg (fun hc =>
              hnd.1 (List.mem_map.mpr ⟨s, hmem, hc⟩))]

theorem createBackupStep_nocover (fs : String → FlacState)
    (acc : BackupAcc) (tr : Nat × String)
    (h : flacCover (fs tr.2) = none) :
    createBackupStep fs acc tr = { acc with snaps := acc.snaps ++
      [{ track_id := tr.1, path := tr.2,
         tags_json := tagDataToDict (readFlacFull (fs tr.2)),
         has_cover := false, cover_path := none }] } := by
  have hcd : (readFlacFull (fs tr.2)).cover_data = none := by
    rw [readFlacFull_cover, h]
  simp [createBackupStep, hcd]

theorem createBackupStep_cover_first (fs : String → FlacState)
    (acc : BackupAcc) (tr : Nat × String) (d : List Nat)
    (h : flacCover (fs tr.2) = some d) (hne : d ≠ [])
    (hcf : acc.coverFile = none) :
    createBackupStep fs acc tr =
      { snaps := acc.snaps ++
          [{ track_id := tr.1, path := tr.2,
             tags_json := tagDataToDict (readFlacFull (fs tr.2)),
             has_cover := true,
             cover_path := some (backupCoverName
               (readFlacFull (fs tr.2)).cover_mime) }],
        disk := acc.disk ++
          [(backupCoverName (readFlacFull (fs tr.2)).cover_mime, d)],
        coverFile := some (backupCoverName
          (readFlacFull (fs tr.2)).cover_mime) } := by
  have hcd : (readFlacFull (fs tr.2)).cover_data = some d := by
    rw [readFlacFull_cover, h]
  have htr : bytesTruthy (some d) = true := by
    cases d with
    | nil => exact absurd rfl hne
    | cons x xs => rfl
  simp [createBackupStep, hcd, hcf, htr]

theorem createBackupStep_cover_later (fs : String → FlacState)
    (acc : BackupAcc) (tr : Nat × String) (d : List Nat) (p : String)
    (h : flacCover (fs tr.2) = some d) (hcf : acc.coverFile = some p) :
    createBackupStep fs acc tr = { acc with snaps := acc.snaps ++
      [{ track_id := tr.1, path := tr.2,
         tags_json := tagDataToDict (readFlacFull (fs tr.2)),
         has_cover := true, cover_path := some p }] } := by
  have hcd : (readFlacFull (fs tr.2)).cover_data = some d := by
    rw [readFlacFull_cover, h]
  simp [createBackupStep, hcd, hcf]

theorem createBackup_fold_spec (fs : String → FlacState) :
    ∀ (l : List (Nat × String)) (acc : BackupAcc),
    ((acc.coverFile = none ∧ acc.disk = []) ∨
      (∃ p D, acc.coverFile = some p ∧ acc.disk = [(p, D)] ∧
        (∀ tr ∈ l, ∀ d, flacCover (fs tr.2) = some d → d = D))) →
    (∀ tr ∈ l, ∀ tr2 ∈ l, ∀ d d2, flacCover (fs tr.2) = some d →
      flacCover (fs tr2.2) = some d2 → d = d2) →
    (∀ tr ∈ l, ∀ d, flacCover (fs tr.2) = some d → d ≠ []) →
    ∃ snapsAdd : List SnapshotRow,
      (l.foldl (createBackupStep fs) acc).snaps = acc.snaps ++ snapsAdd ∧
      snapsAdd.map (fun s => s.path) = l.map (fun tr => tr.2) ∧
      (∀ s ∈ snapsAdd, ∃ tr ∈ l, s.path = tr.2 ∧
        restoreSnapTd (l.foldl (createBackupStep fs) acc).disk s =
          roundTd (fs tr.2)) ∧
      (∀ p, acc.coverFile = some p →
        (l.foldl (createBackupStep fs) acc).coverFile = some p ∧
        (l.foldl (createBackupStep fs) acc).disk = acc.disk) := by
  intro l
  induction l with
  | nil =>
    intro acc _ _ _
    exact ⟨[], by simp, rfl, fun s hs => absurd hs (List.not_mem_nil s),
      fun p hp => ⟨hp, rfl⟩⟩
  | cons tr l ih =>
    intro acc hconsist hcov hne
    have hcov' : ∀ tr1 ∈ l, ∀ tr2 ∈ l, ∀ d d2,
        flacCover (fs tr1.2) = some d → flacCover (fs tr2.2) = some d2 →
        d = d2 := fun tr1 h1 tr2 h2 =>
      hcov tr1 (List.mem_cons_of_mem tr h1) tr2 (List.mem_cons_of_mem tr h2)
    have hne' : ∀ tr1 ∈ l, ∀ d, flacCover (fs tr1.2) = some d → d ≠ [] :=
      fun tr1 h1 => hne tr1 (List.mem_cons_of_mem tr h1)
    rcases hcase : flacCover (fs tr.2) with _ | dtr
    · -- the track has no cover
      have hstep := createBackupStep_nocover fs acc tr hcase
      have hconsist' : ((createBackupStep fs acc tr).coverFile = none ∧
          (createBackupStep fs acc tr).disk = []) ∨
          (∃ p D, (createBackupStep fs acc tr).coverFile = some p ∧
            (createBackupStep fs acc tr).disk = [(p, D)] ∧
            (∀ tr1 ∈ l, ∀ d, flacCover (fs tr1.2) = some d → d = D)) := by
        rw [hstep]
        rcases hconsist with ⟨h1, h2⟩ | ⟨p, D, h1, h2, h3⟩
        · exact Or.inl ⟨h1, h2⟩
        · exact Or.inr ⟨p, D, h1, h2,
            fun tr1 ht1 => h3 tr1 (List.mem_cons_of_mem tr ht1)⟩
      obtain ⟨snapsAdd, hs1, hs2, hs3, hs4⟩ :=
        ih (createBackupStep fs acc tr) hconsist' hcov' hne'
      rw [List.foldl_cons]
      refine ⟨{ track_id := tr.1, path := tr.2,
                tags_json := tagDataToDict (readFlacFull (fs tr.2)),
                has_cover := false, cover_path := none } :: snapsAdd,
        ?_, ?_, ?_, ?_⟩
      · rw [hs1, hstep]
        simp
      · simpa using hs2
      · intro s hs
        rcases List.mem_cons.mp hs with rfl | hmem
        · refine ⟨tr, List.mem_cons_self tr l, rfl, ?_⟩
          rw [restoreSnapTd_nocover _ _ rfl, roundTd_nocover _ hcase]
        · obtain ⟨tr1, ht1, hpath, hrt⟩ := hs3 s hmem
          exact ⟨tr1, List.mem_cons_of_mem tr ht1, hpath, hrt⟩
      · intro p hp
        have h5 := hs4 p (by rw [hstep]; exact hp)
        refine ⟨h5.1, h5.2.trans ?_⟩
        rw [hstep]
    · -- the track has a cover
      have hdne : dtr ≠ [] := hne tr (List.mem_cons_self tr l) dtr hcase
      rcases hconsist with ⟨hcf, hdisk⟩ | ⟨p, D, hcf, hdisk, hD⟩
      · -- first cover of the backup
        have hstep := createBackupStep_cover_first fs acc tr dtr hcase
          hdne hcf
        have hconsist' : ((createBackupStep fs acc tr).coverFile = none ∧
            (createBackupStep fs acc tr).disk = []) ∨
            (∃ p D, (createBackupStep fs acc tr).coverFile = some p ∧
              (createBackupStep fs acc tr).disk = [(p, D)] ∧
              (∀ tr1 ∈ l, ∀ d, flacCover (fs tr1.2) = some d → d = D)) := by
          rw [hstep]
          refine Or.inr ⟨backupCoverName (readFlacFull (fs tr.2)).cover_mime,
            dtr, rfl, by rw [hdisk]; rfl, ?_⟩
          intro tr1 ht1 d hd
          exact hcov tr1 (List.mem_cons_of_mem tr ht1) tr
            (List.mem_cons_self tr l) d dtr hd hcase
        obtain ⟨snapsAdd, hs1, hs2, hs3, hs4⟩ :=
          ih (createBackupStep fs acc tr) hconsist' hcov' hne'
        have hfinal := hs4 (backupCoverName (readFlacFull (fs tr.2)).cover_mime)
          (by rw [hstep])
        rw [List.foldl_cons]
        refine ⟨{ track_id := tr.1, path := tr.2,
                  tags_json := tagDataToDict (readFlacFull (fs tr.2)),
                  has_cover := true,
                  cover_path := some (backupCoverName
                    (readFlacFull (fs tr.2)).cover_mime) } :: snapsAdd,
          ?_, ?_, ?_, ?_⟩
        · rw [hs1, hstep]
          simp
        · simpa using hs2
        · intro s hs
          rcases List.mem_cons.mp hs with rfl | hmem
          · refine ⟨tr, List.mem_cons_self tr l, rfl, ?_⟩
            rw [hfinal.2, hstep]
            show restoreSnapTd (acc.disk ++
              [(backupCoverName (readFlacFull (fs tr.2)).cover_mime, dtr)])
              _ = _
            rw [hdisk, List.nil_append]
            rw [restoreSnapTd_cover _ dtr _ rfl rfl,
              roundTd_cover _ dtr hcase]
          · obtain ⟨tr1, ht1, hpath, hrt⟩ := hs3 s hmem
            exact ⟨tr1, List.mem_cons_of_mem tr ht1, hpath, hrt⟩
        · intro p hp
          rw [hcf] at hp
          cases hp
      · -- a cover file already exists
        have hstep := createBackupStep_cover_later fs acc tr dtr p hcase hcf
        have hDtr : dtr = D := hD tr (List.mem_cons_self tr l) dtr hcase
        have hconsist' : ((createBackupStep fs acc tr).coverFile = none ∧
            (createBackupStep fs acc tr).disk = []) ∨
            (∃ p2 D2, (createBackupStep fs acc tr).coverFile = some p2 ∧
              (createBackupStep fs acc tr).disk = [(p2, D2)] ∧
              (∀ tr1 ∈ l, ∀ d, flacCover (fs tr1.2) = some d → d = D2)) := by
          rw [hstep]
          exact Or.inr ⟨p, D, hcf, hdisk,
            fun tr1 ht1 => hD tr1 (List.mem_cons_of_mem tr ht1)⟩
        obtain ⟨snapsAdd, hs1, hs2, hs3, hs4⟩ :=
          ih (createBackupStep fs acc tr) hconsist' hcov' hne'
        have hfinal := hs4 p (by rw [hstep]; exact hcf)
        rw [List.foldl_cons]
        refine ⟨{ track_id := tr.1, path := tr.2,
                  tags_json := tagDataToDict (readFlacFull (fs tr.2)),
                  has_cover := true, cover_path := some p } :: snapsAdd,
          ?_, ?_, ?_, ?_⟩
        · rw [hs1, hstep]
          simp
        · simpa using hs2
        · intro s hs
          rcases List.mem_cons.mp hs with rfl | hmem
          · refine ⟨tr, List.mem_cons_self tr l, rfl, ?_⟩
            rw [hfinal.2, hstep]
            show restoreSnapTd acc.disk _ = _
            rw [hdisk]
            rw [restoreSnapTd_cover _ D _ rfl rfl,
              roundTd_cover _ dtr hcase, hDtr]
          · obtain ⟨tr1, ht1, hpath, hrt⟩ := hs3 s hmem
            exact ⟨tr1, List.mem_cons_of_mem tr ht1, hpath, hrt⟩
        · intro p2 hp2
          rw [hcf] at hp2
          cases hp2
          refine ⟨hfinal.1, ?_⟩
          rw [hfinal.2, hstep]

/-- **C5, counterexample.**  The claim fails as stated: a FLAC file whose
`date` comment is a full date `"1999-05-01"` is backed up with the parsed
year 1999, and the immediate restore rewrites the `date` comment to
`"1999"`, which is not byte-equal to the pre-backup serialized value. -/
theorem backup_restore_not_byte_equal :
    restoreBackupFlac
      (createBackupFlac
        (fun _ => ({ date := some ["1999-05-01"] } : FlacState))
        [(1, "/t.flac")]).snaps
      (createBackupFlac
        (fun _ => ({ date := some ["1999-05-01"] } : FlacState))
        [(1, "/t.flac")]).disk
      (fun _ => ({ date := some ["1999-05-01"] } : FlacState))
      "/t.flac" ≠
    ({ date := some ["1999-05-01"] } : FlacState) := by
  decide

/-- **C5, amended.**  Over writer-canonical FLAC states — every comment in
the exact shape the tag writer itself produces — with pairwise-agreeing
nonempty embedded covers, an immediate restore of a fresh backup reproduces
every file's tag state exactly: serialized fields, cover bytes, and
untouched comments alike. -/
theorem backup_restore_roundtrip (fs : String → FlacState)
    (trackList : List (Nat × String))
    (hnodup : (trackList.map (fun tr => tr.2)).Nodup)
    (hcanon : ∀ tr ∈ trackList, canonicalFlacState (fs tr.2) = true)
    (hcov : ∀ tr ∈ trackList, ∀ tr2 ∈ trackList, ∀ d d2,
      flacCover (fs tr.2) = some d → flacCover (fs tr2.2) = some d2 →
      d = d2)
    (hne : ∀ tr ∈ trackList, ∀ d, flacCover (fs tr.2) = some d → d ≠ []) :
    ∀ tr ∈ trackList,
      restoreBackupFlac (createBackupFlac fs trackList).snaps
        (createBackupFlac fs trackList).disk fs tr.2 = fs tr.2 := by
  obtain ⟨snapsAdd, h1, h2, h3, _⟩ :=
    createBackup_fold_spec fs trackList {} (Or.inl ⟨rfl, rfl⟩) hcov hne
  intro tr htr
  have hsnaps : (createBackupFlac fs trackList).snaps = snapsAdd := by
    rw [createBackupFlac, h1]
    rfl
  have hmem : tr.2 ∈ snapsAdd.map (fun s => s.path) := by
    rw [h2]
    exact List.mem_map.mpr ⟨tr, htr, rfl⟩
  obtain ⟨s, hsmem, hspath⟩ := List.mem_map.mp hmem
  have hnd2 : (snapsAdd.map (fun s => s.path)).Nodup := by
    rw [h2]; exact hnodup
  obtain ⟨tr1, htr1, hpath1, hrt⟩ := h3 s hsmem
  have heval := restore_eval (createBackupFlac fs trackList).disk
    snapsAdd fs hnd2 s hsmem
  rw [hsnaps, ← hspath]
  rw [heval]
  have hfs : fs s.path = fs tr.2 := by rw [hspath]
  have hfs1 : fs tr1.2 = fs tr.2 := by rw [← hpath1, hspath]
  rw [createBackupFlac]
  rw [hrt, hfs, hfs1]
  exact writeFlac_restore_roundtrip (fs tr.2) (hcanon tr htr)
    (fun d hd => hne tr htr d hd)

/-- Witness for C5 at a single coverless canonical file. -/
theorem backup_restore_roundtrip_witness :
    restoreBackupFlac
      (createBackupFlac (fun _ => ({} : FlacState)) [(1, "/t.flac")]).snaps
      (createBackupFlac (fun _ => ({} : FlacState)) [(1, "/t.flac")]).disk
      (fun _ => ({} : FlacState)) "/t.flac" = ({} : FlacState) := by
  have h := backup_restore_roundtrip (fun _ => ({} : FlacState))
    [(1, "/t.flac")]
    (by decide)
    (by intro tr _
        show canonicalFlacState {} = true
        decide)
    (by intro tr _ tr2 _ d d2 hd _
        have hd2 : (none : Option (List Nat)) = some d := hd
        cases hd2)
    (by intro tr _ d hd
        have hd2 : (none : Option (List Nat)) = some d := hd
        cases hd2)
  exact h (1, "/t.flac") (by decide)

theorem mem_insertionKeys {α : Type} [DecidableEq α] (vs : List α)
    (p : α) : p ∈ insertionKeys vs ↔ p ∈ vs := by
  suffices h : ∀ acc : List α,
      p ∈ vs.foldl (fun acc v => if v ∈ acc then acc else acc ++ [v]) acc ↔
        p ∈ acc ∨ p ∈ vs by
    have h2 := h []
    simpa [insertionKeys] using h2
  induction vs with
  | nil => intro acc; simp
  | cons v vs ih =>
    intro acc
    rw [List.foldl_cons]
    by_cases hv : v ∈ acc
    · rw [if_pos hv, ih]
      constructor
      · rintro (h | h)
        · exact Or.inl h
        · exact Or.inr (List.mem_cons_of_mem v h)
      · rintro (h | h)
        · exact Or.inl h
        · rcases List.mem_cons.mp h with rfl | h
          · exact Or.inl hv
          · exact Or.inr h
    · rw [if_neg hv, ih]
      constructor
      · rintro (h | h)
        · rcases List.mem_append.mp h with h | h
          · exact Or.inl h
          · rcases List.mem_singleton.mp h with rfl
            exact Or.inr (List.mem_cons_self p vs)
        · exact Or.inr (List.mem_cons_of_mem v h)
      · rintro (h | h)
        · exact Or.inl (List.mem_append.mpr (Or.inl h))
        · rcases List.mem_cons.mp h with rfl | h
          · exact Or.inl (List.mem_append.mpr (Or.inr (List.mem_singleton.mpr rfl)))
          · exact Or.inr h

theorem newTrackRows_paths (fid aid : Nat) (ts : List TrackInfo) :
    (newTrackRows fid aid ts).map (fun t => t.path) =
      ts.map (fun t => t.path) := by
  rw [newTrackRows, List.map_map]
  have h : ((fun t => TrackRow.path t) ∘ fun it : Nat × TrackInfo =>
      ({ id := fid + it.1
         album_id := aid
         path := it.2.path
         track_number := it.2.track_number
         disc_number := some (if intTruthy it.2.disc_number
           then (it.2.disc_number.getD 1) else 1)
         title := it.2.title
         artist := it.2.artist
         duration := it.2.duration
         musicbrainz_recording_id := it.2.musicbrainz_recording_id
         status := "pending" } : TrackRow)) =
      (fun t : TrackInfo => t.path) ∘ Prod.snd := rfl
  rw [h, ← List.map_map, List.enum_map_snd]

theorem newTrackRows_album_id (fid aid : Nat) (ts : List TrackInfo) :
    ∀ t ∈ newTrackRows fid aid ts, t.album_id = aid := by
  intro t ht
  rw [newTrackRows] at ht
  obtain ⟨it, _, heq⟩ := List.mem_map.mp ht
  rw [← heq]

theorem find?_album_unique (p : String) :
    ∀ (l : List AlbumRow), ((l.map (fun a => a.path)).Nodup) →
    ∀ a ∈ l, a.path = p → l.find? (fun x => x.path = p) = some a := by
  intro l
  induction l with
  | nil => intro _ a ha; cases ha
  | cons x l ih =>
    intro hnd a ha hp
    rw [List.map_cons, List.nodup_cons] at hnd
    rcases List.mem_cons.mp ha with rfl | hmem
    · rw [List.find?_cons, show (decide (a.path = p)) = true by
        rw [hp]; exact decide_eq_true rfl]
    · have hne : ¬(x.path = p) := fun hc =>
        hnd.1 (by rw [hc]; exact List.mem_map.mpr ⟨a, hmem, hp⟩)
      rw [List.find?_cons, show (decide (x.path = p)) = false by
        simpa using hne]
      exact ih hnd.2 a hmem hp

theorem query_some_mem {db : ScanDB} {p : String} {a : AlbumRow}
    (h : queryAlbumByPath db p = some a) : a ∈ db.albums ∧ a.path = p := by
  refine ⟨List.mem_of_find?_eq_some h, ?_⟩
  have h2 := List.find?_some h
  simpa using h2

theorem query_of_mem {db : ScanDB} {p : String} {a : AlbumRow}
    (hnd : (db.albums.map (fun a => a.path)).Nodup)
    (ha : a ∈ db.albums) (hp : a.path = p) :
    queryAlbumByPath db p = some a :=
  find?_album_unique p db.albums hnd a ha hp

theorem insertionKeys_nodup {α : Type} [DecidableEq α] (vs : List α) :
    (insertionKeys vs).Nodup := by
  suffices h : ∀ acc : List α, acc.Nodup →
      (vs.foldl (fun acc v => if v ∈ acc then acc else acc ++ [v]) acc).Nodup
    from h [] List.nodup_nil
  induction vs with
  | nil => intro acc h; exact h
  | cons v vs ih =>
    intro acc h
    rw [List.foldl_cons]
    by_cases hv : v ∈ acc
    · rw [if_pos hv]; exact ih acc h
    · rw [if_neg hv]
      refine ih _ ?_
      rw [(List.perm_append_singleton v acc).nodup_iff, List.nodup_cons]
      exact ⟨hv, h⟩

theorem removeObsolete_noop (db : ScanDB) (dps : List String)
    (h : ∀ dp ∈ dps, queryAlbumByPath db dp = none) :
    removeObsolete db dps = db := by
  induction dps with
  | nil => rfl
  | cons dp dps ih =>
    rw [removeObsolete, List.foldl_cons, h dp (List.mem_cons_self dp dps)]
    exact ih (fun dp2 h2 => h dp2 (List.mem_cons_of_mem dp h2))

theorem filterMap_find_paths (ts : List TrackInfo) :
    ∀ ps : List String,
    (∀ p ∈ ps, p ∈ ts.map (fun t => t.path)) →
    (ps.filterMap (fun p =>
      ts.reverse.find? (fun t => t.path = p))).map (fun t => t.path) = ps := by
  intro ps
  induction ps with
  | nil => intro _; rfl
  | cons p ps ih =>
    intro h
    have hp := h p (List.mem_cons_self p ps)
    obtain ⟨t0, ht0, hpath⟩ := List.mem_map.mp hp
    have hsome : (ts.reverse.find? (fun t => t.path = p)).isSome := by
      rw [List.find?_isSome]
      exact ⟨t0, List.mem_reverse.mpr ht0, by simpa using hpath⟩
    cases hf : ts.reverse.find? (fun t => t.path = p) with
    | none => rw [hf] at hsome; simp at hsome
    | some t1 =>
      have ht1 : t1.path = p := by
        have h2 := List.find?_some hf
        simpa using h2
      rw [List.filterMap_cons, hf, List.map_cons, ht1,
        ih (fun p2 h2 => h p2 (List.mem_cons_of_mem p h2))]

theorem find?_album_map (f : AlbumRow → AlbumRow)
    (hf : ∀ a, (f a).path = a.path) (p : String) :
    ∀ l : List AlbumRow,
      (l.map f).find? (fun x => x.path = p) =
      (l.find? (fun x => x.path = p)).map f := by
  intro l
  induction l with
  | nil => rfl
  | cons a l ih =>
    simp only [List.map_cons, List.find?_cons]
    rw [show (decide ((f a).path = p)) = decide (a.path = p) by rw [hf a]]
    cases hd : decide (a.path = p) with
    | true => rfl
    | false => exact ih

theorem find?_none_filter {l : List AlbumRow} {p : String}
    (pred : AlbumRow → Bool)
    (h : l.find? (fun x => x.path = p) = none) :
    (l.filter pred).find? (fun x => x.path = p) = none :=
  (List.filter_sublist l).find?_eq_none h

theorem find?_album_filter_some {l : List AlbumRow} {p : String}
    (pred : AlbumRow → Bool) {a : AlbumRow}
    (hnd : (l.map (fun x => x.path)).Nodup)
    (ha : a ∈ l) (hp : a.path = p) (hpred : pred a = true) :
    (l.filter pred).find? (fun x => x.path = p) = some a := by
  refine find?_album_unique p (l.filter pred) ?_ a ?_ hp
  · exact ((List.filter_sublist l).map (fun x => x.path)).nodup hnd
  · exact List.mem_filter.mpr ⟨ha, hpred⟩

theorem eq_of_nodup_path {l : List AlbumRow} {a b : AlbumRow}
    (hnd : (l.map (fun x => x.path)).Nodup)
    (ha : a ∈ l) (hb : b ∈ l) (hp : a.path = b.path) : a = b :=
  List.inj_on_of_nodup_map hnd ha hb hp

theorem eq_of_nodup_id {l : List AlbumRow} {a b : AlbumRow}
    (hnd : (l.map (fun x => x.id)).Nodup)
    (ha : a ∈ l) (hb : b ∈ l) (hp : a.id = b.id) : a = b :=
  List.inj_on_of_nodup_map hnd ha hb hp

theorem removeAlbum_query_pres (db : ScanDB) (k : Nat) (p : String)
    (hnd : (db.albums.map (fun a => a.path)).Nodup)
    (hsurv : ∀ a ∈ db.albums, a.path = p → a.id ≠ k) :
    queryAlbumByPath (removeAlbum db k) p = queryAlbumByPath db p := by
  show (db.albums.filter (fun a => a.id ≠ k)).find? (fun a => a.path = p) =
    db.albums.find? (fun a => a.path = p)
  cases hq : db.albums.find? (fun a => decide (a.path = p)) with
  | none => exact find?_none_filter _ hq
  | some a =>
    obtain ⟨ha, hp⟩ := query_some_mem hq
    exact find?_album_filter_some (fun a => decide (a.id ≠ k)) hnd ha hp
      (by simpa using hsurv a ha hp)

theorem removeAlbum_query_none (db : ScanDB) (k : Nat) (p : String)
    (h : ∀ a ∈ db.albums, a.path = p → a.id = k) :
    queryAlbumByPath (removeAlbum db k) p = none := by
  show (db.albums.filter (fun a => a.id ≠ k)).find? (fun a => a.path = p) =
    none
  rw [List.find?_eq_none]
  intro a ha
  obtain ⟨hmem, hpred⟩ := List.mem_filter.mp ha
  simp only [decide_eq_true_eq] at hpred ⊢
  intro hp
  have hne : a.id ≠ k := by simpa using hpred
  exact hne (h a hmem hp)

theorem removeAlbum_tracks (db : ScanDB) (k aid : Nat) (h : ¬(aid = k)) :
    albumTracks (removeAlbum db k) aid = albumTracks db aid := by
  show (db.tracks.filter (fun t => t.album_id ≠ k)).filter
    (fun t => t.album_id = aid) = db.tracks.filter (fun t => t.album_id = aid)
  rw [List.filter_filter]
  apply List.filter_congr
  intro t _
  by_cases ht : t.album_id = aid
  · rw [ht]
    simp [h]
  · simp [ht]

theorem find?_append_single_other (l : List AlbumRow) (b : AlbumRow)
    (p : String) (hne : ¬(b.path = p)) :
    (l ++ [b]).find? (fun x => x.path = p) =
    l.find? (fun x => x.path = p) := by
  rw [List.find?_append]
  cases hq : l.find? (fun x => decide (x.path = p)) with
  | some a => rfl
  | none =>
    simp only [Option.none_or]
    rw [List.find?_cons, show (decide (b.path = p)) = false by simpa using hne]
    rfl

theorem find?_append_single_self (l : List AlbumRow) (b : AlbumRow)
    (p : String) (hnone : l.find? (fun x => x.path = p) = none)
    (hb : b.path = p) :
    (l ++ [b]).find? (fun x => x.path = p) = some b := by
  rw [List.find?_append, hnone]
  simp only [Option.none_or]
  rw [List.find?_cons, show (decide (b.path = p)) = true by
    rw [hb]; exact decide_eq_true rfl]

theorem incUpd_noop (db : ScanDB) (alb : AlbumRow) (info : AlbumInfo)
    (heq : pathSetEq (diskKeys info) (dbKeys db alb.id)) :
    incrementalUpdate db alb (some info) = (db, false) := by
  show (if (addedKeys db alb.id info).isEmpty = true ∧
      (removedKeys db alb.id info).isEmpty = true then (db, false)
    else (incUpdApply db alb.id info, true)) = (db, false)
  have h1 : addedKeys db alb.id info = [] := by
    rw [addedKeys, List.filter_eq_nil_iff]
    intro p hp
    simp only [decide_eq_true_eq, Decidable.not_not]
    exact (heq p).mp hp
  have h2 : removedKeys db alb.id info = [] := by
    rw [removedKeys, List.filter_eq_nil_iff]
    intro p hp
    simp only [decide_eq_true_eq, Decidable.not_not]
    exact (heq p).mpr hp
  rw [h1, h2]
  rw [if_pos ⟨rfl, rfl⟩]

theorem incUpd_update (db : ScanDB) (alb : AlbumRow) (info : AlbumInfo)
    (h : ¬((addedKeys db alb.id info).isEmpty = true ∧
      (removedKeys db alb.id info).isEmpty = true)) :
    incrementalUpdate db alb (some info) =
      (incUpdApply db alb.id info, true) := by
  show (if (addedKeys db alb.id info).isEmpty = true ∧
      (removedKeys db alb.id info).isEmpty = true then (db, false)
    else (incUpdApply db alb.id info, true)) =
    (incUpdApply db alb.id info, true)
  rw [if_neg h]

theorem incUpdApply_query (db : ScanDB) (aid : Nat) (info : AlbumInfo)
    (p : String) :
    queryAlbumByPath (incUpdApply db aid info) p =
      (queryAlbumByPath db p).map (fun a =>
        if a.id = aid then
          { a with track_count := (diskKeys info).length,
                   status := "pending" }
        else a) := by
  show (db.albums.map (fun a =>
      if a.id = aid then
        ({ a with track_count := (diskKeys info).length,
                  status := "pending" } : AlbumRow)
      else a)).find? (fun a => a.path = p) =
    (db.albums.find? (fun a => a.path = p)).map (fun a =>
      if a.id = aid then
        ({ a with track_count := (diskKeys info).length,
                  status := "pending" } : AlbumRow)
      else a)
  exact find?_album_map _
    (fun a => by by_cases h : a.id = aid <;> simp [h]) p db.albums

theorem incUpdApply_tracks_other (db : ScanDB) (aid : Nat)
    (info : AlbumInfo) (aid2 : Nat) (hne : ¬(aid2 = aid))
    (hndT : (db.tracks.map (fun t => t.path)).Nodup) :
    albumTracks (incUpdApply db aid info) aid2 = albumTracks db aid2 := by
  show ((db.tracks.filter
      (fun t => t.path ∉ removedKeys db aid info)) ++
      newTrackRows db.nextTrackId aid (addedTrackInfos db aid info)).filter
      (fun t => t.album_id = aid2) =
    db.tracks.filter (fun t => t.album_id = aid2)
  rw [List.filter_append]
  have h2 : (newTrackRows db.nextTrackId aid
      (addedTrackInfos db aid info)).filter
      (fun t => t.album_id = aid2) = [] := by
    rw [List.filter_eq_nil_iff]
    intro t ht
    have haid := newTrackRows_album_id _ _ _ t ht
    simp only [haid, decide_eq_true_eq]
    exact fun hc => hne hc.symm
  rw [h2, List.append_nil, List.filter_filter]
  apply List.filter_congr
  intro t htmem
  by_cases ht : t.album_id = aid2
  · have hpath : t.path ∉ removedKeys db aid info := by
      intro hrem
      have hdbk : t.path ∈ dbKeys db aid := List.mem_of_mem_filter hrem
      rw [dbKeys, mem_insertionKeys] at hdbk
      obtain ⟨t2, ht2, hpeq⟩ := List.mem_map.mp hdbk
      have ht2mem : t2 ∈ db.tracks := List.mem_of_mem_filter ht2
      have hte : t2 = t := List.inj_on_of_nodup_map hndT ht2mem htmem hpeq
      have haid : t2.album_id = aid := by
        have h3 := (List.mem_filter.mp ht2).2
        simpa using h3
      rw [hte] at haid
      exact hne (ht ▸ haid ▸ rfl)
    simp [ht, hpath]
  · simp [ht]

theorem mem_dbKeys (db : ScanDB) (aid : Nat) (p : String) :
    p ∈ dbKeys db aid ↔
      ∃ t ∈ db.tracks, t.album_id = aid ∧ t.path = p := by
  rw [dbKeys, mem_insertionKeys]
  constructor
  · intro h
    obtain ⟨t, ht, hp⟩ := List.mem_map.mp h
    obtain ⟨htm, hta⟩ := List.mem_filter.mp ht
    exact ⟨t, htm, by simpa using hta, hp⟩
  · rintro ⟨t, htm, hta, hp⟩
    exact List.mem_map.mpr ⟨t, List.mem_filter.mpr ⟨htm, by simpa using hta⟩,
      hp⟩

theorem mem_diskKeys (info : AlbumInfo) (p : String) :
    p ∈ diskKeys info ↔ p ∈ info.tracks.map (fun t => t.path) := by
  rw [diskKeys, mem_insertionKeys]

theorem addedTrackInfos_paths (db : ScanDB) (aid : Nat) (info : AlbumInfo) :
    (addedTrackInfos db aid info).map (fun t => t.path) =
      addedKeys db aid info := by
  rw [addedTrackInfos]
  apply filterMap_find_paths
  intro p hp
  have h1 : p ∈ diskKeys info := List.mem_of_mem_filter hp
  exact (mem_diskKeys info p).mp h1

theorem incUpdApply_self_sync (db : ScanDB) (aid : Nat)
    (info : AlbumInfo) :
    pathSetEq (diskKeys info) (dbKeys (incUpdApply db aid info) aid) := by
  intro p
  have htracks : albumTracks (incUpdApply db aid info) aid =
      ((db.tracks.filter (fun t => t.path ∉ removedKeys db aid info)).filter
        (fun t => t.album_id = aid)) ++
      newTrackRows db.nextTrackId aid (addedTrackInfos db aid info) := by
    show ((db.tracks.filter (fun t => t.path ∉ removedKeys db aid info)) ++
        newTrackRows db.nextTrackId aid
          (addedTrackInfos db aid info)).filter
        (fun t => t.album_id = aid) = _
    rw [List.filter_append]
    congr 1
    rw [List.filter_eq_self]
    intro t ht
    have haid := newTrackRows_album_id _ _ _ t ht
    simpa using haid
  constructor
  · intro hp
    rw [mem_dbKeys]
    by_cases hdb : p ∈ dbKeys db aid
    · obtain ⟨t, htm, hta, htp⟩ := (mem_dbKeys db aid p).mp hdb
      refine ⟨t, ?_, hta, htp⟩
      show t ∈ (incUpdApply db aid info).tracks
      apply List.mem_append.mpr
      refine Or.inl (List.mem_filter.mpr ⟨htm, ?_⟩)
      simp only [decide_eq_true_eq, Decidable.not_not]
      intro hrem
      have h2 := (List.mem_filter.mp hrem).2
      rw [htp] at h2
      simp only [decide_eq_true_eq, Decidable.not_not] at h2
      exact h2 hp
    · have hadd : p ∈ addedKeys db aid info :=
        List.mem_filter.mpr ⟨hp, by simpa using hdb⟩
      rw [← addedTrackInfos_paths db aid info] at hadd
      obtain ⟨t0, ht0, htp⟩ := List.mem_map.mp hadd
      have hrow : ∃ r ∈ newTrackRows db.nextTrackId aid
          (addedTrackInfos db aid info), r.path = p := by
        have hpaths := newTrackRows_paths db.nextTrackId aid
          (addedTrackInfos db aid info)
        have : p ∈ (newTrackRows db.nextTrackId aid
            (addedTrackInfos db aid info)).map (fun t => t.path) := by
          rw [hpaths]
          exact List.mem_map.mpr ⟨t0, ht0, htp⟩
        obtain ⟨r, hr, hrp⟩ := List.mem_map.mp this
        exact ⟨r, hr, hrp⟩
      obtain ⟨r, hr, hrp⟩ := hrow
      refine ⟨r, ?_, newTrackRows_album_id _ _ _ r hr, hrp⟩
      show r ∈ (incUpdApply db aid info).tracks
      exact List.mem_append.mpr (Or.inr hr)
  · intro hp
    obtain ⟨t, htm, hta, htp⟩ := (mem_dbKeys _ aid p).mp hp
    have htm2 : t ∈ ((db.tracks.filter
        (fun t => t.path ∉ removedKeys db aid info)).filter
        (fun t => t.album_id = aid)) ++
        newTrackRows db.nextTrackId aid (addedTrackInfos db aid info) := by
      have h0 : t ∈ albumTracks (incUpdApply db aid info) aid :=
        List.mem_filter.mpr ⟨htm, by simpa using hta⟩
      rw [htracks] at h0
      exact h0
    rcases List.mem_append.mp htm2 with hold | hnew
    · obtain ⟨hkept, _⟩ := List.mem_filter.mp hold
      obtain ⟨htdb, hnrem⟩ := List.mem_filter.mp hkept
      have hdbk : p ∈ dbKeys db aid :=
        (mem_dbKeys db aid p).mpr ⟨t, htdb, hta, htp⟩
      simp only [decide_eq_true_eq, Decidable.not_not] at hnrem
      by_contra hdisk
      have : t.path ∈ removedKeys db aid info := by
        apply List.mem_filter.mpr
        refine ⟨by rw [htp]; exact hdbk, ?_⟩
        simp only [decide_eq_true_eq, Decidable.not_not]
        rw [htp]
        exact fun hc => hdisk hc
      exact hnrem this
    · have hpaths := newTrackRows_paths db.nextTrackId aid
        (addedTrackInfos db aid info)
      have hpadd : p ∈ addedKeys db aid info := by
        rw [← addedTrackInfos_paths db aid info]
        rw [← hpaths]
        exact List.mem_map.mpr ⟨t, hnew, htp⟩
      exact List.mem_of_mem_filter hpadd

theorem map_path_pres (l : List AlbumRow) (f : AlbumRow → AlbumRow)
    (hf : ∀ a, (f a).path = a.path) :
    (l.map f).map (fun a => a.path) = l.map (fun a => a.path) := by
  rw [List.map_map]
  exact List.map_congr_left (fun a _ => hf a)

theorem map_id_pres (l : List AlbumRow) (f : AlbumRow → AlbumRow)
    (hf : ∀ a, (f a).id = a.id) :
    (l.map f).map (fun a => a.id) = l.map (fun a => a.id) := by
  rw [List.map_map]
  exact List.map_congr_left (fun a _ => hf a)

theorem incUpdFun_path (aid : Nat) (info : AlbumInfo) :
    ∀ a : AlbumRow, ((fun a : AlbumRow =>
      if a.id = aid then
        ({ a with track_count := (diskKeys info).length,
                  status := "pending" } : AlbumRow)
      else a) a).path = a.path := by
  intro a
  by_cases h : a.id = aid <;> simp [h]

theorem incUpdFun_id (aid : Nat) (info : AlbumInfo) :
    ∀ a : AlbumRow, ((fun a : AlbumRow =>
      if a.id = aid then
        ({ a with track_count := (diskKeys info).length,
                  status := "pending" } : AlbumRow)
      else a) a).id = a.id := by
  intro a
  by_cases h : a.id = aid <;> simp [h]

theorem incUpdApply_ok (db : ScanDB) (aid : Nat) (info : AlbumInfo)
    (hOk : scanDBOk db) (haid : aid < db.nextAlbumId)
    (hown : ∀ t ∈ db.tracks, t.path ∈ info.tracks.map (fun t2 => t2.path) →
      t.album_id = aid) :
    scanDBOk (incUpdApply db aid info) := by
  obtain ⟨hap, hai, hab, htp, htb⟩ := hOk
  refine ⟨?_, ?_, ?_, ?_, ?_⟩
  · show ((db.albums.map (fun a =>
        if a.id = aid then
          ({ a with track_count := (diskKeys info).length,
                    status := "pending" } : AlbumRow)
        else a)).map (fun a => a.path)).Nodup
    rw [map_path_pres _ _ (incUpdFun_path aid info)]
    exact hap
  · show ((db.albums.map (fun a =>
        if a.id = aid then
          ({ a with track_count := (diskKeys info).length,
                    status := "pending" } : AlbumRow)
        else a)).map (fun a => a.id)).Nodup
    rw [map_id_pres _ _ (incUpdFun_id aid info)]
    exact hai
  · intro a ha
    obtain ⟨a0, ha0, heq⟩ := List.mem_map.mp ha
    have hid : a.id = a0.id := by rw [← heq]; exact incUpdFun_id aid info a0
    show a.id < db.nextAlbumId
    rw [hid]
    exact hab a0 ha0
  · show (((db.tracks.filter
        (fun t => t.path ∉ removedKeys db aid info)) ++
      newTrackRows db.nextTrackId aid
        (addedTrackInfos db aid info)).map (fun t => t.path)).Nodup
    rw [List.map_append]
    apply List.Nodup.append
    · exact (((List.filter_sublist db.tracks).map
        (fun t => t.path)).nodup htp)
    · rw [newTrackRows_paths, addedTrackInfos_paths]
      exact (insertionKeys_nodup _).filter _
    · intro p hp1 hp2
      rw [newTrackRows_paths, addedTrackInfos_paths] at hp2
      have hnotdb : p ∉ dbKeys db aid := by
        have h2 := (List.mem_filter.mp hp2).2
        simpa using h2
      have hdisk : p ∈ diskKeys info := List.mem_of_mem_filter hp2
      obtain ⟨t, ht, htp2⟩ := List.mem_map.mp hp1
      have htdb : t ∈ db.tracks := List.mem_of_mem_filter ht
      have haid2 : t.album_id = aid := by
        apply hown t htdb
        rw [htp2]
        exact (mem_diskKeys info p).mp hdisk
      exact hnotdb ((mem_dbKeys db aid p).mpr ⟨t, htdb, haid2, htp2⟩)
  · intro t ht
    show t.album_id < db.nextAlbumId
    rcases List.mem_append.mp ht with h1 | h1
    · exact htb t (List.mem_of_mem_filter h1)
    · rw [newTrackRows_album_id _ _ _ t h1]
      exact haid

theorem dbInsert_query_other (db : ScanDB) (p0 : String) (info : AlbumInfo)
    (p : String) (hne : ¬(p = p0)) :
    queryAlbumByPath (dbInsertAlbum db p0 info).1 p =
      queryAlbumByPath db p := by
  show (db.albums ++ [insertAlbumRow db.nextAlbumId p0 info]).find?
    (fun a => a.path = p) = db.albums.find? (fun a => a.path = p)
  apply find?_append_single_other
  intro hc
  exact hne (show p = p0 from hc.symm)

theorem dbInsert_query_self (db : ScanDB) (p0 : String) (info : AlbumInfo)
    (hq : queryAlbumByPath db p0 = none) :
    queryAlbumByPath (dbInsertAlbum db p0 info).1 p0 =
      some (insertAlbumRow db.nextAlbumId p0 info) := by
  show (db.albums ++ [insertAlbumRow db.nextAlbumId p0 info]).find?
    (fun a => a.path = p0) = _
  exact find?_append_single_self _ _ _ hq rfl

theorem dbInsert_tracks_other (db : ScanDB) (p0 : String)
    (info : AlbumInfo) (aid2 : Nat) (hne : ¬(aid2 = db.nextAlbumId)) :
    albumTracks (dbInsertAlbum db p0 info).1 aid2 = albumTracks db aid2 := by
  show (db.tracks ++ [] ++
      newTrackRows db.nextTrackId db.nextAlbumId info.tracks).filter
      (fun t => t.album_id = aid2) =
    db.tracks.filter (fun t => t.album_id = aid2)
  rw [List.append_nil, List.filter_append]
  have h2 : (newTrackRows db.nextTrackId db.nextAlbumId info.tracks).filter
      (fun t => t.album_id = aid2) = [] := by
    rw [List.filter_eq_nil_iff]
    intro t ht
    rw [newTrackRows_album_id _ _ _ t ht]
    simp only [decide_eq_true_eq]
    exact fun hc => hne hc.symm
  rw [h2, List.append_nil]

theorem dbInsert_self_sync (db : ScanDB) (p0 : String) (info : AlbumInfo)
    (htb : ∀ t ∈ db.tracks, t.album_id < db.nextAlbumId) :
    pathSetEq (diskKeys info)
      (dbKeys (dbInsertAlbum db p0 info).1 db.nextAlbumId) := by
  have h : albumTracks (dbInsertAlbum db p0 info).1 db.nextAlbumId =
      newTrackRows db.nextTrackId db.nextAlbumId info.tracks := by
    show (db.tracks ++ [] ++
        newTrackRows db.nextTrackId db.nextAlbumId info.tracks).filter
        (fun t => t.album_id = db.nextAlbumId) =
      newTrackRows db.nextTrackId db.nextAlbumId info.tracks
    rw [List.append_nil, List.filter_append]
    have h1 : db.tracks.filter
        (fun t => t.album_id = db.nextAlbumId) = [] := by
      rw [List.filter_eq_nil_iff]
      intro t ht
      simp only [decide_eq_true_eq]
      exact Nat.ne_of_lt (htb t ht)
    have h2 : (newTrackRows db.nextTrackId db.nextAlbumId
        info.tracks).filter (fun t => t.album_id = db.nextAlbumId) =
        newTrackRows db.nextTrackId db.nextAlbumId info.tracks := by
      rw [List.filter_eq_self]
      intro t ht
      rw [newTrackRows_album_id _ _ _ t ht]
      simp
    rw [h1, h2, List.nil_append]
  intro p
  rw [dbKeys, h, newTrackRows_paths]
  exact Iff.rfl

theorem dbInsert_ok (db : ScanDB) (p0 : String) (info : AlbumInfo)
    (hOk : scanDBOk db) (hq : queryAlbumByPath db p0 = none)
    (hnd : (info.tracks.map (fun t => t.path)).Nodup)
    (hdisjoint : ∀ t ∈ db.tracks,
      t.path ∉ info.tracks.map (fun t2 => t2.path)) :
    scanDBOk (dbInsertAlbum db p0 info).1 := by
  obtain ⟨hap, hai, hab, htp, htb⟩ := hOk
  refine ⟨?_, ?_, ?_, ?_, ?_⟩
  · show ((db.albums ++ [insertAlbumRow db.nextAlbumId p0 info]).map
      (fun a => a.path)).Nodup
    rw [List.map_append]
    have hsing : (List.map (fun a => a.path)
        [insertAlbumRow db.nextAlbumId p0 info]) = [p0] := rfl
    rw [hsing]
    rw [(List.perm_append_singleton _ _).nodup_iff, List.nodup_cons]
    refine ⟨?_, hap⟩
    intro hmem
    obtain ⟨a, ha, hpa⟩ := List.mem_map.mp hmem
    have hq2 : db.albums.find? (fun a => a.path = p0) = none := hq
    rw [List.find?_eq_none] at hq2
    exact absurd (by simpa using hpa) (by simpa using hq2 a ha)
  · show ((db.albums ++ [insertAlbumRow db.nextAlbumId p0 info]).map
      (fun a => a.id)).Nodup
    rw [List.map_append]
    have hsing : (List.map (fun a => a.id)
        [insertAlbumRow db.nextAlbumId p0 info]) = [db.nextAlbumId] := rfl
    rw [hsing]
    rw [(List.perm_append_singleton _ _).nodup_iff, List.nodup_cons]
    refine ⟨?_, hai⟩
    intro hmem
    obtain ⟨a, ha, hpa⟩ := List.mem_map.mp hmem
    exact absurd hpa (Nat.ne_of_lt (hab a ha))
  · intro a ha
    show a.id < db.nextAlbumId + 1
    rcases List.mem_append.mp ha with h1 | h1
    · exact Nat.lt_succ_of_lt (hab a h1)
    · rcases List.mem_singleton.mp h1 with rfl
      exact Nat.lt_succ_self _
  · show (((db.tracks ++ ([] : List TrackRow) ++
      newTrackRows db.nextTrackId db.nextAlbumId info.tracks)).map
      (fun t => t.path)).Nodup
    rw [List.append_nil, List.map_append, newTrackRows_paths]
    refine htp.append hnd ?_
    intro p hp1 hp2
    obtain ⟨t, ht, htp2⟩ := List.mem_map.mp hp1
    exact hdisjoint t ht (htp2 ▸ hp2)
  · intro t ht
    show t.album_id < db.nextAlbumId + 1
    have ht2 : t ∈ db.tracks ++ [] ++
        newTrackRows db.nextTrackId db.nextAlbumId info.tracks := ht
    rw [List.append_nil] at ht2
    rcases List.mem_append.mp ht2 with h1 | h1
    · exact Nat.lt_succ_of_lt (htb t h1)
    · rw [newTrackRows_album_id _ _ _ t h1]
      exact Nat.lt_succ_self _

theorem removeAlbum_ok (db : ScanDB) (k : Nat) (hOk : scanDBOk db) :
    scanDBOk (removeAlbum db k) := by
  obtain ⟨hap, hai, hab, htp, htb⟩ := hOk
  refine ⟨?_, ?_, ?_, ?_, ?_⟩
  · exact ((List.filter_sublist db.albums).map (fun a => a.path)).nodup hap
  · exact ((List.filter_sublist db.albums).map (fun a => a.id)).nodup hai
  · intro a ha
    exact hab a (List.mem_of_mem_filter ha)
  · exact ((List.filter_sublist db.tracks).map (fun t => t.path)).nodup htp
  · intro t ht
    exact htb t (List.mem_of_mem_filter ht)

theorem removeObsolete_ok (dps : List String) :
    ∀ db : ScanDB, scanDBOk db → scanDBOk (removeObsolete db dps) := by
  induction dps with
  | nil => intro db h; exact h
  | cons dp dps ih =>
    intro db h
    rw [removeObsolete, List.foldl_cons]
    cases hq : queryAlbumByPath db dp with
    | none => exact ih db h
    | some old => exact ih _ (removeAlbum_ok db old.id h)

theorem removeObsolete_none_pres (dps : List String) :
    ∀ (db : ScanDB) (p : String), queryAlbumByPath db p = none →
    queryAlbumByPath (removeObsolete db dps) p = none := by
  induction dps with
  | nil => intro db p h; exact h
  | cons dp dps ih =>
    intro db p h
    rw [removeObsolete, List.foldl_cons]
    cases hq : queryAlbumByPath db dp with
    | none => exact ih db p h
    | some old => exact ih _ p (find?_none_filter _ h)

theorem removeObsolete_query_pres (dps : List String) :
    ∀ (db : ScanDB) (p : String), scanDBOk db → p ∉ dps →
    queryAlbumByPath (removeObsolete db dps) p = queryAlbumByPath db p := by
  induction dps with
  | nil => intro db p _ _; rfl
  | cons dp dps ih =>
    intro db p hOk hp
    have hne : ¬(p = dp) := fun hc => hp (hc ▸ List.mem_cons_self dp dps)
    have hp2 : p ∉ dps := fun hc => hp (List.mem_cons_of_mem dp hc)
    rw [removeObsolete, List.foldl_cons]
    cases hq : queryAlbumByPath db dp with
    | none => exact ih db p hOk hp2
    | some old =>
      obtain ⟨hoq, hop⟩ := query_some_mem hq
      have h1 := ih (removeAlbum db old.id) p (removeAlbum_ok db old.id hOk)
        hp2
      show queryAlbumByPath (removeObsolete (removeAlbum db old.id) dps) p =
        queryAlbumByPath db p
      rw [h1]
      apply removeAlbum_query_pres db old.id p hOk.1
      intro a ha hap hc
      have hae : a = old := eq_of_nodup_id hOk.2.1 ha hoq hc
      rw [hae] at hap
      exact hne (hap ▸ hop ▸ rfl)

theorem removeObsolete_query_none (dps : List String) :
    ∀ db : ScanDB, scanDBOk db → ∀ dp ∈ dps,
    queryAlbumByPath (removeObsolete db dps) dp = none := by
  induction dps with
  | nil => intro db _ dp h; cases h
  | cons dp0 dps ih =>
    intro db hOk dp hdp
    rw [removeObsolete, List.foldl_cons]
    rcases List.mem_cons.mp hdp with rfl | hmem
    · cases hq : queryAlbumByPath db dp with
      | none => exact removeObsolete_none_pres dps db dp hq
      | some old =>
        obtain ⟨hoq, hop⟩ := query_some_mem hq
        apply removeObsolete_none_pres dps
        apply removeAlbum_query_none
        intro a ha hap
        have : a = old := eq_of_nodup_path hOk.1 ha hoq (hap.trans hop.symm)
        rw [this]
    · cases hq : queryAlbumByPath db dp0 with
      | none => exact ih db hOk dp hmem
      | some old => exact ih _ (removeAlbum_ok db old.id hOk) dp hmem

theorem removeObsolete_tracks_sub (dps : List String) :
    ∀ (db : ScanDB) (t : TrackRow),
    t ∈ (removeObsolete db dps).tracks → t ∈ db.tracks := by
  induction dps with
  | nil => intro db t h; exact h
  | cons dp dps ih =>
    intro db t h
    rw [removeObsolete, List.foldl_cons] at h
    cases hq : queryAlbumByPath db dp with
    | none =>
      rw [hq] at h
      exact ih db t h
    | some old =>
      rw [hq] at h
      exact List.mem_of_mem_filter (ih (removeAlbum db old.id) t h)

theorem removeObsolete_album_pres (dps : List String) :
    ∀ (db : ScanDB) (a : AlbumRow), scanDBOk db → a ∈ db.albums →
    a.path ∉ dps → a ∈ (removeObsolete db dps).albums := by
  induction dps with
  | nil => intro db a _ h _; exact h
  | cons dp dps ih =>
    intro db a hOk ha hp
    have hne : ¬(a.path = dp) := fun hc => hp (hc ▸ List.mem_cons_self dp dps)
    have hp2 : a.path ∉ dps := fun hc => hp (List.mem_cons_of_mem dp hc)
    rw [removeObsolete, List.foldl_cons]
    cases hq : queryAlbumByPath db dp with
    | none => exact ih db a hOk ha hp2
    | some old =>
      obtain ⟨hoq, hop⟩ := query_some_mem hq
      refine ih _ a (removeAlbum_ok db old.id hOk) ?_ hp2
      apply List.mem_filter.mpr
      refine ⟨ha, ?_⟩
      simp only [decide_eq_true_eq]
      intro hc
      have hae : a = old := eq_of_nodup_id hOk.2.1 ha hoq hc
      exact hne (hae ▸ hop)

theorem removeObsolete_tracks_pres (dps : List String) :
    ∀ (db : ScanDB) (aid : Nat), scanDBOk db →
    (∃ a ∈ db.albums, a.id = aid ∧ a.path ∉ dps) →
    albumTracks (removeObsolete db dps) aid = albumTracks db aid := by
  induction dps with
  | nil => intro db aid _ _; rfl
  | cons dp dps ih =>
    intro db aid hOk ⟨a, ha, haid, hp⟩
    have hne : ¬(a.path = dp) := fun hc => hp (hc ▸ List.mem_cons_self dp dps)
    have hp2 : a.path ∉ dps := fun hc => hp (List.mem_cons_of_mem dp hc)
    rw [removeObsolete, List.foldl_cons]
    cases hq : queryAlbumByPath db dp with
    | none => exact ih db aid hOk ⟨a, ha, haid, hp2⟩
    | some old =>
      obtain ⟨hoq, hop⟩ := query_some_mem hq
      have hane : ¬(a = old) := fun hc => hne (hc ▸ hop)
      have hidne : ¬(aid = old.id) := by
        intro hc
        exact hane (eq_of_nodup_id hOk.2.1 ha hoq (haid.trans hc))
      have hmem2 : a ∈ (removeAlbum db old.id).albums := by
        apply List.mem_filter.mpr
        refine ⟨ha, ?_⟩
        simp only [decide_eq_true_eq]
        exact fun hc => hidne (haid ▸ hc ▸ rfl)
      show albumTracks (removeObsolete (removeAlbum db old.id) dps) aid =
        albumTracks db aid
      rw [ih (removeAlbum db old.id) aid (removeAlbum_ok db old.id hOk)
        ⟨a, hmem2, haid, hp2⟩]
      exact removeAlbum_tracks db old.id aid hidne

theorem scanStep_existing (db : ScanDB) (d : Discovered) (alb : AlbumRow)
    (hq : queryAlbumByPath db d.path = some alb) :
    scanStep db d =
      ((incrementalUpdate db alb d.info).1, some (alb.id, false)) := by
  unfold scanStep
  rw [hq]

theorem scanStep_new_none (db : ScanDB) (d : Discovered)
    (hq : queryAlbumByPath db d.path = none) (hinfo : d.info = none) :
    scanStep db d = (removeObsolete db d.discPaths, none) := by
  unfold scanStep
  rw [hq, hinfo]

theorem scanStep_new_some (db : ScanDB) (d : Discovered) (info : AlbumInfo)
    (hq : queryAlbumByPath db d.path = none) (hinfo : d.info = some info) :
    scanStep db d =
      ((dbInsertAlbum (removeObsolete db d.discPaths) d.path info).1,
        some ((dbInsertAlbum (removeObsolete db d.discPaths) d.path
          info).2, true)) := by
  unfold scanStep
  rw [hq, hinfo]

theorem removeObsolete_nextAlbumId (dps : List String) :
    ∀ db : ScanDB, (removeObsolete db dps).nextAlbumId = db.nextAlbumId := by
  induction dps with
  | nil => intro db; rfl
  | cons dp dps ih =>
    intro db
    rw [removeObsolete, List.foldl_cons]
    cases hq : queryAlbumByPath db dp with
    | none => exact ih db
    | some old => exact ih (removeAlbum db old.id)

theorem noop_diskEq (db : ScanDB) (aid : Nat) (info : AlbumInfo)
    (h1 : addedKeys db aid info = []) (h2 : removedKeys db aid info = []) :
    pathSetEq (diskKeys info) (dbKeys db aid) := by
  intro p
  rw [addedKeys, List.filter_eq_nil_iff] at h1
  rw [removedKeys, List.filter_eq_nil_iff] at h2
  constructor
  · intro hp
    have := h1 p hp
    simp only [decide_eq_true_eq, Decidable.not_not] at this
    exact this
  · intro hp
    have := h2 p hp
    simp only [decide_eq_true_eq, Decidable.not_not] at this
    exact this

theorem incUpd_cond_noop (db : ScanDB) (alb : AlbumRow) (info : AlbumInfo)
    (h : (addedKeys db alb.id info).isEmpty = true ∧
      (removedKeys db alb.id info).isEmpty = true) :
    incrementalUpdate db alb (some info) = (db, false) := by
  show (if (addedKeys db alb.id info).isEmpty = true ∧
      (removedKeys db alb.id info).isEmpty = true then (db, false)
    else (incUpdApply db alb.id info, true)) = (db, false)
  rw [if_pos h]

theorem synced_incUpdApply (db : ScanDB) (aid : Nat) (info : AlbumInfo)
    (d : Discovered) (hOk : scanDBOk db)
    (hforeign : ∀ alb ∈ db.albums, alb.path = d.path → ¬(alb.id = aid)) :
    synced db d → synced (incUpdApply db aid info) d := by
  unfold synced
  cases hinfo : d.info with
  | none =>
    rintro (⟨alb, hq⟩ | ⟨hq, hdps⟩)
    · have h2 : queryAlbumByPath (incUpdApply db aid info) d.path =
        some (if alb.id = aid then
          ({ alb with track_count := (diskKeys info).length,
                      status := "pending" } : AlbumRow)
        else alb) := by
        rw [incUpdApply_query, hq]
        rfl
      exact Or.inl ⟨_, h2⟩
    · refine Or.inr ⟨?_, ?_⟩
      · rw [incUpdApply_query, hq]
        rfl
      · intro dp hdp
        rw [incUpdApply_query, hdps dp hdp]
        rfl
  | some info0 =>
    rintro ⟨alb, hq, heq⟩
    obtain ⟨hmem, hpath⟩ := query_some_mem hq
    have hne : ¬(alb.id = aid) := hforeign alb hmem hpath
    have h2 : queryAlbumByPath (incUpdApply db aid info) d.path =
        some (if alb.id = aid then
          ({ alb with track_count := (diskKeys info).length,
                      status := "pending" } : AlbumRow)
        else alb) := by
      rw [incUpdApply_query, hq]
      rfl
    rw [if_neg hne] at h2
    refine ⟨alb, h2, ?_⟩
    have ht := incUpdApply_tracks_other db aid info alb.id hne hOk.2.2.2.1
    intro p
    rw [dbKeys, ht]
    exact heq p

theorem synced_removeObsolete (db : ScanDB) (dps : List String)
    (d : Discovered) (hOk : scanDBOk db) (hd : d.path ∉ dps) :
    synced db d → synced (removeObsolete db dps) d := by
  unfold synced
  cases hinfo : d.info with
  | none =>
    rintro (⟨alb, hq⟩ | ⟨hq, hdps⟩)
    · refine Or.inl ⟨alb, ?_⟩
      rw [removeObsolete_query_pres dps db d.path hOk hd]
      exact hq
    · refine Or.inr ⟨removeObsolete_none_pres dps db d.path hq, ?_⟩
      intro dp hdp
      exact removeObsolete_none_pres dps db dp (hdps dp hdp)
  | some info0 =>
    rintro ⟨alb, hq, heq⟩
    obtain ⟨hmem, hpath⟩ := query_some_mem hq
    refine ⟨alb, ?_, ?_⟩
    · rw [removeObsolete_query_pres dps db d.path hOk hd]
      exact hq
    · have ht := removeObsolete_tracks_pres dps db alb.id hOk
        ⟨alb, hmem, rfl, by rw [hpath]; exact hd⟩
      intro p
      rw [dbKeys, ht]
      exact heq p

theorem synced_dbInsert (db : ScanDB) (p0 : String) (info0 : AlbumInfo)
    (d : Discovered)
    (hne : ¬(d.path = p0)) (hdp : ∀ dp2 ∈ d.discPaths, ¬(dp2 = p0))
    (hbound : ∀ alb ∈ db.albums, alb.id < db.nextAlbumId) :
    synced db d → synced (dbInsertAlbum db p0 info0).1 d := by
  unfold synced
  cases hinfo : d.info with
  | none =>
    rintro (⟨alb, hq⟩ | ⟨hq, hdps⟩)
    · refine Or.inl ⟨alb, ?_⟩
      rw [dbInsert_query_other db p0 info0 d.path hne]
      exact hq
    · refine Or.inr ⟨?_, ?_⟩
      · rw [dbInsert_query_other db p0 info0 d.path hne]
        exact hq
      · intro dp hdp2
        rw [dbInsert_query_other db p0 info0 dp (hdp dp hdp2)]
        exact hdps dp hdp2
  | some infoD =>
    rintro ⟨alb, hq, heq⟩
    obtain ⟨hmem, _⟩ := query_some_mem hq
    refine ⟨alb, ?_, ?_⟩
    · rw [dbInsert_query_other db p0 info0 d.path hne]
      exact hq
    · have ht := dbInsert_tracks_other db p0 info0 alb.id
        (Nat.ne_of_lt (hbound alb hmem))
      intro p
      rw [dbKeys, ht]
      exact heq p

theorem owned_incUpdApply (db : ScanDB) (aid : Nat) (info : AlbumInfo)
    (d : Discovered)
    (hdisj : ∀ i, d.info = some i → ∀ p, p ∈ i.tracks.map (fun t => t.path) →
      p ∉ info.tracks.map (fun t => t.path)) :
    tracksOwned db d → tracksOwned (incUpdApply db aid info) d := by
  intro h i hi t ht hp
  rcases List.mem_append.mp ht with hold | hnew
  · obtain ⟨a, ha, hap, hid⟩ := h i hi t (List.mem_of_mem_filter hold) hp
    refine ⟨(fun a : AlbumRow =>
      if a.id = aid then
        ({ a with track_count := (diskKeys info).length,
                  status := "pending" } : AlbumRow)
      else a) a, List.mem_map.mpr ⟨a, ha, rfl⟩, ?_, ?_⟩
    · rw [incUpdFun_path aid info a]
      exact hap
    · rw [incUpdFun_id aid info a]
      exact hid
  · exfalso
    have hpath : t.path ∈ addedKeys db aid info := by
      rw [← addedTrackInfos_paths db aid info,
        ← newTrackRows_paths db.nextTrackId aid]
      exact List.mem_map.mpr ⟨t, hnew, rfl⟩
    have hdisk : t.path ∈ diskKeys info := List.mem_of_mem_filter hpath
    exact hdisj i hi t.path hp ((mem_diskKeys info t.path).mp hdisk)

theorem owned_removeObsolete (db : ScanDB) (dps : List String)
    (d : Discovered) (hOk : scanDBOk db) (hd : d.path ∉ dps) :
    tracksOwned db d → tracksOwned (removeObsolete db dps) d := by
  intro h i hi t ht hp
  obtain ⟨a, ha, hap, hid⟩ :=
    h i hi t (removeObsolete_tracks_sub dps db t ht) hp
  refine ⟨a, ?_, hap, hid⟩
  exact removeObsolete_album_pres dps db a hOk ha (by rw [hap]; exact hd)

theorem owned_dbInsert (db : ScanDB) (p0 : String) (info0 : AlbumInfo)
    (d : Discovered)
    (hdisj : ∀ i, d.info = some i → ∀ p, p ∈ i.tracks.map (fun t => t.path) →
      p ∉ info0.tracks.map (fun t => t.path)) :
    tracksOwned db d → tracksOwned (dbInsertAlbum db p0 info0).1 d := by
  intro h i hi t ht hp
  have ht2 : t ∈ db.tracks ++ ([] : List TrackRow) ++
      newTrackRows db.nextTrackId db.nextAlbumId info0.tracks := ht
  rw [List.append_nil] at ht2
  rcases List.mem_append.mp ht2 with hold | hnew
  · obtain ⟨a, ha, hap, hid⟩ := h i hi t hold hp
    exact ⟨a, List.mem_append.mpr (Or.inl ha), hap, hid⟩
  · exfalso
    have hpath : t.path ∈ info0.tracks.map (fun t => t.path) := by
      rw [← newTrackRows_paths db.nextTrackId db.nextAlbumId]
      exact List.mem_map.mpr ⟨t, hnew, rfl⟩
    exact hdisj i hi t.path hp hpath

theorem scanStep_ok (db : ScanDB) (d' : Discovered)
    (hOk : scanDBOk db) (hown : tracksOwned db d')
    (hnd : ∀ i, d'.info = some i → (i.tracks.map (fun t => t.path)).Nodup) :
    scanDBOk (scanStep db d').1 := by
  cases hq : queryAlbumByPath db d'.path with
  | some alb =>
    rw [scanStep_existing db d' alb hq]
    cases hinfo : d'.info with
    | none => exact hOk
    | some info =>
      by_cases hcond : (addedKeys db alb.id info).isEmpty = true ∧
          (removedKeys db alb.id info).isEmpty = true
      · rw [incUpd_cond_noop db alb info hcond]
        exact hOk
      · rw [incUpd_update db alb info hcond]
        apply incUpdApply_ok db alb.id info hOk
          (hOk.2.2.1 alb (query_some_mem hq).1)
        intro t ht hp
        obtain ⟨a, ha, hap, hid⟩ := hown info hinfo t ht hp
        have hae : a = alb :=
          eq_of_nodup_path hOk.1 ha (query_some_mem hq).1
            (hap.trans (query_some_mem hq).2.symm)
        rw [hid, hae]
  | none =>
    cases hinfo : d'.info with
    | none =>
      rw [scanStep_new_none db d' hq hinfo]
      exact removeObsolete_ok _ db hOk
    | some info =>
      rw [scanStep_new_some db d' info hq hinfo]
      apply dbInsert_ok _ _ _ (removeObsolete_ok _ db hOk)
      · exact removeObsolete_none_pres _ db d'.path hq
      · exact hnd info hinfo
      · intro t ht hp
        have htdb := removeObsolete_tracks_sub _ db t ht
        obtain ⟨a, ha, hap, _⟩ := hown info hinfo t htdb hp
        have hq2 : db.albums.find? (fun a => a.path = d'.path) = none := hq
        rw [List.find?_eq_none] at hq2
        have hq3 : ¬(a.path = d'.path) := by simpa using hq2 a ha
        exact hq3 hap

theorem scanStep_synced_pres (db : ScanDB) (d' d : Discovered)
    (hOk : scanDBOk db)
    (hpne : ¬(d.path = d'.path))
    (hdin : d.path ∉ d'.discPaths)
    (hdpne : ∀ dp2 ∈ d.discPaths, ¬(dp2 = d'.path))
    (hsync : synced db d) :
    synced (scanStep db d').1 d := by
  cases hq : queryAlbumByPath db d'.path with
  | some alb =>
    rw [scanStep_existing db d' alb hq]
    have hforeign : ∀ a ∈ db.albums, a.path = d.path → ¬(a.id = alb.id) := by
      intro a ha hap hc
      have hae : a = alb := eq_of_nodup_id hOk.2.1 ha (query_some_mem hq).1 hc
      exact hpne (hap ▸ (hae ▸ (query_some_mem hq).2))
    cases hinfo : d'.info with
    | none => exact hsync
    | some info =>
      by_cases hcond : (addedKeys db alb.id info).isEmpty = true ∧
          (removedKeys db alb.id info).isEmpty = true
      · rw [incUpd_cond_noop db alb info hcond]
        exact hsync
      · rw [incUpd_update db alb info hcond]
        exact synced_incUpdApply db alb.id info d hOk hforeign hsync
  | none =>
    cases hinfo : d'.info with
    | none =>
      rw [scanStep_new_none db d' hq hinfo]
      exact synced_removeObsolete db d'.discPaths d hOk hdin hsync
    | some info =>
      rw [scanStep_new_some db d' info hq hinfo]
      apply synced_dbInsert _ d'.path info d hpne hdpne
        (removeObsolete_ok _ db hOk).2.2.1
      exact synced_removeObsolete db d'.discPaths d hOk hdin hsync

theorem scanStep_owned_pres (db : ScanDB) (d' d : Discovered)
    (hOk : scanDBOk db)
    (hdin : d.path ∉ d'.discPaths)
    (hdisj : ∀ i, d.info = some i → ∀ i2, d'.info = some i2 →
      ∀ p, p ∈ i.tracks.map (fun t => t.path) →
        p ∉ i2.tracks.map (fun t => t.path))
    (hown : tracksOwned db d) :
    tracksOwned (scanStep db d').1 d := by
  cases hq : queryAlbumByPath db d'.path with
  | some alb =>
    rw [scanStep_existing db d' alb hq]
    cases hinfo : d'.info with
    | none => exact hown
    | some info =>
      by_cases hcond : (addedKeys db alb.id info).isEmpty = true ∧
          (removedKeys db alb.id info).isEmpty = true
      · rw [incUpd_cond_noop db alb info hcond]
        exact hown
      · rw [incUpd_update db alb info hcond]
        exact owned_incUpdApply db alb.id info d
          (fun i hi p hp => hdisj i hi info hinfo p hp) hown
  | none =>
    cases hinfo : d'.info with
    | none =>
      rw [scanStep_new_none db d' hq hinfo]
      exact owned_removeObsolete db d'.discPaths d hOk hdin hown
    | some info =>
      rw [scanStep_new_some db d' info hq hinfo]
      apply owned_dbInsert _ d'.path info d
        (fun i hi p hp => hdisj i hi info hinfo p hp)
      exact owned_removeObsolete db d'.discPaths d hOk hdin hown

theorem scanStep_self_sync (db : ScanDB) (d' : Discovered)
    (hOk : scanDBOk db) :
    synced (scanStep db d').1 d' := by
  cases hq : queryAlbumByPath db d'.path with
  | some alb =>
    rw [scanStep_existing db d' alb hq]
    cases hinfo : d'.info with
    | none =>
      unfold synced
      rw [hinfo]
      exact Or.inl ⟨alb, hq⟩
    | some info =>
      by_cases hcond : (addedKeys db alb.id info).isEmpty = true ∧
          (removedKeys db alb.id info).isEmpty = true
      · rw [incUpd_cond_noop db alb info hcond]
        unfold synced
        rw [hinfo]
        exact ⟨alb, hq, noop_diskEq db alb.id info
          (List.isEmpty_iff.mp hcond.1) (List.isEmpty_iff.mp hcond.2)⟩
      · rw [incUpd_update db alb info hcond]
        unfold synced
        rw [hinfo]
        have h2 : queryAlbumByPath (incUpdApply db alb.id info) d'.path =
            some (if alb.id = alb.id then
              ({ alb with track_count := (diskKeys info).length,
                          status := "pending" } : AlbumRow)
            else alb) := by
          rw [incUpdApply_query, hq]
          rfl
        rw [if_pos rfl] at h2
        refine ⟨_, h2, ?_⟩
        have h3 := incUpdApply_self_sync db alb.id info
        exact h3
  | none =>
    cases hinfo : d'.info with
    | none =>
      rw [scanStep_new_none db d' hq hinfo]
      unfold synced
      rw [hinfo]
      refine Or.inr ⟨removeObsolete_none_pres _ db d'.path hq, ?_⟩
      intro dp hdp
      exact removeObsolete_query_none _ db hOk dp hdp
    | some info =>
      rw [scanStep_new_some db d' info hq hinfo]
      unfold synced
      rw [hinfo]
      refine ⟨insertAlbumRow (removeObsolete db d'.discPaths).nextAlbumId
        d'.path info, ?_, ?_⟩
      · exact dbInsert_query_self _ d'.path info
          (removeObsolete_none_pres _ db d'.path hq)
      · exact dbInsert_self_sync _ d'.path info
          (removeObsolete_ok _ db hOk).2.2.2.2

theorem scanFold_master (ds0 : List Discovered)
    (Hp : (ds0.map (fun d => d.path)).Nodup)
    (Hdp : ∀ d1 ∈ ds0, ∀ dp ∈ d1.discPaths, ∀ d2 ∈ ds0, ¬(dp = d2.path))
    (Hdisj : ∀ d1 ∈ ds0, ∀ d2 ∈ ds0, ¬(d1.path = d2.path) →
      ∀ i1 i2, d1.info = some i1 → d2.info = some i2 →
      ∀ p, p ∈ i1.tracks.map (fun t => t.path) →
        p ∉ i2.tracks.map (fun t => t.path))
    (Hnd : ∀ d ∈ ds0, ∀ i, d.info = some i →
      (i.tracks.map (fun t => t.path)).Nodup) :
    ∀ (todo done : List Discovered), ds0 = done ++ todo →
    ∀ db : ScanDB, scanDBOk db →
    (∀ d ∈ done, synced db d) →
    (∀ d ∈ todo, tracksOwned db d) →
    scanDBOk (scanFoldDb db todo) ∧
    (∀ d ∈ done ++ todo, synced (scanFoldDb db todo) d) := by
  intro todo
  induction todo with
  | nil =>
    intro done hds db hOk hsync _
    refine ⟨hOk, ?_⟩
    intro d hd
    rw [List.append_nil] at hd
    exact hsync d hd
  | cons d' todo ih =>
    intro done hds db hOk hsync hown
    have hd'mem : d' ∈ ds0 := by
      rw [hds]
      exact List.mem_append.mpr (Or.inr (List.mem_cons_self d' todo))
    have hmemdone : ∀ d ∈ done, d ∈ ds0 := fun d hd => by
      rw [hds]; exact List.mem_append.mpr (Or.inl hd)
    have hmemtodo : ∀ d ∈ todo, d ∈ ds0 := fun d hd => by
      rw [hds]
      exact List.mem_append.mpr (Or.inr (List.mem_cons_of_mem d' hd))
    have hnd0 : ((done ++ d' :: todo).map (fun d => d.path)).Nodup := by
      rw [← hds]; exact Hp
    rw [List.map_append] at hnd0
    have hdisjp := List.disjoint_of_nodup_append hnd0
    have hdone_ne : ∀ d ∈ done, ¬(d.path = d'.path) := by
      intro d hd hc
      exact hdisjp (List.mem_map.mpr ⟨d, hd, rfl⟩)
        (by rw [hc, List.map_cons]; exact List.mem_cons_self _ _)
    have hright := (List.nodup_append.mp hnd0).2.1
    rw [List.map_cons, List.nodup_cons] at hright
    have htodo_ne : ∀ d ∈ todo, ¬(d.path = d'.path) := by
      intro d hd hc
      exact hright.1 (hc ▸ List.mem_map.mpr ⟨d, hd, rfl⟩)
    have hdin : ∀ d ∈ ds0, d.path ∉ d'.discPaths := by
      intro d hd hc
      exact Hdp d' hd'mem d.path hc d hd rfl
    have hstep_ok : scanDBOk (scanStep db d').1 :=
      scanStep_ok db d' hOk (hown d' (List.mem_cons_self d' todo))
        (fun i hi => Hnd d' hd'mem i hi)
    have hself : synced (scanStep db d').1 d' := scanStep_self_sync db d' hOk
    have hsync1 : ∀ d ∈ done ++ [d'], synced (scanStep db d').1 d := by
      intro d hd
      rcases List.mem_append.mp hd with hd1 | hd1
      · exact scanStep_synced_pres db d' d hOk (hdone_ne d hd1)
          (hdin d (hmemdone d hd1))
          (fun dp2 hdp2 => Hdp d (hmemdone d hd1) dp2 hdp2 d' hd'mem)
          (hsync d hd1)
      · rcases List.mem_singleton.mp hd1 with rfl
        exact hself
    have hown1 : ∀ d ∈ todo, tracksOwned (scanStep db d').1 d := by
      intro d hd
      exact scanStep_owned_pres db d' d hOk (hdin d (hmemtodo d hd))
        (fun i hi i2 hi2 p hp =>
          Hdisj d (hmemtodo d hd) d' hd'mem (htodo_ne d hd) i i2 hi hi2 p hp)
        (hown d (List.mem_cons_of_mem d' hd))
    have hds2 : ds0 = (done ++ [d']) ++ todo := by
      rw [hds, List.append_assoc, List.singleton_append]
    have hmain := ih (done ++ [d']) hds2 (scanStep db d').1 hstep_ok
      hsync1 hown1
    refine ⟨hmain.1, ?_⟩
    intro d hd
    apply hmain.2 d
    rw [List.append_assoc, List.singleton_append]
    exact hd

theorem albumTracks_albums_map (db : ScanDB) (f : AlbumRow → AlbumRow)
    (aid : Nat) :
    albumTracks { db with albums := db.albums.map f } aid =
      albumTracks db aid := rfl

theorem synced_albums_map (db : ScanDB) (f : AlbumRow → AlbumRow)
    (hfp : ∀ a, (f a).path = a.path) (hfi : ∀ a, (f a).id = a.id)
    (d : Discovered) (h : synced db d) :
    synced { db with albums := db.albums.map f } d := by
  have hquery : ∀ p, queryAlbumByPath { db with albums := db.albums.map f } p
      = (queryAlbumByPath db p).map f := fun p =>
    find?_album_map f hfp p db.albums
  unfold synced at h ⊢
  cases hinfo : d.info with
  | none =>
    rw [hinfo] at h
    rcases h with ⟨alb, hq⟩ | ⟨hq, hdps⟩
    · refine Or.inl ⟨f alb, ?_⟩
      rw [hquery, hq]
      rfl
    · refine Or.inr ⟨?_, ?_⟩
      · rw [hquery, hq]; rfl
      · intro dp hdp
        rw [hquery, hdps dp hdp]
        rfl
  | some info =>
    rw [hinfo] at h
    obtain ⟨alb, hq, heq⟩ := h
    refine ⟨f alb, ?_, ?_⟩
    · rw [hquery, hq]; rfl
    · intro p
      rw [dbKeys, hfi alb, albumTracks_albums_map]
      exact heq p

theorem ok_albums_map (db : ScanDB) (f : AlbumRow → AlbumRow)
    (hfp : ∀ a, (f a).path = a.path) (hfi : ∀ a, (f a).id = a.id)
    (hOk : scanDBOk db) :
    scanDBOk { db with albums := db.albums.map f } := by
  obtain ⟨hap, hai, hab, htp, htb⟩ := hOk
  refine ⟨?_, ?_, ?_, ?_, ?_⟩
  · show ((db.albums.map f).map (fun a => a.path)).Nodup
    rw [map_path_pres _ _ hfp]
    exact hap
  · show ((db.albums.map f).map (fun a => a.id)).Nodup
    rw [map_id_pres _ _ hfi]
    exact hai
  · intro a ha
    obtain ⟨a0, ha0, heq⟩ := List.mem_map.mp ha
    show a.id < db.nextAlbumId
    rw [← heq, hfi a0]
    exact hab a0 ha0
  · exact htp
  · exact htb

theorem flipF_path (aid : Nat) : ∀ a : AlbumRow,
    ((fun a : AlbumRow =>
      if a.id = aid ∧ a.status = "pending" then
        { a with status := "matching" }
      else a) a).path = a.path := by
  intro a
  by_cases h : a.id = aid ∧ a.status = "pending" <;> simp [h]

theorem flipF_id (aid : Nat) : ∀ a : AlbumRow,
    ((fun a : AlbumRow =>
      if a.id = aid ∧ a.status = "pending" then
        { a with status := "matching" }
      else a) a).id = a.id := by
  intro a
  by_cases h : a.id = aid ∧ a.status = "pending" <;> simp [h]

theorem flipFold_synced (ids : List Nat) :
    ∀ (db : ScanDB) (d : Discovered), synced db d →
    synced (ids.foldl statusFlip db) d := by
  induction ids with
  | nil => intro db d h; exact h
  | cons aid ids ih =>
    intro db d h
    rw [List.foldl_cons]
    exact ih _ d (synced_albums_map db _ (flipF_path aid) (flipF_id aid) d h)

theorem flipFold_ok (ids : List Nat) :
    ∀ db : ScanDB, scanDBOk db →
    scanDBOk (ids.foldl statusFlip db) := by
  induction ids with
  | nil => intro db h; exact h
  | cons aid ids ih =>
    intro db h
    rw [List.foldl_cons]
    exact ih _ (ok_albums_map db _ (flipF_path aid) (flipF_id aid) h)

theorem scanStep_noop (db : ScanDB) (d : Discovered) (hOk : scanDBOk db)
    (h : synced db d) :
    (scanStep db d).1 = db ∧
    (∀ aid isNew, (scanStep db d).2 = some (aid, isNew) →
      isNew = false) := by
  unfold synced at h
  cases hinfo : d.info with
  | none =>
    rw [hinfo] at h
    rcases h with ⟨alb, hq⟩ | ⟨hq, hdps⟩
    · rw [scanStep_existing db d alb hq, hinfo]
      refine ⟨rfl, ?_⟩
      intro aid isNew heq
      cases heq
      rfl
    · rw [scanStep_new_none db d hq hinfo]
      refine ⟨removeObsolete_noop db d.discPaths hdps, ?_⟩
      intro aid isNew heq
      cases heq
  | some info =>
    rw [hinfo] at h
    obtain ⟨alb, hq, heq⟩ := h
    rw [scanStep_existing db d alb hq, hinfo, incUpd_noop db alb info heq]
    refine ⟨rfl, ?_⟩
    intro aid isNew heq2
    cases heq2
    rfl

theorem scanResStep_db (acc : ScanResult) (d : Discovered) :
    (scanResStep acc d).db = (scanStep acc.db d).1 := by
  show (match (scanStep acc.db d).2 with
    | some (aid, isNew) =>
      ({ db := (scanStep acc.db d).1
         albumIds := acc.albumIds ++ [aid]
         newAlbumIds := if isNew then acc.newAlbumIds ++ [aid]
                        else acc.newAlbumIds } : ScanResult)
    | none => { acc with db := (scanStep acc.db d).1 }).db =
    (scanStep acc.db d).1
  cases hr : (scanStep acc.db d).2 with
  | none => rfl
  | some p =>
    obtain ⟨aid, isNew⟩ := p
    rfl

theorem scanResultFold_db (ds : List Discovered) :
    ∀ acc : ScanResult,
    (ds.foldl scanResStep acc).db = scanFoldDb acc.db ds := by
  induction ds with
  | nil => intro acc; rfl
  | cons d ds ih =>
    intro acc
    rw [List.foldl_cons]
    calc (ds.foldl scanResStep (scanResStep acc d)).db
        = scanFoldDb (scanResStep acc d).db ds := ih (scanResStep acc d)
      _ = scanFoldDb acc.db (d :: ds) := by rw [scanResStep_db]; rfl

theorem scanResStep_noop (acc : ScanResult) (d : Discovered)
    (hdb : (scanStep acc.db d).1 = acc.db)
    (hnew : ∀ aid isNew, (scanStep acc.db d).2 = some (aid, isNew) →
      isNew = false) :
    (scanResStep acc d).db = acc.db ∧
    (scanResStep acc d).newAlbumIds = acc.newAlbumIds := by
  constructor
  · rw [scanResStep_db, hdb]
  · show (match (scanStep acc.db d).2 with
      | some (aid, isNew) =>
        ({ db := (scanStep acc.db d).1
           albumIds := acc.albumIds ++ [aid]
           newAlbumIds := if isNew then acc.newAlbumIds ++ [aid]
                          else acc.newAlbumIds } : ScanResult)
      | none => { acc with db := (scanStep acc.db d).1 }).newAlbumIds =
      acc.newAlbumIds
    cases hr : (scanStep acc.db d).2 with
    | none => rfl
    | some p =>
      obtain ⟨aid, isNew⟩ := p
      have hfalse := hnew aid isNew hr
      show (if isNew = true then acc.newAlbumIds ++ [aid]
        else acc.newAlbumIds) = acc.newAlbumIds
      rw [hfalse]
      simp

theorem scanResultFold_noop (ds : List Discovered) :
    ∀ acc : ScanResult, scanDBOk acc.db → (∀ d ∈ ds, synced acc.db d) →
    (ds.foldl scanResStep acc).db = acc.db ∧
    (ds.foldl scanResStep acc).newAlbumIds = acc.newAlbumIds := by
  induction ds with
  | nil => intro acc _ _; exact ⟨rfl, rfl⟩
  | cons d ds ih =>
    intro acc hOk hsync
    obtain ⟨hdb, hnew⟩ := scanStep_noop acc.db d hOk
      (hsync d (List.mem_cons_self d ds))
    obtain ⟨h1, h2⟩ := scanResStep_noop acc d hdb hnew
    rw [List.foldl_cons]
    obtain ⟨h3, h4⟩ := ih (scanResStep acc d) (by rw [h1]; exact hOk)
      (by rw [h1]; exact fun d2 hd2 => hsync d2 (List.mem_cons_of_mem d hd2))
    rw [h3, h4, h1, h2]
    exact ⟨rfl, rfl⟩

/-- **C9.**  Over an unchanged filesystem — and a database respecting the
schema's uniqueness constraints whose track rows inside scanned folders
belong to the album at that folder — a second `scan_directory(root,
force=false)` creates no album records and performs no incremental update:
the database (albums, tracks, statuses and logs alike) is returned
unchanged and the new-album list is empty. -/
theorem scanDirectory_idempotent (discPat : String → Option Int)
    (rootPath : String) (root : FsDir) (db0 : ScanDB)
    (HOk : scanDBOk db0)
    (Hown : ∀ d ∈ discover discPat rootPath root, tracksOwned db0 d)
    (Hp : ((discover discPat rootPath root).map
      (fun d => d.path)).Nodup)
    (Hdp : ∀ d1 ∈ discover discPat rootPath root, ∀ dp ∈ d1.discPaths,
      ∀ d2 ∈ discover discPat rootPath root, ¬(dp = d2.path))
    (Hdisj : ∀ d1 ∈ discover discPat rootPath root,
      ∀ d2 ∈ discover discPat rootPath root, ¬(d1.path = d2.path) →
      ∀ i1 i2, d1.info = some i1 → d2.info = some i2 →
      ∀ p, p ∈ i1.tracks.map (fun t => t.path) →
        p ∉ i2.tracks.map (fun t => t.path))
    (Hnd : ∀ d ∈ discover discPat rootPath root, ∀ i, d.info = some i →
      (i.tracks.map (fun t => t.path)).Nodup) :
    (scanDirectory discPat rootPath root
      (scanDirectory discPat rootPath root db0).db).db =
      (scanDirectory discPat rootPath root db0).db ∧
    (scanDirectory discPat rootPath root
      (scanDirectory discPat rootPath root db0).db).newAlbumIds = [] := by
  obtain ⟨hOk1, hsync1⟩ := scanFold_master (discover discPat rootPath root)
    Hp Hdp Hdisj Hnd (discover discPat rootPath root) []
    (List.nil_append _).symm db0 HOk
    (fun d hd => absurd hd (List.not_mem_nil d)) Hown
  have hsync1' : ∀ d ∈ discover discPat rootPath root,
      synced (scanFoldDb db0 (discover discPat rootPath root)) d := by
    intro d hd
    apply hsync1 d
    rw [List.nil_append]
    exact hd
  have hr1db : (scanDirectory discPat rootPath root db0).db =
      ((discover discPat rootPath root).foldl scanResStep
        ({ db := db0 } : ScanResult)).newAlbumIds.foldl statusFlip
        (((discover discPat rootPath root).foldl scanResStep
          ({ db := db0 } : ScanResult)).db) := rfl
  have hfdb : ((discover discPat rootPath root).foldl scanResStep
      ({ db := db0 } : ScanResult)).db =
      scanFoldDb db0 (discover discPat rootPath root) :=
    scanResultFold_db _ _
  have hOkr1 : scanDBOk (scanDirectory discPat rootPath root db0).db := by
    rw [hr1db, hfdb]
    exact flipFold_ok _ _ hOk1
  have hsyncr1 : ∀ d ∈ discover discPat rootPath root,
      synced (scanDirectory discPat rootPath root db0).db d := by
    intro d hd
    rw [hr1db, hfdb]
    exact flipFold_synced _ _ d (hsync1' d hd)
  obtain ⟨h2db, h2new⟩ := scanResultFold_noop
    (discover discPat rootPath root)
    ({ db := (scanDirectory discPat rootPath root db0).db } : ScanResult)
    hOkr1 hsyncr1
  have hr2new : (scanDirectory discPat rootPath root
      (scanDirectory discPat rootPath root db0).db).newAlbumIds =
      ((discover discPat rootPath root).foldl scanResStep
        ({ db := (scanDirectory discPat rootPath root db0).db } :
          ScanResult)).newAlbumIds := rfl
  have hr2db : (scanDirectory discPat rootPath root
      (scanDirectory discPat rootPath root db0).db).db =
      ((discover discPat rootPath root).foldl scanResStep
        ({ db := (scanDirectory discPat rootPath root db0).db } :
          ScanResult)).newAlbumIds.foldl statusFlip
        (((discover discPat rootPath root).foldl scanResStep
          ({ db := (scanDirectory discPat rootPath root db0).db } :
            ScanResult)).db) := rfl
  constructor
  · rw [hr2db, h2new, h2db]
    rfl
  · rw [hr2new, h2new]

/-- Witness for C9: one album folder with one readable FLAC file over a
fresh database. -/
theorem scanDirectory_idempotent_witness :
    (scanDirectory (fun _ => none) "/m"
      (FsDir.mk "m" []
        [FsDir.mk "A"
          [{ name := "01.flac", ext := ".flac",
             meta := some ({ path := "x" } : TrackInfo) }] []])
      (scanDirectory (fun _ => none) "/m"
        (FsDir.mk "m" []
          [FsDir.mk "A"
            [{ name := "01.flac", ext := ".flac",
               meta := some ({ path := "x" } : TrackInfo) }] []])
        ({} : ScanDB)).db).newAlbumIds = [] := by
  have huniq : ∀ d1 ∈ discover (fun _ => none) "/m"
      (FsDir.mk "m" []
        [FsDir.mk "A"
          [{ name := "01.flac", ext := ".flac",
             meta := some ({ path := "x" } : TrackInfo) }] []]),
      ∀ d2 ∈ discover (fun _ => none) "/m"
        (FsDir.mk "m" []
          [FsDir.mk "A"
            [{ name := "01.flac", ext := ".flac",
               meta := some ({ path := "x" } : TrackInfo) }] []]),
      d1.path = d2.path := by decide
  have hnd0 : ∀ d ∈ discover (fun _ => none) "/m"
      (FsDir.mk "m" []
        [FsDir.mk "A"
          [{ name := "01.flac", ext := ".flac",
             meta := some ({ path := "x" } : TrackInfo) }] []]),
      ((d.info.map (fun i => i.tracks.map (fun t => t.path))).getD
        []).Nodup := by decide
  have h := scanDirectory_idempotent (fun _ => none) "/m"
    (FsDir.mk "m" []
      [FsDir.mk "A"
        [{ name := "01.flac", ext := ".flac",
           meta := some ({ path := "x" } : TrackInfo) }] []])
    ({} : ScanDB)
    (by unfold scanDBOk; decide)
    (by intro d hd info hinfo t ht hp
        cases ht)
    (by decide)
    (by decide)
    (by intro d1 h1 d2 h2 hne i1 i2 hi1 hi2 p hp1 hp2
        exact hne (huniq d1 h1 d2 h2))
    (by intro d hd i hi
        have h0 := hnd0 d hd
        rw [hi] at h0
        simpa using h0)
  exact h.2

end MusicTaggerz
